import Mathlib

/-!
Shallow embedding of the accessibility remediation core of the repository
(src/backend/a11y.py and src/backend/fixer.py) and proofs about it.

Modelling conventions:
* An HTML document is a tree of element and text nodes (the BeautifulSoup
  parse tree).  Every node carries a numeric identifier `nid` standing for
  Python object identity; nodes created by the fixer carry `nid = 0`.
* Attribute values are strings, token lists (BeautifulSoup multi-valued
  attributes such as rel), booleans and numbers (used in the synthetic
  document chunk and in issue details).
* Python string operations (strip, lower, split, title, ...) are modelled
  by the pyXxx helpers below with Python semantics for the ASCII range.
* BeautifulSoup behaviour is modelled as follows: find_all walks the
  descendants of a tag in document (preorder) order and yields element
  nodes only; get_text(sep, strip=True) joins the stripped, non-empty
  descendant strings; assigning tag.string replaces all children with a
  single text node; assigning tag[k] keeps the position of an existing
  attribute key and appends a new key at the end.
* The helper _text_of in a11y.py physically extracts script/style/noscript
  subtrees before reading text; this is modelled by the pure function
  textOf which reads the text of the pruned tree (its net effect).
-/

namespace A11y

/-- Attribute and detail values of the embedded Python dicts: strings, token
lists (multi-valued attributes), booleans and natural numbers. -/
inductive Val where
  | s (x : String)
  | l (xs : List String)
  | b (x : Bool)
  | n (x : Nat)
  | nullV
deriving DecidableEq, Repr

/-- Python whitespace characters used by str.strip() and str.split(). -/
def pyWs : List Char := [' ', '\t', '\n', '\r', '\x0b', '\x0c']

/-- Strip the given characters from both ends of a string (Python str.strip(chars)). -/
def pyStripChars (cs : List Char) (s : String) : String :=
  String.mk (((s.data.dropWhile (cs.contains ·)).reverse.dropWhile (cs.contains ·)).reverse)

/-- Python str.strip() with no argument: strip whitespace from both ends. -/
def pyStrip (s : String) : String := pyStripChars pyWs s

/-- Split a character list at every character satisfying the predicate,
keeping empty pieces. -/
def splitPAux (p : Char → Bool) (cur : List Char) : List Char → List (List Char)
  | [] => [cur.reverse]
  | c :: cs =>
    if p c then cur.reverse :: splitPAux p [] cs
    else splitPAux p (c :: cur) cs

/-- Python str.split() with no argument: split on whitespace runs, dropping empties. -/
def pySplitWs (s : String) : List String :=
  ((splitPAux (fun c => pyWs.contains c) [] s.data).map String.mk).filter (fun x => x ≠ "")

/-- Python str.title() for the ASCII range: the first letter after a
non-letter is uppercased, subsequent letters are lowercased. -/
def pyTitleAux : Bool → List Char → List Char
  | _, [] => []
  | prevAlpha, c :: rest =>
    (if c.isAlpha then (if prevAlpha then c.toLower else c.toUpper) else c)
      :: pyTitleAux c.isAlpha rest

/-- Python str.title() (ASCII). -/
def pyTitle (s : String) : String := String.mk (pyTitleAux false s.data)

/-- Lexicographic comparison of character lists by code point (Python
string comparison). -/
def lexLe : List Char → List Char → Bool
  | [], _ => true
  | _ :: _, [] => false
  | a :: as, b :: bs =>
    if a.toNat < b.toNat then true
    else if b.toNat < a.toNat then false
    else lexLe as bs

/-- Python string less-or-equal (code-point lexicographic). -/
def strLeB (x y : String) : Bool := lexLe x.data y.data

/-- Insertion of a string into a sorted list (ascending, Python sorted order
for ASCII strings, which is codepoint-lexicographic). -/
def sortedInsert (x : String) : List String → List String
  | [] => [x]
  | y :: ys => if strLeB x y then x :: y :: ys else y :: sortedInsert x ys

/-- Python sorted() on a list of strings. -/
def pySorted (xs : List String) : List String := xs.foldr sortedInsert []

/-- Truthiness of a value, as Python bool(). -/
def Val.truthy : Val → Bool
  | .s x => x ≠ ""
  | .l xs => xs ≠ []
  | .b x => x
  | .n x => x ≠ 0
  | .nullV => false

/-- Coerce a value to the string the Python code would effectively see when
it uses it in string position.  Parser-produced documents only ever hold
strings at the keys read this way; the other cases are defensive totalizations. -/
def Val.str : Val → String
  | .s x => x
  | .l xs => String.intercalate " " xs
  | .b x => if x then "True" else "False"
  | .n x => toString x
  | .nullV => "None"

/-- Attribute dictionaries (Python dict preserving insertion order, unique keys). -/
abbrev Attrs := List (String × Val)

/-- Dict lookup d.get(k): the value at the first occurrence of the key. -/
def getA (a : Attrs) (k : String) : Option Val :=
  (a.find? (fun p => p.1 = k)).map Prod.snd

/-- Dict lookup in string position with empty default: (d.get(k) or ""), as a string. -/
def getS (a : Attrs) (k : String) : String :=
  match getA a k with
  | some v => v.str
  | none => ""

/-- First truthy value of a chain of Python or-expressions over lookups. -/
def firstTruthy : List (Option Val) → Option Val
  | [] => none
  | x :: rest =>
    match x with
    | some v => if v.truthy then some v else firstTruthy rest
    | none => firstTruthy rest

/-- Set d[k] = v on a dict: replace in place if the key exists, else append. -/
def setA (a : Attrs) (k : String) (v : Val) : Attrs :=
  if (a.find? (fun p => p.1 = k)).isSome then
    a.map (fun p => if p.1 = k then (k, v) else p)
  else a ++ [(k, v)]

mutual
/-- A node of the parsed HTML tree: an element with a tag, attributes and
children, or a text node.  The nid stands for Python object identity. -/
inductive Node where
  | elem (nid : Nat) (tag : String) (attrs : Attrs) (kids : NodeList)
  | txt (nid : Nat) (s : String)
deriving DecidableEq, Repr

/-- Ordered list of sibling nodes. -/
inductive NodeList where
  | nil
  | cons (head : Node) (tail : NodeList)
deriving DecidableEq, Repr
end

/-- Tag name of a node (empty for text nodes, which have no name). -/
def Node.tag : Node → String
  | .elem _ t _ _ => t
  | .txt _ _ => ""

/-- Identity of a node. -/
def Node.nid : Node → Nat
  | .elem i _ _ _ => i
  | .txt i _ => i

/-- Attributes of a node (empty for text nodes). -/
def Node.attrs : Node → Attrs
  | .elem _ _ a _ => a
  | .txt _ _ => []

/-- Children of a node (empty for text nodes). -/
def Node.kids : Node → NodeList
  | .elem _ _ _ cs => cs
  | .txt _ _ => .nil

/-- Whether a node is an element (a BeautifulSoup Tag). -/
def Node.isElem : Node → Bool
  | .elem _ _ _ _ => true
  | .txt _ _ => false

/-- Predicate: element with the given tag name (find_all(name) matcher). -/
def isTag (t : String) : Node → Bool
  | .elem _ tg _ _ => tg = t
  | .txt _ _ => false

/-- Conversion of a sibling list to a plain list. -/
def NodeList.toList : NodeList → List Node
  | .nil => []
  | .cons h tl => h :: tl.toList

/-- Conversion of a plain list to a sibling list. -/
def NodeList.ofList : List Node → NodeList
  | [] => .nil
  | h :: tl => .cons h (NodeList.ofList tl)

/-- Concatenation of sibling lists. -/
def NodeList.append : NodeList → NodeList → NodeList
  | .nil, ys => ys
  | .cons h tl, ys => .cons h (tl.append ys)

/-- All descendant text-node strings of a sibling list, in document order. -/
def NodeList.strings : NodeList → List String
  | .nil => []
  | .cons (.txt _ s) tl => s :: tl.strings
  | .cons (.elem _ _ _ cs) tl => cs.strings ++ tl.strings

/-- All descendant text-node strings of a node (including itself for text nodes). -/
def Node.strings : Node → List String
  | .txt _ s => [s]
  | .elem _ _ _ cs => cs.strings

/-- BeautifulSoup tag.get_text(sep, strip=True): the stripped non-empty
descendant strings joined with the separator. -/
def getTextSep (sep : String) (n : Node) : String :=
  String.intercalate sep ((n.strings.map pyStrip).filter (fun x => x ≠ ""))

/-- BeautifulSoup tag.get_text(strip=True) (empty separator). -/
def getTextStrip (n : Node) : String :=
  String.join ((n.strings.map pyStrip).filter (fun x => x ≠ ""))

/-- Removal of all descendant subtrees whose root tag is in the given list
(the effect of el.extract() on every script/style/noscript under a tag). -/
def NodeList.prune (bad : List String) : NodeList → NodeList
  | .nil => .nil
  | .cons (.txt i s) tl => .cons (.txt i s) (tl.prune bad)
  | .cons (.elem i t a cs) tl =>
    if bad.contains t then tl.prune bad
    else .cons (.elem i t a (cs.prune bad)) (tl.prune bad)

/-- The helper _text_of of a11y.py: visible text of a tag with
script/style/noscript subtrees removed, whitespace-normalized.  The
physical extraction of those subtrees is modelled by reading the pruned tree. -/
def textOf (n : Node) : String :=
  match n with
  | .txt _ _ => ""
  | .elem i t a cs => getTextSep " " (.elem i t a (cs.prune ["script", "style", "noscript"]))

/-- All matching element nodes among a sibling list and their descendants,
in document (preorder) order: the BeautifulSoup find_all order. -/
def NodeList.findAll (p : Node → Bool) : NodeList → List Node
  | .nil => []
  | .cons (.txt _ _) tl => tl.findAll p
  | .cons (.elem i t a cs) tl =>
    (if p (.elem i t a cs) then [Node.elem i t a cs] else [])
      ++ cs.findAll p ++ tl.findAll p

/-- BeautifulSoup tag.find_all(pred): matching descendants of a node, in
document order (the node itself is not a candidate). -/
def Node.findAll (p : Node → Bool) (n : Node) : List Node :=
  n.kids.findAll p

/-- BeautifulSoup tag.find(pred): the first matching descendant. -/
def Node.findFirst (p : Node → Bool) (n : Node) : Option Node :=
  (n.findAll p).head?

/-- All node identities in a sibling list (elements and text nodes). -/
def NodeList.nids : NodeList → List Nat
  | .nil => []
  | .cons (.txt i _) tl => i :: tl.nids
  | .cons (.elem i _ _ cs) tl => i :: (cs.nids ++ tl.nids)

/-- All node identities in a tree. -/
def Node.nids : Node → List Nat
  | .txt i _ => [i]
  | .elem i _ _ cs => i :: cs.nids

/-- All text nodes of a sibling list as (identity, content) pairs. -/
def NodeList.textNodes : NodeList → List (Nat × String)
  | .nil => []
  | .cons (.txt i s) tl => (i, s) :: tl.textNodes
  | .cons (.elem _ _ _ cs) tl => cs.textNodes ++ tl.textNodes

/-- All text nodes of a tree as (identity, content) pairs. -/
def Node.textNodes : Node → List (Nat × String)
  | .txt i s => [(i, s)]
  | .elem _ _ _ cs => cs.textNodes

end A11y

namespace A11y

/-- Result of editing one matched element: its new tag name, new attributes,
and optionally a full replacement of its children (the effect of assigning
tag.string, whose new contents are not visited by a precomputed find_all
loop).  With repl = none the original children are kept (and, for updAll,
still visited, as they were part of the precomputed element list). -/
structure Edit where
  tag : String
  attrs : Attrs
  repl : Option NodeList

/-- Apply an edit to an element node, keeping its identity. -/
def applyEdit (f : Node → Edit) (n : Node) : Node :=
  match n with
  | .elem i _ _ cs =>
    let e := f (.elem i n.tag n.attrs cs)
    .elem i e.tag e.attrs (e.repl.getD cs)
  | t => t

/-- Edit every matching element of a precomputed find_all list, in document
order; children replaced by an edit are not visited (they were not in the
precomputed list), children kept by an edit are. -/
def NodeList.updAll (p : Node → Bool) (f : Node → Edit) : NodeList → NodeList
  | .nil => .nil
  | .cons (.txt i s) tl => .cons (.txt i s) (tl.updAll p f)
  | .cons (.elem i t a cs) tl =>
    let n := Node.elem i t a cs
    let h :=
      if p n then
        let e := f n
        match e.repl with
        | some newCs => Node.elem i e.tag e.attrs newCs
        | none => Node.elem i e.tag e.attrs (cs.updAll p f)
      else Node.elem i t a (cs.updAll p f)
    .cons h (tl.updAll p f)

/-- Loop over find_all with an edit and a break on the first matching
element: edit only the first match, in document order.  Returns the new
list and whether a match was found. -/
def NodeList.updFirst (p : Node → Bool) (f : Node → Edit) : NodeList → NodeList × Bool
  | .nil => (.nil, false)
  | .cons (.txt i s) tl =>
    let r := tl.updFirst p f
    (.cons (.txt i s) r.1, r.2)
  | .cons (.elem i t a cs) tl =>
    let n := Node.elem i t a cs
    if p n then (.cons (applyEdit f n) tl, true)
    else
      let r := cs.updFirst p f
      if r.2 then (.cons (Node.elem i t a r.1) tl, true)
      else
        let r2 := tl.updFirst p f
        (.cons (Node.elem i t a cs) r2.1, r2.2)

/-- Replace the first matching element (document order) by a list of nodes:
the shape of target.insert_before(x) edits and el.wrap(w). -/
def NodeList.spliceFirst (p : Node → Bool) (f : Node → List Node) :
    NodeList → NodeList × Bool
  | .nil => (.nil, false)
  | .cons (.txt i s) tl =>
    let r := tl.spliceFirst p f
    (.cons (.txt i s) r.1, r.2)
  | .cons (.elem i t a cs) tl =>
    let n := Node.elem i t a cs
    if p n then ((NodeList.ofList (f n)).append tl, true)
    else
      let r := cs.spliceFirst p f
      if r.2 then (.cons (Node.elem i t a r.1) tl, true)
      else
        let r2 := tl.spliceFirst p f
        (.cons (Node.elem i t a cs) r2.1, r2.2)

/-- Edit every matching descendant of the soup object (find_all runs on the
document root, which is itself not a candidate). -/
def updAll (p : Node → Bool) (f : Node → Edit) (soup : Node) : Node :=
  match soup with
  | .elem i t a cs => .elem i t a (cs.updAll p f)
  | n => n

/-- Edit the first matching descendant of the soup object. -/
def updFirst (p : Node → Bool) (f : Node → Edit) (soup : Node) : Node :=
  match soup with
  | .elem i t a cs => .elem i t a (cs.updFirst p f).1
  | n => n

/-- Replace the first matching descendant of the soup object by a node list. -/
def spliceFirst (p : Node → Bool) (f : Node → List Node) (soup : Node) : Node :=
  match soup with
  | .elem i t a cs => .elem i t a (cs.spliceFirst p f).1
  | n => n

/-- Insert a node as the first child of the document root (soup.insert(0, x)). -/
def insertRootFront (x : Node) (soup : Node) : Node :=
  match soup with
  | .elem i t a cs => .elem i t a (.cons x cs)
  | n => n

/-- Append a node as the last child of the document root (soup.append(x)). -/
def appendRoot (x : Node) (soup : Node) : Node :=
  match soup with
  | .elem i t a cs => .elem i t a (cs.append (.cons x .nil))
  | n => n

/-- Insert a node as the first child of the first matching element
(el.insert(0, x) on a found tag). -/
def insertFrontOfFirst (p : Node → Bool) (x : Node) (soup : Node) : Node :=
  updFirst p (fun n => { tag := n.tag, attrs := n.attrs, repl := some (.cons x n.kids) }) soup

/-- Append a node as the last child of the first matching element
(el.append(x) on a found tag). -/
def appendToFirst (p : Node → Bool) (x : Node) (soup : Node) : Node :=
  updFirst p (fun n => { tag := n.tag, attrs := n.attrs, repl := some (n.kids.append (.cons x .nil)) }) soup

end A11y

namespace A11y

/-- Python str.lower() (ASCII). -/
def pyLower (s : String) : String := String.mk (s.data.map Char.toLower)

/-- Boolean infix test on lists. -/
def infixOfB (needle : List Char) : List Char → Bool
  | [] => needle == []
  | c :: rest => needle.isPrefixOf (c :: rest) || infixOfB needle rest

/-- Boolean substring containment (used for the skip-link regex search). -/
def strContains (hay needle : String) : Bool := infixOfB needle.data hay.data

/-- Count of elements with a given tag among a sibling list (recursive=False). -/
def NodeList.countTag (t : String) : NodeList → Nat
  | .nil => 0
  | .cons h tl => (if isTag t h then 1 else 0) + tl.countTag t

/-- The short CSS-like path of _css_path: at most twelve segments from the
element upward, root-to-leaf, joined with a separator.  revSegs lists the
segments from the element upward (nearest first). -/
def mkPath (revSegs : List String) : String :=
  String.intercalate ">" (revSegs.take 12).reverse

/-- One path segment of _css_path: the tag name, with a 1-based
nth-of-type index appended when the parent has more than one child of the
same tag (_nth_of_type counts same-tag siblings up to the element itself). -/
def segOf (siblings : NodeList) (before : List Node) (t : String) : String :=
  if siblings.countTag t > 1 then
    t ++ ":nth-of-type(" ++ toString ((before.filter (isTag t)).length + 1) ++ ")"
  else t

/-- Preorder walk over a sibling list producing every descendant element
with its _css_path.  siblings is the full sibling list of the nodes being
walked, before the already-walked prefix (for nth-of-type indices), and
revSegs the path segments of the ancestors (nearest first). -/
def walkKids (revSegs : List String) (siblings : NodeList) (before : List Node) :
    NodeList → List (String × Node)
  | .nil => []
  | .cons (.txt i s) tl => walkKids revSegs siblings (before ++ [.txt i s]) tl
  | .cons (.elem i t a cs) tl =>
    let n := Node.elem i t a cs
    let sg := segOf siblings before t
    (mkPath (sg :: revSegs), n)
      :: (walkKids (sg :: revSegs) cs [] cs
          ++ walkKids revSegs siblings (before ++ [n]) tl)

/-- All elements of the document with their _css_path, in document order
(the soup root itself is not listed, as in find_all). -/
def elemsWithPath (soup : Node) : List (String × Node) :=
  match soup with
  | .elem _ t _ cs => walkKids [t] cs [] cs
  | .txt _ _ => []

/-- All elements of the document in document order. -/
def elems (soup : Node) : List Node := (elemsWithPath soup).map Prod.snd

/-- Preorder walk producing every descendant element with its parent node. -/
def kidsWithParent (parent : Node) : NodeList → List (Node × Node)
  | .nil => []
  | .cons (.txt _ _) tl => kidsWithParent parent tl
  | .cons (.elem i t a cs) tl =>
    (parent, Node.elem i t a cs)
      :: (kidsWithParent (Node.elem i t a cs) cs ++ kidsWithParent parent tl)

/-- All elements of the document with their parents, in document order. -/
def elemsWithParent (soup : Node) : List (Node × Node) :=
  match soup with
  | .elem _ _ _ cs => kidsWithParent soup cs
  | .txt _ _ => []

/-- BeautifulSoup tag.string: the sole descendant string reached through a
chain of single children, if any. -/
def Node.soleString : Node → Option String
  | .txt _ s => some s
  | .elem _ _ _ (.cons c .nil) => c.soleString
  | .elem _ _ _ _ => none

/-- A chunk: the immutable snapshot record emitted by extract_chunks. -/
structure Chunk where
  role : String
  path : String
  text : String
  attrs : Attrs
deriving DecidableEq, Repr

/-- An issue tuple (kind, severity, details, source chunk) produced by audit. -/
structure Issue where
  kind : String
  sev : String
  details : Attrs
  chunk : Chunk
deriving DecidableEq, Repr

/-- Python or-chain over attribute lookups of a node, coerced to a string:
(n.get(k1) or n.get(k2) or ... or ""). -/
def chainStr (n : Node) (ks : List String) : String :=
  match firstTruthy (ks.map (getA n.attrs)) with
  | some v => v.str
  | none => ""

/-- Heading level parse of audit and the fixer:
int(tag[1]) if len(tag)==2 and tag[1].isdigit() else 0. -/
def parseHeadingLvl (tag : String) : Nat :=
  match tag.data with
  | [_, c] => if c.isDigit then c.toNat - 48 else 0
  | _ => 0

/-- The img chunk of extract_chunks. -/
def imgChunk (pn : String × Node) : Chunk :=
  let n := pn.2
  { role := "img", path := pn.1, text := "",
    attrs := [
      ("src", .s (pyStrip (chainStr n ["src", "data-src", "data-original", "data-lazy"]))),
      ("alt", .s (pyStrip (chainStr n ["alt"]))),
      ("width", .s (pyStrip (chainStr n ["width"]))),
      ("height", .s (pyStrip (chainStr n ["height"])))] }

/-- The heading chunk of extract_chunks for a given level. -/
def headingChunk (lvl : Nat) (pn : String × Node) : Chunk :=
  { role := "heading", path := pn.1, text := textOf pn.2,
    attrs := [("tag", .s ("h" ++ toString lvl))] }

/-- The rel attribute captured by the link chunk: (a.get("rel") or []). -/
def relCapture (n : Node) : Val :=
  match getA n.attrs "rel" with
  | some v => if v.truthy then v else .l []
  | none => .l []

/-- The link chunk of extract_chunks. -/
def linkChunk (pn : String × Node) : Chunk :=
  let n := pn.2
  { role := "link", path := pn.1, text := textOf n,
    attrs := [
      ("href", .s (pyStrip (chainStr n ["href"]))),
      ("aria-label", .s (pyStrip (chainStr n ["aria-label"]))),
      ("title", .s (pyStrip (chainStr n ["title"]))),
      ("target", .s (pyStrip (chainStr n ["target"]))),
      ("rel", relCapture n)] }

/-- The control chunk of extract_chunks. -/
def controlChunk (pn : String × Node) : Chunk :=
  let n := pn.2
  { role := "control", path := pn.1, text := textOf n,
    attrs := [
      ("id", .s (pyStrip (chainStr n ["id"]))),
      ("name", .s (pyStrip (chainStr n ["name"]))),
      ("type", .s (pyLower (pyStrip (chainStr n ["type"])))),
      ("aria-label", .s (pyStrip (chainStr n ["aria-label"]))),
      ("aria-labelledby", .s (pyStrip (chainStr n ["aria-labelledby"]))),
      ("placeholder", .s (pyStrip (chainStr n ["placeholder"]))),
      ("tag", .s n.tag)] }

/-- The iframe chunk of extract_chunks. -/
def iframeChunk (pn : String × Node) : Chunk :=
  { role := "iframe", path := pn.1, text := "",
    attrs := [("title", .s (pyStrip (chainStr pn.2 ["title"])))] }

/-- The svg chunk of extract_chunks. -/
def svgChunk (pn : String × Node) : Chunk :=
  { role := "svg", path := pn.1, text := textOf pn.2, attrs := [] }

/-- The content-block test _is_visible_text_block. -/
def isVisibleTextBlock (n : Node) : Bool :=
  match n with
  | .txt _ _ => false
  | .elem _ t _ _ =>
    let tg := pyLower t
    if tg = "p" ∨ tg = "li" ∨ tg = "article" ∨ tg = "section" then true
    else if tg = "div" then (textOf n).length ≥ 120
    else false

/-- The section chunk of extract_chunks. -/
def sectionChunk (pn : String × Node) : Chunk :=
  { role := "section", path := pn.1, text := textOf pn.2,
    attrs := [("tag", .s pn.2.tag)] }

/-- Whether a node is an anchor carrying href="#main" (skip-link heuristic). -/
def isSkipHrefAnchor (n : Node) : Bool :=
  isTag "a" n && getA n.attrs "href" = some (.s "#main")

/-- Whether a node is an anchor whose sole string matches the
case-insensitive skip regex search. -/
def isSkipTextAnchor (n : Node) : Bool :=
  isTag "a" n &&
    (match n.soleString with
     | some s => strContains (pyLower s) "skip"
     | none => false)

/-- The synthetic document chunk of extract_chunks. -/
def docChunk (soup : Node) : Chunk :=
  let head := soup.findFirst (isTag "head")
  let htmlEl := soup.findFirst (isTag "html")
  { role := "document", path := "html>head", text := "",
    attrs := [
      ("has_title", .b (match head with
        | some h => (h.findFirst (isTag "title")).isSome
        | none => false)),
      ("has_viewport", .b (match head with
        | some h => (h.findFirst (fun x =>
            isTag "meta" x && getA x.attrs "name" = some (.s "viewport"))).isSome
        | none => false)),
      ("has_charset", .b (match head with
        | some h => (h.findFirst (fun x =>
            isTag "meta" x && (getA x.attrs "charset").isSome)).isSome
        | none => false)),
      ("html_lang", .s (match htmlEl with
        | some h => (match getA h.attrs "lang" with
          | some v => if v.truthy then pyStrip v.str else ""
          | none => "")
        | none => "")),
      ("has_skiplink", .b ((soup.findFirst isSkipHrefAnchor).isSome
        || (soup.findFirst isSkipTextAnchor).isSome)),
      ("has_main", .b (soup.findFirst (isTag "main")).isSome),
      ("has_nav", .b (soup.findFirst (isTag "nav")).isSome)] }

/-- The chunk extractor (the second, effective definition of extract_chunks
in a11y.py): images, then headings grouped by level 1..6, then links,
controls, iframes, svgs, text blocks, and one synthetic document chunk. -/
def extract_chunks (soup : Node) : List Chunk :=
  let ew := elemsWithPath soup
  ((ew.filter (fun pn => isTag "img" pn.2)).map imgChunk)
    ++ ((List.range' 1 6).flatMap (fun lvl =>
        (ew.filter (fun pn => isTag ("h" ++ toString lvl) pn.2)).map (headingChunk lvl)))
    ++ ((ew.filter (fun pn => isTag "a" pn.2)).map linkChunk)
    ++ ((ew.filter (fun pn => isTag "input" pn.2 || isTag "select" pn.2
          || isTag "textarea" pn.2 || isTag "button" pn.2)).map controlChunk)
    ++ ((ew.filter (fun pn => isTag "iframe" pn.2)).map iframeChunk)
    ++ ((ew.filter (fun pn => isTag "svg" pn.2)).map svgChunk)
    ++ ((ew.filter (fun pn => isVisibleTextBlock pn.2 && (textOf pn.2).length ≥ 60)).map sectionChunk)
    ++ [docChunk soup]

end A11y

namespace A11y

/-- The fixed vague-link-text set of a11y.py. -/
def VAGUE : List String :=
  ["click here", "read more", "learn more", "more", "here",
   "details", "link", "this", "go", "open", "continue"]

/-- The MISSING_ALT rule: image chunk with empty or absent alt. -/
def imgRule (c : Chunk) : List Issue :=
  if pyStrip (getS c.attrs "alt") = "" then
    [{ kind := "MISSING_ALT", sev := "MEDIUM",
       details := [("reason", .s "Image missing alt")], chunk := c }]
  else []

/-- The BAD_HEADING_ORDER scan: walk heading chunks in chunk-list order,
tracking the last successfully parsed level; flag a jump of more than one
level; a heading updates the last level only when its level parses. -/
def headingScanAux (last : Nat) : List Chunk → List Issue
  | [] => []
  | c :: rest =>
    let tg := pyLower (getS c.attrs "tag")
    let lvl := parseHeadingLvl tg
    (if last ≠ 0 ∧ lvl ≠ 0 ∧ lvl > last + 1 then
      [{ kind := "BAD_HEADING_ORDER", sev := "LOW",
         details := [("prev", .n last), ("curr", .n lvl)], chunk := c }]
     else [])
      ++ headingScanAux (if lvl ≠ 0 then lvl else last) rest

/-- The POOR_LINK_TEXT rule: link chunk whose trimmed lower-cased text is in
the vague set. -/
def poorLinkRule (c : Chunk) : List Issue :=
  if VAGUE.contains (pyLower (pyStrip c.text)) then
    [{ kind := "POOR_LINK_TEXT", sev := "LOW",
       details := [("text", .s c.text)], chunk := c }]
  else []

/-- The LINK_NO_NAME rule: link chunk with no text, aria-label or title. -/
def linkNoNameRule (c : Chunk) : List Issue :=
  if pyStrip c.text = "" ∧ pyStrip (getS c.attrs "aria-label") = ""
      ∧ pyStrip (getS c.attrs "title") = "" then
    [{ kind := "LINK_NO_NAME", sev := "MEDIUM", details := [], chunk := c }]
  else []

/-- The rel token list the audit and the fixer read from a rel value:
(a.get("rel") or []) with a bare string wrapped into a one-entry list. -/
def relTokens (v : Option Val) : List String :=
  match v with
  | some (.s x) => if x = "" then [] else [x]
  | some (.l xs) => xs
  | some _ => []
  | none => []

/-- The BLANK_TARGET_NO_REL rule: link chunk with target="_blank" whose
lower-cased rel tokens do not include both noopener and noreferrer. -/
def blankTargetRule (c : Chunk) : List Issue :=
  if getA c.attrs "target" = some (.s "_blank") then
    let relL := (relTokens (getA c.attrs "rel")).map pyLower
    if ¬ relL.contains "noopener" ∨ ¬ relL.contains "noreferrer" then
      [{ kind := "BLANK_TARGET_NO_REL", sev := "LOW", details := [], chunk := c }]
    else []
  else []

/-- The CONTROL_NO_LABEL rule: a button chunk with no visible text, or a
non-button control with no aria-label, aria-labelledby or id. -/
def controlRule (c : Chunk) : List Issue :=
  if getS c.attrs "tag" = "button" then
    if pyStrip c.text = "" then
      [{ kind := "CONTROL_NO_LABEL", sev := "MEDIUM",
         details := [("tag", .s "button")], chunk := c }]
    else []
  else
    if (firstTruthy [getA c.attrs "aria-label", getA c.attrs "aria-labelledby",
        getA c.attrs "id"]).isNone then
      [{ kind := "CONTROL_NO_LABEL", sev := "MEDIUM",
         details := [("tag", (getA c.attrs "tag").getD .nullV)], chunk := c }]
    else []

/-- The IFRAME_NO_TITLE rule: iframe chunk with empty title. -/
def iframeRule (c : Chunk) : List Issue :=
  if pyStrip (getS c.attrs "title") = "" then
    [{ kind := "IFRAME_NO_TITLE", sev := "LOW", details := [], chunk := c }]
  else []

/-- The SVG_NO_NAME rule: svg chunk with empty inner text. -/
def svgRule (c : Chunk) : List Issue :=
  if pyStrip c.text = "" then
    [{ kind := "SVG_NO_NAME", sev := "LOW", details := [], chunk := c }]
  else []

/-- The A_ACTS_BUTTON rule: link chunk with empty href. -/
def aActsRule (c : Chunk) : List Issue :=
  if pyStrip (getS c.attrs "href") = "" then
    [{ kind := "A_ACTS_BUTTON", sev := "LOW", details := [], chunk := c }]
  else []

/-- Truthiness of an attribute lookup (if not a.get(k): ...). -/
def attrTruthy (a : Attrs) (k : String) : Bool :=
  match getA a k with
  | some v => v.truthy
  | none => false

/-- The document-level rules, in source order. -/
def documentRules (c : Chunk) : List Issue :=
  (if ¬ attrTruthy c.attrs "has_title" then
    [{ kind := "MISSING_TITLE", sev := "MEDIUM", details := [], chunk := c }] else [])
  ++ (if ¬ attrTruthy c.attrs "has_viewport" then
    [{ kind := "MISSING_VIEWPORT", sev := "LOW", details := [], chunk := c }] else [])
  ++ (if ¬ attrTruthy c.attrs "has_charset" then
    [{ kind := "MISSING_CHARSET", sev := "LOW", details := [], chunk := c }] else [])
  ++ (if pyStrip (getS c.attrs "html_lang") = "" then
    [{ kind := "MISSING_LANG", sev := "MEDIUM", details := [], chunk := c }] else [])
  ++ (if ¬ attrTruthy c.attrs "has_skiplink" then
    [{ kind := "MISSING_SKIPLINK", sev := "LOW", details := [], chunk := c }] else [])
  ++ (if ¬ attrTruthy c.attrs "has_main" then
    [{ kind := "MISSING_LANDMARKS", sev := "LOW",
       details := [("missing", .s "main")], chunk := c }] else [])
  ++ (if ¬ attrTruthy c.attrs "has_nav" then
    [{ kind := "MISSING_LANDMARKS", sev := "LOW",
       details := [("missing", .s "nav")], chunk := c }] else [])

/-- The audit engine of a11y.py: the rule blocks run in source order, each
over the chunk list in order. -/
def audit (chunks : List Chunk) : List Issue :=
  ((chunks.filter (fun c => c.role = "img")).flatMap imgRule)
    ++ headingScanAux 0 (chunks.filter (fun c => c.role = "heading"))
    ++ ((chunks.filter (fun c => c.role = "link")).flatMap poorLinkRule)
    ++ ((chunks.filter (fun c => c.role = "link")).flatMap linkNoNameRule)
    ++ ((chunks.filter (fun c => c.role = "link")).flatMap blankTargetRule)
    ++ ((chunks.filter (fun c => c.role = "control")).flatMap controlRule)
    ++ ((chunks.filter (fun c => c.role = "iframe")).flatMap iframeRule)
    ++ ((chunks.filter (fun c => c.role = "svg")).flatMap svgRule)
    ++ ((chunks.filter (fun c => c.role = "link")).flatMap aActsRule)
    ++ ((chunks.filter (fun c => c.role = "document")).flatMap documentRules)

end A11y

namespace A11y

/-!
Model of the urllib.parse functions used by fixer.py (CPython 3.11
semantics).  URLs are handled as character lists.  Deliberate
simplifications, none of which the pipeline exercises for parser-produced
ASCII documents: the IPv6/IPvFuture validation of balanced bracketed hosts
is skipped (real CPython may reject some of those with ValueError), and the
non-ASCII netloc check of _checknetloc is skipped (ASCII model).
-/

/-- The urllib uses_relative scheme list. -/
def usesRelative : List String :=
  ["", "ftp", "http", "gopher", "nntp", "imap", "wais", "file", "https",
   "shttp", "mms", "prospero", "rtsp", "rtsps", "rtspu", "sftp", "svn",
   "svn+ssh", "ws", "wss"]

/-- The urllib uses_netloc scheme list. -/
def usesNetloc : List String :=
  ["", "ftp", "http", "gopher", "nntp", "telnet", "imap", "wais", "file",
   "mms", "https", "shttp", "snews", "prospero", "rtsp", "rtsps", "rtspu",
   "rsync", "svn", "svn+ssh", "sftp", "nfs", "git", "git+ssh", "ws", "wss"]

/-- The urllib uses_params scheme list. -/
def usesParams : List String :=
  ["", "ftp", "hdl", "prospero", "http", "imap", "https", "shttp", "rtsp",
   "rtsps", "rtspu", "sip", "sips", "mms", "sftp", "tel"]

/-- The urllib scheme_chars set. -/
def schemeChars : List Char :=
  ("abcdefghijklmnopqrstuvwxyzABCDEFGHIJKLMNOPQRSTUVWXYZ0123456789+-.").data

/-- The uses_relative list as character lists. -/
def usesRelativeL : List (List Char) := usesRelative.map String.data

/-- The uses_netloc list as character lists. -/
def usesNetlocL : List (List Char) := usesNetloc.map String.data

/-- The uses_params list as character lists. -/
def usesParamsL : List (List Char) := usesParams.map String.data

/-- Split at the first occurrence of a character, dropping it. -/
def splitFirstChar (c : Char) : List Char → Option (List Char × List Char)
  | [] => none
  | x :: xs =>
    if x = c then some ([], xs)
    else (splitFirstChar c xs).map (fun p => (x :: p.1, p.2))

/-- Python str.split(c) on character lists. -/
def splitOnCharAux (c : Char) (cur : List Char) : List Char → List (List Char)
  | [] => [cur.reverse]
  | x :: xs =>
    if x = c then cur.reverse :: splitOnCharAux c [] xs
    else splitOnCharAux c (x :: cur) xs

/-- Python str.split(c) on character lists. -/
def splitOnChar (c : Char) (l : List Char) : List (List Char) := splitOnCharAux c [] l

/-- Join character lists with a separator character. -/
def intercalateChar (c : Char) : List (List Char) → List Char
  | [] => []
  | [x] => x
  | x :: y :: rest => x ++ c :: intercalateChar c (y :: rest)

/-- The _splitnetloc scan: the netloc runs up to the first of the three
delimiters, the rest is returned unchanged. -/
def splitNetlocAux : List Char → List Char × List Char
  | [] => ([], [])
  | x :: xs =>
    if x = '/' ∨ x = '?' ∨ x = '#' then ([], x :: xs)
    else
      let p := splitNetlocAux xs
      (x :: p.1, p.2)

/-- The WHATWG C0-control-or-space set stripped by urlsplit. -/
def isC0OrSpace (c : Char) : Bool := c.toNat ≤ 32

/-- The unsafe bytes removed everywhere by urlsplit. -/
def isUnsafeUrlByte (c : Char) : Bool := c = '\t' ∨ c = '\r' ∨ c = '\n'

/-- Result of urlsplit. -/
structure UrlSplit where
  scheme : List Char
  netloc : List Char
  path : List Char
  query : List Char
  fragment : List Char
deriving DecidableEq, Repr

/-- urllib.parse.urlsplit (CPython 3.11) with a default scheme and
allow_fragments=True: lstrip C0 controls and space, remove tab/CR/LF,
split off a scheme when the text before the first colon is a valid scheme
token starting with a letter, read a netloc after a double slash (raising
on unbalanced brackets), then split fragment and query. -/
def urlsplitE (url0 : List Char) (dscheme : List Char) : Except Unit UrlSplit :=
  let url1 := (url0.dropWhile isC0OrSpace).filter (fun c => ¬ isUnsafeUrlByte c)
  let ds := (((dscheme.dropWhile isC0OrSpace).reverse.dropWhile isC0OrSpace).reverse).filter
    (fun c => ¬ isUnsafeUrlByte c)
  let sp :=
    match url1.findIdx? (fun c => c = ':') with
    | some i =>
      if 0 < i ∧ (url1.headD ' ').isAlpha
          ∧ (url1.take i).all (fun c => schemeChars.contains c) then
        ((url1.take i).map Char.toLower, url1.drop (i + 1))
      else (ds, url1)
    | none => (ds, url1)
  let netlocRest :=
    if sp.2.take 2 = ['/', '/'] then splitNetlocAux (sp.2.drop 2) else ([], sp.2)
  if (netlocRest.1.contains '[' ∧ ¬ netlocRest.1.contains ']')
      ∨ (netlocRest.1.contains ']' ∧ ¬ netlocRest.1.contains '[') then .error ()
  else
    let fr :=
      match splitFirstChar '#' netlocRest.2 with
      | some p => p
      | none => (netlocRest.2, [])
    let pq :=
      match splitFirstChar '?' fr.1 with
      | some p => p
      | none => (fr.1, [])
    .ok { scheme := sp.1, netloc := netlocRest.1, path := pq.1,
          query := pq.2, fragment := fr.2 }

/-- Result of urlparse. -/
structure UrlParse where
  scheme : List Char
  netloc : List Char
  path : List Char
  params : List Char
  query : List Char
  fragment : List Char
deriving DecidableEq, Repr

/-- Index of the last occurrence of a character. -/
def rfindIdx (c : Char) (l : List Char) : Option Nat :=
  (l.reverse.findIdx? (fun x => x = c)).map (fun j => l.length - 1 - j)

/-- Index of the first occurrence of a character at or after a start index. -/
def findIdxFrom (c : Char) (start : Nat) (l : List Char) : Option Nat :=
  ((l.drop start).findIdx? (fun x => x = c)).map (fun j => j + start)

/-- urllib.parse._splitparams: split the parameters after the first
semicolon of the last path segment. -/
def splitparams (url : List Char) : List Char × List Char :=
  if url.contains '/' then
    match findIdxFrom ';' ((rfindIdx '/' url).getD 0) url with
    | some i => (url.take i, url.drop (i + 1))
    | none => (url, [])
  else
    match url.findIdx? (fun x => x = ';') with
    | some i => (url.take i, url.drop (i + 1))
    | none => (url, [])

/-- urllib.parse.urlparse (CPython 3.11): urlsplit plus parameter
splitting for schemes that use parameters. -/
def urlparseE (url : List Char) (dscheme : List Char) : Except Unit UrlParse :=
  match urlsplitE url dscheme with
  | .error e => .error e
  | .ok r =>
    let pp :=
      if usesParamsL.contains r.scheme ∧ r.path.contains ';' then splitparams r.path
      else (r.path, [])
    .ok { scheme := r.scheme, netloc := r.netloc, path := pp.1,
          params := pp.2, query := r.query, fragment := r.fragment }

/-- urllib.parse.urlunsplit (CPython 3.11). -/
def urlunsplit (scheme netloc url query fragment : List Char) : List Char :=
  let url1 :=
    if netloc ≠ [] ∨ (scheme ≠ [] ∧ usesNetlocL.contains scheme ∧ url.take 2 ≠ ['/', '/']) then
      let u2 := if url ≠ [] ∧ url.take 1 ≠ ['/'] then '/' :: url else url
      '/' :: '/' :: (netloc ++ u2)
    else url
  let url2 := if scheme ≠ [] then scheme ++ ':' :: url1 else url1
  let url3 := if query ≠ [] then url2 ++ '?' :: query else url2
  if fragment ≠ [] then url3 ++ '#' :: fragment else url3

/-- urllib.parse.urlunparse (CPython 3.11). -/
def urlunparse (c : UrlParse) : List Char :=
  let u := if c.params ≠ [] then c.path ++ ';' :: c.params else c.path
  urlunsplit c.scheme c.netloc u c.query c.fragment

/-- The dot-segment resolution loop of urljoin: pop on a dotdot (ignoring
pops of an empty stack), drop single dots, append anything else. -/
def resolveDots (segs : List (List Char)) : List (List Char) :=
  segs.foldl
    (fun acc sg =>
      if sg = ['.', '.'] then acc.dropLast
      else if sg = ['.'] then acc
      else acc ++ [sg]) []

/-- The segments[1:-1] = filter(None, segments[1:-1]) step of urljoin. -/
def filterInner (segs : List (List Char)) : List (List Char) :=
  match segs with
  | [] => []
  | [x] => [x]
  | x :: rest => x :: ((rest.dropLast.filter (fun sg => sg ≠ [])) ++ [rest.getLastD []])

/-- urllib.parse.urljoin (CPython 3.11), propagating the ValueError that
urlsplit can raise. -/
def urljoinE (base url : String) : Except Unit String :=
  if base = "" then .ok url
  else if url = "" then .ok base
  else
    match urlparseE base.data [] with
    | .error e => .error e
    | .ok b =>
      match urlparseE url.data b.scheme with
      | .error e => .error e
      | .ok r =>
        if r.scheme ≠ b.scheme ∨ ¬ usesRelativeL.contains r.scheme then .ok url
        else
          let inNetloc := usesNetlocL.contains r.scheme
          if inNetloc ∧ r.netloc ≠ [] then
            .ok (String.mk (urlunparse r))
          else
            let netloc := if inNetloc then b.netloc else r.netloc
            if r.path = [] ∧ r.params = [] then
              let q := if r.query = [] then b.query else r.query
              .ok (String.mk (urlunparse
                { scheme := r.scheme, netloc := netloc, path := b.path,
                  params := b.params, query := q, fragment := r.fragment }))
            else
              let baseParts0 := splitOnChar '/' b.path
              let baseParts :=
                if baseParts0.getLastD [] ≠ [] then baseParts0.dropLast else baseParts0
              let segments :=
                if r.path.take 1 = ['/'] then splitOnChar '/' r.path
                else filterInner (baseParts ++ splitOnChar '/' r.path)
              let resolved := resolveDots segments
              let resolved2 :=
                if segments.getLastD [] = ['.'] ∨ segments.getLastD [] = ['.', '.'] then
                  resolved ++ [[]]
                else resolved
              let joined := intercalateChar '/' resolved2
              let path2 := if joined = [] then ['/'] else joined
              .ok (String.mk (urlunparse
                { scheme := r.scheme, netloc := netloc, path := path2,
                  params := r.params, query := r.query, fragment := r.fragment }))

/-- The helper _abs_url of fixer.py: urljoin with every exception recovered
by returning the value unchanged. -/
def absUrl (base_url v : String) : String :=
  match urljoinE base_url v with
  | .ok r => r
  | .error _ => v

/-- One item of _fix_srcset: strip, drop if empty, make the first
whitespace-separated token absolute, rejoin with single spaces. -/
def fixSrcsetItem (base_url : String) (item0 : String) : List String :=
  let item := pyStrip item0
  if item = "" then []
  else
    match pySplitWs item with
    | [] => []
    | s0 :: rest => [String.intercalate " " (absUrl base_url s0 :: rest)]

/-- The helper _fix_srcset of fixer.py. -/
def fixSrcset (base_url srcset : String) : String :=
  String.intercalate ", "
    (((splitOnChar ',' srcset.data).map String.mk).flatMap (fixSrcsetItem base_url))

/-- The base tag injected by normalize_urls. -/
def baseTag (page_url : String) : Node := .elem 0 "base" [("href", .s page_url)] .nil

/-- The base-injection step of normalize_urls: insert a base tag as the
first child of the first head unless the head already contains one. -/
def injectBase (page_url : String) (soup : Node) : Node :=
  match soup.findFirst (isTag "head") with
  | some h =>
    if (h.findFirst (isTag "base")).isSome then soup
    else insertFrontOfFirst (isTag "head") (baseTag page_url) soup
  | none => soup

/-- The srcset string read by normalize_urls: (img.get("srcset") or ""). -/
def srcsetStr (n : Node) : String :=
  match getA n.attrs "srcset" with
  | some v => if v.truthy then v.str else ""
  | none => ""

/-- The img edit of normalize_urls: absolutize the effective source into
src, and normalize srcset when the attribute is present.  A truthy
non-string source makes urljoin raise inside _abs_url, which returns it
unchanged. -/
def normImg (u : String) (n : Node) : Edit :=
  let srcV := firstTruthy [getA n.attrs "src", getA n.attrs "data-src",
    getA n.attrs "data-original", getA n.attrs "data-lazy"]
  let a1 :=
    match srcV with
    | some (.s x) => setA n.attrs "src" (.s (absUrl u x))
    | some v => setA n.attrs "src" v
    | none => n.attrs
  let a2 :=
    if (getA n.attrs "srcset").isSome then setA a1 "srcset" (.s (fixSrcset u (srcsetStr n)))
    else a1
  { tag := n.tag, attrs := a2, repl := none }

/-- The anchor edit of normalize_urls: absolutize a truthy string href that
does not start with the javascript scheme.  (A truthy list-valued href
would raise uncaught in the source; parser documents never produce one,
and it is modelled as leaving the anchor unchanged.) -/
def normA (u : String) (n : Node) : Edit :=
  match getA n.attrs "href" with
  | some (.s h) =>
    if h ≠ "" ∧ ¬ ("javascript:".data.isPrefixOf h.data) then
      { tag := n.tag, attrs := setA n.attrs "href" (.s (absUrl u h)), repl := none }
    else { tag := n.tag, attrs := n.attrs, repl := none }
  | _ => { tag := n.tag, attrs := n.attrs, repl := none }

/-- normalize_urls of fixer.py: inject a base tag, then normalize the
sources of every img, then the href of every anchor. -/
def normalize_urls (soup : Node) (page_url : String) : Node :=
  updAll (isTag "a") (normA page_url)
    (updAll (isTag "img") (normImg page_url) (injectBase page_url soup))

end A11y

namespace A11y

/-- Configuration of the external collaborators of fixer.py: the optional
text-generation client (none when OPENAI_API_KEY is unset or the SDK is
unavailable; some f whose result none models a raised exception), and the
process hash function behind abs(hash(s)), which is randomized per Python
process. -/
structure Cfg where
  gen : Option (String → Option String)
  hashF : String → Nat

/-- generate_alt of fixer.py: short alt text from the collaborator given
the (truncated) element context, with the literal Image fallback when the
collaborator is unconfigured, raises, or returns an empty string. -/
def generate_alt (gen : Option (String → Option String)) (context_text : String) : String :=
  match gen with
  | none => "Image"
  | some f =>
    match f (context_text.take 500) with
    | none => "Image"
    | some raw =>
      let t := pyStrip (pyStripChars ['"'] (pyStrip raw))
      if t = "" then "Image" else t

/-- The live source of an img as the fixer computes it:
(img.get("src") or img.get("data-src") or img.get("data-original") or
img.get("data-lazy") or "").strip(). -/
def liveSrc (n : Node) : String :=
  pyStrip (chainStr n ["src", "data-src", "data-original", "data-lazy"])

/-- Candidate selection of the MISSING_ALT branch over the img list in
document order: with a non-empty target source, the first img whose
computed source matches; otherwise every img with empty alt. -/
def altCandidates (targetSrc : String) : List (Node × Node) → List (Node × Node)
  | [] => []
  | (p, img) :: rest =>
    if targetSrc ≠ "" then
      if liveSrc img = targetSrc then [(p, img)] else altCandidates targetSrc rest
    else
      (if pyStrip (chainStr img ["alt"]) = "" then [(p, img)] else [])
        ++ altCandidates targetSrc rest

/-- The MISSING_ALT branch of apply_fixes: select candidate imgs, then set
each candidate's alt from the collaborator given its parent's text. -/
def fixMissingAlt (cfg : Cfg) (soup : Node) (iss : Issue) : Node :=
  let targetSrc := pyStrip (getS iss.chunk.attrs "src")
  let cands := altCandidates targetSrc
    ((elemsWithParent soup).filter (fun pn => isTag "img" pn.2))
  let vals : List (Nat × String) := cands.map (fun pn =>
    (pn.2.nid,
     let v := generate_alt cfg.gen (getTextSep " " pn.1)
     if v = "" then "Image" else v))
  updAll (fun n => isTag "img" n && (vals.lookup n.nid).isSome)
    (fun n => { tag := n.tag, attrs := setA n.attrs "alt" (.s ((vals.lookup n.nid).getD "")),
                repl := none }) soup

/-- The heading level parse of the fixer branch:
int(tag[1]) if len(tag)>1 and tag[1].isdigit() else 0. -/
def parseLvlFix (tag : String) : Nat :=
  match tag.data with
  | _ :: c :: _ => if c.isDigit then c.toNat - 48 else 0
  | _ => 0

/-- The BAD_HEADING_ORDER branch of apply_fixes: promote the first heading
of the flagged tag whose text matches by one level, for levels three to six. -/
def fixBadHeading (soup : Node) (iss : Issue) : Node :=
  let tg := pyLower (getS iss.chunk.attrs "tag")
  let level := parseLvlFix tg
  let text := pyStrip iss.chunk.text
  if 2 < level ∧ (tg = "h3" ∨ tg = "h4" ∨ tg = "h5" ∨ tg = "h6") then
    updFirst (fun n => isTag tg n && getTextStrip n = text)
      (fun n => { tag := "h" ++ toString (level - 1), attrs := n.attrs, repl := none }) soup
  else soup

/-- The slug-derived pretty label of the POOR_LINK_TEXT and LINK_NO_NAME
branches: last path segment of the href (or a default slug), query and
fragment dropped, dashes and underscores spaced, stripped and title-cased,
with a final default. -/
def prettyOf (href : String) (dfltSlug dfltPretty : String) : String :=
  let base := if href.data.contains '/' then
      String.mk ((splitOnChar '/' href.data).getLastD []) else href
  let base := if base = "" then dfltSlug else base
  let slug := (splitOnChar '#' ((splitOnChar '?' base.data).headD [])).headD []
  let spaced := slug.map (fun c => if c = '-' ∨ c = '_' then ' ' else c)
  let p := pyTitle (pyStrip (String.mk spaced))
  if p = "" then dfltPretty else p

/-- Anchor match of the POOR_LINK_TEXT branch: visible text equal to the
flagged (stripped) chunk text. -/
def poorPred (iss : Issue) (n : Node) : Bool :=
  isTag "a" n && getTextStrip n = pyStrip iss.chunk.text

/-- The replacement label of the POOR_LINK_TEXT branch: the anchor's
aria-label when truthy, else a pretty slug of its href. -/
def poorLabel (n : Node) : String :=
  match getA n.attrs "aria-label" with
  | some v => if v.truthy then v.str
      else prettyOf (pyStrip (chainStr n ["href"])) "learn-more" "Learn More"
  | none => prettyOf (pyStrip (chainStr n ["href"])) "learn-more" "Learn More"

/-- The edit of the POOR_LINK_TEXT branch: replace the anchor's contents
with the chosen label. -/
def poorEdit (n : Node) : Edit :=
  { tag := n.tag, attrs := n.attrs, repl := some (.cons (.txt 0 (poorLabel n)) .nil) }

/-- The POOR_LINK_TEXT branch of apply_fixes: relabel the first anchor
whose visible text matches the flagged text, preferring its aria-label,
else a pretty slug of its href. -/
def fixPoor (soup : Node) (iss : Issue) : Node :=
  updFirst (poorPred iss) poorEdit soup

/-- Anchor match of the LINK_NO_NAME branch: the flagged href and no
visible text. -/
def noNamePred (iss : Issue) (n : Node) : Bool :=
  isTag "a" n && pyStrip (getS n.attrs "href") = pyStrip (getS iss.chunk.attrs "href")
    && getTextStrip n = ""

/-- The replacement label of the LINK_NO_NAME branch: aria-label or title
when truthy, else a slug label of the href. -/
def noNameLabel (n : Node) : String :=
  match firstTruthy [getA n.attrs "aria-label", getA n.attrs "title"] with
  | some v => v.str
  | none => prettyOf (pyStrip (chainStr n ["href"])) "link" "Link"

/-- The edit of the LINK_NO_NAME branch. -/
def noNameEdit (n : Node) : Edit :=
  { tag := n.tag, attrs := n.attrs, repl := some (.cons (.txt 0 (noNameLabel n)) .nil) }

/-- The LINK_NO_NAME branch of apply_fixes: relabel the first anchor with
the flagged href and empty text, from aria-label, title, or a slug label. -/
def fixLinkNoName (soup : Node) (iss : Issue) : Node :=
  updFirst (noNamePred iss) noNameEdit soup

/-- Anchor match of the BLANK_TARGET_NO_REL branch: the flagged href and
target="_blank". -/
def blankPred (iss : Issue) (n : Node) : Bool :=
  isTag "a" n && pyStrip (getS n.attrs "href") = pyStrip (getS iss.chunk.attrs "href")
    && getA n.attrs "target" = some (.s "_blank")

/-- The rel value written by the BLANK_TARGET_NO_REL branch: the sorted,
space-joined union of the lower-cased rel tokens with noopener and
noreferrer. -/
def blankRelVal (n : Node) : String :=
  String.intercalate " " (pySorted ((((relTokens (getA n.attrs "rel")).map pyLower)
    ++ ["noopener", "noreferrer"]).dedup))

/-- The edit of the BLANK_TARGET_NO_REL branch. -/
def blankEdit (n : Node) : Edit :=
  { tag := n.tag, attrs := setA n.attrs "rel" (.s (blankRelVal n)), repl := none }

/-- The BLANK_TARGET_NO_REL branch of apply_fixes: on the first anchor with
the flagged href and target="_blank", set rel to the sorted, space-joined
union of its lower-cased rel tokens with noopener and noreferrer. -/
def fixBlank (soup : Node) (iss : Issue) : Node :=
  updFirst (blankPred iss) blankEdit soup

/-- Target match of the CONTROL_NO_LABEL branch: one of the four control
tags, equal to the flagged tag, found by id, else by name. -/
def controlPred (a : Attrs) (tg : String) (n : Node) : Bool :=
  (isTag "input" n || isTag "select" n || isTag "textarea" n || isTag "button" n)
    && n.tag = tg
    && ((attrTruthy a "id" && getA n.attrs "id" = getA a "id")
        || (attrTruthy a "name" && getA n.attrs "name" = getA a "name"))

/-- The CONTROL_NO_LABEL branch of apply_fixes: for a button, set its text
to its own visible text or Submit; otherwise synthesize an id if needed and
insert a bound label element before the control. -/
def fixControl (cfg : Cfg) (soup : Node) (iss : Issue) : Node :=
  let a := iss.chunk.attrs
  let tg := pyLower (getS a "tag")
  match (elemsWithParent soup).find? (fun pn => controlPred a tg pn.2) with
  | none => soup
  | some pt =>
    if tg = "button" then
      updFirst (controlPred a tg)
        (fun n =>
          let t := getTextStrip n
          { tag := n.tag, attrs := n.attrs,
            repl := some (.cons (.txt 0 (if t = "" then "Submit" else t)) .nil) }) soup
    else
      let labelText :=
        let p1 := getS a "placeholder"
        if p1 ≠ "" then p1
        else
          let p2 := getTextSep " " pt.1
          if p2 ≠ "" then p2 else "Field"
      let hasId := attrTruthy pt.2.attrs "id"
      let newId : Val :=
        if hasId then (getA pt.2.attrs "id").getD .nullV
        else .s ("fld_" ++ toString (cfg.hashF labelText % 10000000))
      let lab := Node.elem 0 "label" [("for", newId)] (.cons (.txt 0 (pyStrip labelText)) .nil)
      spliceFirst (controlPred a tg)
        (fun n =>
          let n2 := if hasId then n else Node.elem n.nid n.tag (setA n.attrs "id" newId) n.kids
          [lab, n2]) soup

/-- The IFRAME_NO_TITLE branch of apply_fixes: give every iframe with an
empty or absent title the generic embedded-content title. -/
def fixIframe (soup : Node) : Node :=
  updAll (fun n => isTag "iframe" n && pyStrip (chainStr n ["title"]) = "")
    (fun n => { tag := n.tag, attrs := setA n.attrs "title" (.s "Embedded content"),
                repl := none }) soup

/-- The SVG_NO_NAME branch of apply_fixes: mark text-less svgs decorative,
give the others an img role and their text as aria-label. -/
def fixSvg (soup : Node) : Node :=
  updAll (isTag "svg")
    (fun n =>
      if getTextStrip n = "" then
        { tag := n.tag, attrs := setA n.attrs "aria-hidden" (.s "true"), repl := none }
      else
        let role :=
          match getA n.attrs "role" with
          | some v => if v.truthy then v else .s "img"
          | none => .s "img"
        { tag := n.tag,
          attrs := setA (setA n.attrs "role" role) "aria-label" (.s ((getTextStrip n).take 60)),
          repl := none }) soup

/-- The A_ACTS_BUTTON branch of apply_fixes: retag every anchor with empty
href to a button, and give it the default Button label when it has no text. -/
def fixAActs (soup : Node) : Node :=
  updAll (fun n => isTag "a" n && pyStrip (chainStr n ["href"]) = "")
    (fun n =>
      if getTextStrip n = "" then
        { tag := "button", attrs := n.attrs, repl := some (.cons (.txt 0 "Button") .nil) }
      else { tag := "button", attrs := n.attrs, repl := none }) soup

/-- The head/html bootstrap of the document-level branch: insert a fresh
head at the front of the document when none exists, then likewise a fresh
html element. -/
def ensureHeadHtml (soup : Node) : Node :=
  let s1 :=
    if (soup.findFirst (isTag "head")).isSome then soup
    else insertRootFront (.elem 0 "head" [] .nil) soup
  if (s1.findFirst (isTag "html")).isSome then s1
  else insertRootFront (.elem 0 "html" [] .nil) s1

/-- The body bootstrap of the skip-link and landmark branches: append a
fresh body to the document when none exists. -/
def ensureBody (soup : Node) : Node :=
  if (soup.findFirst (isTag "body")).isSome then soup
  else appendRoot (.elem 0 "body" [] .nil) soup

/-- The skip link inserted by MISSING_SKIPLINK. -/
def skipLinkTag : Node :=
  .elem 0 "a"
    [("href", .s "#main"),
     ("style", .s "position:absolute;left:-9999px;top:auto;width:1px;height:1px;overflow:hidden;")]
    (.cons (.txt 0 "Skip to main content") .nil)

/-- The document-level branch of apply_fixes (MISSING_TITLE,
MISSING_VIEWPORT, MISSING_CHARSET, MISSING_LANG, MISSING_SKIPLINK,
MISSING_LANDMARKS), after the head/html bootstrap. -/
def fixDocIssue (soup : Node) (iss : Issue) : Node :=
  let s := ensureHeadHtml soup
  if iss.kind = "MISSING_TITLE" then
    match s.findFirst (isTag "head") with
    | some h =>
      if (h.findFirst (isTag "title")).isSome then s
      else appendToFirst (isTag "head")
        (.elem 0 "title" [] (.cons (.txt 0 "Accessible Page") .nil)) s
    | none => s
  else if iss.kind = "MISSING_VIEWPORT" then
    match s.findFirst (isTag "head") with
    | some h =>
      if (h.findFirst (fun x => isTag "meta" x
          && getA x.attrs "name" = some (.s "viewport"))).isSome then s
      else appendToFirst (isTag "head")
        (.elem 0 "meta" [("name", .s "viewport"),
          ("content", .s "width=device-width, initial-scale=1")] .nil) s
    | none => s
  else if iss.kind = "MISSING_CHARSET" then
    match s.findFirst (isTag "head") with
    | some h =>
      if (h.findFirst (fun x => isTag "meta" x && (getA x.attrs "charset").isSome)).isSome then s
      else appendToFirst (isTag "head") (.elem 0 "meta" [("charset", .s "utf-8")] .nil) s
    | none => s
  else if iss.kind = "MISSING_LANG" then
    match s.findFirst (isTag "html") with
    | some h =>
      if attrTruthy h.attrs "lang" then s
      else updFirst (isTag "html")
        (fun n => { tag := n.tag, attrs := setA n.attrs "lang" (.s "en"), repl := none }) s
    | none => s
  else if iss.kind = "MISSING_SKIPLINK" then
    let s2 := ensureBody s
    match s2.findFirst (isTag "body") with
    | some b =>
      if (b.findFirst (fun x => isTag "a" x && getA x.attrs "href" = some (.s "#main"))).isSome
      then s2
      else insertFrontOfFirst (isTag "body") skipLinkTag s2
    | none => s2
  else if iss.kind = "MISSING_LANDMARKS" then
    let miss := getA iss.details "missing"
    let s2 := ensureBody s
    if miss = some (.s "main") ∧ (s2.findFirst (isTag "main")).isNone then
      match s2.findFirst (isTag "body") with
      | some b =>
        match b.findFirst (isTag "div") with
        | some _ =>
          updFirst (isTag "body")
            (fun bb =>
              let spliced := (bb.kids.spliceFirst (isTag "div")
                (fun d => [Node.elem 0 "main" [("id", .s "main")] (.cons d .nil)])).1
              { tag := bb.tag, attrs := bb.attrs, repl := some spliced }) s2
        | none => insertFrontOfFirst (isTag "body")
            (.elem 0 "main" [("id", .s "main")] .nil) s2
      | none => s2
    else if miss = some (.s "nav") ∧ (s2.findFirst (isTag "nav")).isNone then
      insertFrontOfFirst (isTag "body") (.elem 0 "nav" [] .nil) s2
    else s2
  else s

/-- The document-level issue kinds. -/
def docKinds : List String :=
  ["MISSING_TITLE", "MISSING_VIEWPORT", "MISSING_CHARSET", "MISSING_LANG",
   "MISSING_SKIPLINK", "MISSING_LANDMARKS"]

/-- One iteration of the issue loop of apply_fixes. -/
def fixStep (cfg : Cfg) (soup : Node) (iss : Issue) : Node :=
  let role := iss.chunk.role
  if iss.kind = "MISSING_ALT" ∧ role = "img" then fixMissingAlt cfg soup iss
  else if iss.kind = "BAD_HEADING_ORDER" ∧ role = "heading" then fixBadHeading soup iss
  else if iss.kind = "POOR_LINK_TEXT" ∧ role = "link" then fixPoor soup iss
  else if iss.kind = "LINK_NO_NAME" ∧ role = "link" then fixLinkNoName soup iss
  else if iss.kind = "BLANK_TARGET_NO_REL" ∧ role = "link" then fixBlank soup iss
  else if iss.kind = "CONTROL_NO_LABEL" ∧ role = "control" then fixControl cfg soup iss
  else if iss.kind = "IFRAME_NO_TITLE" ∧ role = "iframe" then fixIframe soup
  else if iss.kind = "SVG_NO_NAME" ∧ role = "svg" then fixSvg soup
  else if iss.kind = "A_ACTS_BUTTON" ∧ role = "link" then fixAActs soup
  else if docKinds.contains iss.kind then fixDocIssue soup iss
  else soup

/-- apply_fixes of fixer.py: fold the issue loop over the parsed tree in
issue order, then normalize resource URLs when a page URL is given.  (The
final serialization to a string is not modelled; the returned tree is the
document the serializer would print.) -/
def apply_fixes (cfg : Cfg) (soup : Node) (issues : List Issue) (page_url : String) : Node :=
  let t := issues.foldl (fixStep cfg) soup
  if page_url ≠ "" then normalize_urls t page_url else t

end A11y

namespace A11y

theorem setA_cons_ne (k1 k : String) (v1 : Val) (v : Val) (rest : Attrs) (h : k1 ≠ k) :
    setA ((k1, v1) :: rest) k v = (k1, v1) :: setA rest k v := by
  have hd : (decide (k1 = k)) = false := by simpa using h
  simp only [setA, List.find?_cons, hd]
  by_cases hs : (List.find? (fun p => decide (p.1 = k)) rest).isSome = true
  · simp only [hs, if_pos, List.map_cons, if_neg h]
  · simp only [hs, if_neg, List.cons_append]
    simp [hs]

theorem setA_cons_eq (k : String) (v1 : Val) (v : Val) (rest : Attrs) :
    setA ((k, v1) :: rest) k v
      = (k, v) :: rest.map (fun p => if p.1 = k then (k, v) else p) := by
  simp [setA, List.find?_cons]

theorem getA_cons_ne (k1 k2 : String) (v1 : Val) (rest : Attrs) (h : k1 ≠ k2) :
    getA ((k1, v1) :: rest) k2 = getA rest k2 := by
  simp [getA, List.find?_cons, h]

theorem getA_cons_eq (k : String) (v1 : Val) (rest : Attrs) :
    getA ((k, v1) :: rest) k = some v1 := by
  simp [getA, List.find?_cons]

theorem getA_map_ne (k k2 : String) (v : Val) (hne : k2 ≠ k) :
    ∀ a : Attrs, getA (a.map (fun p => if p.1 = k then (k, v) else p)) k2 = getA a k2
  | [] => by simp [getA]
  | (k1, v1) :: rest => by
    by_cases hk : k1 = k
    · subst hk
      have h1 : ((k1, v1) :: rest).map (fun p => if p.1 = k1 then (k1, v) else p)
          = (k1, v) :: rest.map (fun p => if p.1 = k1 then (k1, v) else p) := by simp
      rw [h1]
      rw [getA_cons_ne k1 k2 v (rest.map (fun p => if p.1 = k1 then (k1, v) else p)) (Ne.symm hne)]
      rw [getA_cons_ne k1 k2 v1 rest (Ne.symm hne)]
      exact getA_map_ne k1 k2 v hne rest
    · rw [List.map_cons]
      simp only [if_neg hk]
      by_cases hk2 : k1 = k2
      · subst hk2
        rw [getA_cons_eq, getA_cons_eq]
      · rw [getA_cons_ne _ _ _ _ hk2, getA_cons_ne _ _ _ _ hk2]
        exact getA_map_ne k k2 v hne rest

theorem getA_setA_self (k : String) (v : Val) :
    ∀ a : Attrs, getA (setA a k v) k = some v
  | [] => by simp [setA, getA]
  | (k1, v1) :: rest => by
    by_cases hk : k1 = k
    · subst hk
      rw [setA_cons_eq, getA_cons_eq]
    · rw [setA_cons_ne _ _ _ _ _ hk, getA_cons_ne _ _ _ _ hk]
      exact getA_setA_self k v rest

theorem getA_setA_ne (k k2 : String) (v : Val) (hne : k2 ≠ k) :
    ∀ a : Attrs, getA (setA a k v) k2 = getA a k2
  | [] => by simp [setA, getA, Ne.symm hne]
  | (k1, v1) :: rest => by
    by_cases hk : k1 = k
    · subst hk
      rw [setA_cons_eq, getA_cons_ne _ _ _ _ (Ne.symm hne), getA_cons_ne _ _ _ _ (Ne.symm hne)]
      exact getA_map_ne k1 k2 v hne rest
    · rw [setA_cons_ne _ _ _ _ _ hk]
      by_cases hk2 : k1 = k2
      · subst hk2
        rw [getA_cons_eq, getA_cons_eq]
      · rw [getA_cons_ne _ _ _ _ hk2, getA_cons_ne _ _ _ _ hk2]
        exact getA_setA_ne k k2 v hne rest

/-- Attribute rows of every matching element after an attribute-only updAll
pass, positionally: the pass keeps the tree shape and the find_all order. -/
theorem updAll_findAll_attrs (p : Node → Bool) (f : Node → Edit) (tg : String)
    (hrepl : ∀ n, (f n).repl = none) (htag : ∀ n, (f n).tag = n.tag) :
    ∀ l : NodeList,
      ((l.updAll p f).findAll (isTag tg)).map Node.attrs
        = (l.findAll (isTag tg)).map (fun n => if p n then (f n).attrs else n.attrs)
  | .nil => by simp [NodeList.updAll, NodeList.findAll]
  | .cons (.txt i s) tl => by
    simpa [NodeList.updAll, NodeList.findAll] using
      updAll_findAll_attrs p f tg hrepl htag tl
  | .cons (.elem i t a cs) tl => by
    have ihc := updAll_findAll_attrs p f tg hrepl htag cs
    have iht := updAll_findAll_attrs p f tg hrepl htag tl
    simp only [NodeList.updAll, NodeList.findAll]
    by_cases hp : p (.elem i t a cs)
    · simp only [hp, if_true, hrepl (Node.elem i t a cs)]
      by_cases ht : isTag tg (Node.elem i t a cs)
      · have ht2 : isTag tg (Node.elem i (f (Node.elem i t a cs)).tag
            (f (Node.elem i t a cs)).attrs (cs.updAll p f)) = true := by
          simp [isTag] at ht ⊢
          rw [htag]
          exact ht
        simp [NodeList.findAll, ht, ht2, ihc, iht, Node.attrs, hp]
      · have ht2 : isTag tg (Node.elem i (f (Node.elem i t a cs)).tag
            (f (Node.elem i t a cs)).attrs (cs.updAll p f)) = false := by
          simp [isTag] at ht ⊢
          rw [htag]
          exact ht
        simp [NodeList.findAll, ht, ht2, ihc, iht]
    · simp only [hp, if_false]
      by_cases ht : isTag tg (Node.elem i t a cs)
      · have ht2 : isTag tg (Node.elem i t a (cs.updAll p f)) = true := by
          simpa [isTag] using ht
        simp [NodeList.findAll, ht, ht2, ihc, iht, Node.attrs, hp]
      · have ht2 : isTag tg (Node.elem i t a (cs.updAll p f)) = false := by
          simpa [isTag] using ht
        simp [NodeList.findAll, ht, ht2, ihc, iht]

end A11y

namespace A11y

theorem findAll_pred (p : Node → Bool) :
    ∀ l : NodeList, ∀ n ∈ l.findAll p, p n = true
  | .cons (.txt i s) tl, n, hmem => by
    simp only [NodeList.findAll] at hmem
    exact findAll_pred p tl n hmem
  | .cons (.elem i t a cs) tl, n, hmem => by
    simp only [NodeList.findAll] at hmem
    rcases List.mem_append.1 hmem with h1 | h2
    · rcases List.mem_append.1 h1 with h0 | hc
      · by_cases hp : p (.elem i t a cs)
        · simp [hp] at h0
          subst h0
          exact hp
        · simp [hp] at h0
      · exact findAll_pred p cs n hc
    · exact findAll_pred p tl n h2

/-- Unfolding of find_all on a node through updAll with child-keeping edits. -/
theorem node_findAll_updAll (p : Node → Bool) (f : Node → Edit) (q : Node → Bool) (t : Node) :
    (updAll p f t).findAll q = (t.kids.updAll p f).findAll q := by
  cases t <;> simp [updAll, Node.findAll, Node.kids, NodeList.updAll]

/-- C9 supporting lemma: the iframe-title pass rewrites exactly the empty
titles, positionally over the document's iframes. -/
theorem fixIframe_titles (t : Node) :
    ((fixIframe t).findAll (isTag "iframe")).map (fun n => getA n.attrs "title")
      = (t.findAll (isTag "iframe")).map (fun n =>
          if pyStrip (chainStr n ["title"]) = "" then some (Val.s "Embedded content")
          else getA n.attrs "title") := by
  unfold fixIframe
  rw [node_findAll_updAll]
  have h1 := updAll_findAll_attrs
    (fun n => isTag "iframe" n && pyStrip (chainStr n ["title"]) = "")
    (fun n => { tag := n.tag, attrs := setA n.attrs "title" (.s "Embedded content"), repl := none })
    "iframe" (fun _ => rfl) (fun _ => rfl) t.kids
  have h2 : ∀ l : List Node, l.map (fun n => getA n.attrs "title")
      = (l.map Node.attrs).map (fun a => getA a "title") := by
    intro l
    rw [List.map_map]
    rfl
  rw [h2, h1, List.map_map, Node.findAll]
  refine List.map_congr_left (fun n hmem => ?_)
  have hpn := findAll_pred (isTag "iframe") t.kids n hmem
  by_cases hempty : pyStrip (chainStr n ["title"]) = ""
  · simp [Function.comp, hpn, hempty, getA_setA_self]
  · simp [Function.comp, hpn, hempty]

/-- C9: a single IFRAME_NO_TITLE issue is applied document-wide: after
remediating one such issue, every iframe whose title was empty or absent
carries the generic title, every other iframe keeps its title, positionally
over the document's iframes in document order. -/
theorem iframe_title_fix_applies_document_wide (cfg : Cfg) (t : Node) (iss : Issue)
    (hk : iss.kind = "IFRAME_NO_TITLE") (hr : iss.chunk.role = "iframe") :
    ((apply_fixes cfg t [iss] "").findAll (isTag "iframe")).map (fun n => getA n.attrs "title")
      = (t.findAll (isTag "iframe")).map (fun n =>
          if pyStrip (chainStr n ["title"]) = "" then some (Val.s "Embedded content")
          else getA n.attrs "title") := by
  have hstep : apply_fixes cfg t [iss] "" = fixIframe t := by
    simp [apply_fixes, fixStep, hk, hr]
  rw [hstep]
  exact fixIframe_titles t

def cfg0 : Cfg := { gen := none, hashF := fun _ => 0 }

def iframeDocW : Node :=
  .elem 1 "[document]" [] (.cons
    (.elem 2 "body" [] (.cons (.elem 3 "iframe" [] .nil)
      (.cons (.elem 4 "iframe" [("title", .s "ok")] .nil) .nil))) .nil)

def iframeIssW : Issue :=
  { kind := "IFRAME_NO_TITLE", sev := "LOW", details := [],
    chunk := { role := "iframe", path := "", text := "", attrs := [] } }

/-- Witness for C9 at a concrete document with one untitled and one titled
iframe. -/
theorem iframe_title_fix_applies_document_wide_witness :
    ((apply_fixes cfg0 iframeDocW [iframeIssW] "").findAll (isTag "iframe")).map
      (fun n => getA n.attrs "title")
      = [some (Val.s "Embedded content"), some (Val.s "ok")] := by
  have h := iframe_title_fix_applies_document_wide cfg0 iframeDocW iframeIssW rfl rfl
  rw [h]
  decide

end A11y

namespace A11y

/-- Lookup of the first element (in document order) with a given identity. -/
def NodeList.lookupNid (i : Nat) : NodeList → Option Node
  | .nil => none
  | .cons (.txt _ _) tl => tl.lookupNid i
  | .cons (.elem j t a cs) tl =>
    if j = i then some (.elem j t a cs)
    else
      match cs.lookupNid i with
      | some r => some r
      | none => tl.lookupNid i

/-- Lookup of a document element by identity (the root is not an element
candidate, matching find_all). -/
def Node.lookupNid (t : Node) (i : Nat) : Option Node := t.kids.lookupNid i

/-- No element matching the tag sits strictly inside another element
matching the tag (for anchors: the HTML parser never nests them). -/
def NodeList.nestedFree (q : Node → Bool) : NodeList → Bool
  | .nil => true
  | .cons (.txt _ _) tl => tl.nestedFree q
  | .cons (.elem i t a cs) tl =>
    (if q (.elem i t a cs) then (cs.findAll q).isEmpty else cs.nestedFree q)
      && tl.nestedFree q

theorem findAll_mono_empty (p q : Node → Bool) (hpq : ∀ m, p m = true → q m = true) :
    ∀ l : NodeList, l.findAll q = [] → l.findAll p = []
  | .nil, _ => rfl
  | .cons (.txt i s) tl, h => by
    simp only [NodeList.findAll] at h ⊢
    exact findAll_mono_empty p q hpq tl h
  | .cons (.elem i t a cs) tl, h => by
    simp only [NodeList.findAll] at h ⊢
    rcases List.append_eq_nil.1 h with ⟨h1, h3⟩
    rcases List.append_eq_nil.1 h1 with ⟨h0, h2⟩
    have hq : q (.elem i t a cs) = false := by
      by_cases hb : q (.elem i t a cs)
      · simp [hb] at h0
      · simpa using hb
    have hp : p (.elem i t a cs) = false := by
      by_cases hb : p (.elem i t a cs)
      · rw [hpq _ hb] at hq
        exact absurd hq (by simp)
      · simpa using hb
    simp [hp, findAll_mono_empty p q hpq cs h2, findAll_mono_empty p q hpq tl h3]

/-- updAll is the identity where nothing matches. -/
theorem updAll_no_match (p : Node → Bool) (f : Node → Edit) :
    ∀ l : NodeList, l.findAll p = [] → l.updAll p f = l
  | .nil, _ => rfl
  | .cons (.txt i s) tl, h => by
    simp only [NodeList.findAll] at h
    simp only [NodeList.updAll]
    rw [updAll_no_match p f tl h]
  | .cons (.elem i t a cs) tl, h => by
    simp only [NodeList.findAll] at h
    rcases List.append_eq_nil.1 h with ⟨h1, h3⟩
    rcases List.append_eq_nil.1 h1 with ⟨h0, h2⟩
    have hp : p (.elem i t a cs) = false := by
      by_cases hb : p (.elem i t a cs)
      · simp [hb] at h0
      · simpa using hb
    simp only [NodeList.updAll, hp]
    rw [updAll_no_match p f cs h2, updAll_no_match p f tl h3]
    simp

/-- A sibling list with no elements at all has no element lookups. -/
theorem lookupNid_none_of_no_elems (i : Nat) :
    ∀ m : NodeList, m.findAll (fun _ => true) = [] → m.lookupNid i = none
  | .nil, _ => rfl
  | .cons (.txt a b) tl, h => by
    simp only [NodeList.findAll] at h
    simp only [NodeList.lookupNid]
    exact lookupNid_none_of_no_elems i tl h
  | .cons (.elem a b c d) tl, h => by
    simp [NodeList.findAll] at h

/-- Lookup misses are preserved by updAll when edits replace children only
by element-free content. -/
theorem updAll_lookup_none (p : Node → Bool) (f : Node → Edit)
    (hf : ∀ n, ∀ r, (f n).repl = some r → r.findAll (fun _ => true) = []) :
    ∀ l : NodeList, ∀ i, l.lookupNid i = none → (l.updAll p f).lookupNid i = none
  | .nil, i, _ => rfl
  | .cons (.txt j s) tl, i, h => by
    simp only [NodeList.lookupNid] at h
    simp only [NodeList.updAll, NodeList.lookupNid]
    exact updAll_lookup_none p f hf tl i h
  | .cons (.elem j t a cs) tl, i, h => by
    simp only [NodeList.lookupNid] at h
    by_cases hj : j = i
    · simp [hj] at h
    · rw [if_neg hj] at h
      have hcs : cs.lookupNid i = none := by
        cases hc : cs.lookupNid i with
        | none => rfl
        | some r => rw [hc] at h; exact absurd h (by simp)
      rw [hcs] at h
      simp only [NodeList.updAll]
      by_cases hp : p (.elem j t a cs)
      · simp only [hp, if_true]
        cases hrepl : (f (.elem j t a cs)).repl with
        | some r =>
          simp only [NodeList.lookupNid, if_neg hj]
          have hre : r.lookupNid i = none := lookupNid_none_of_no_elems i r (hf _ _ hrepl)
          rw [hre]
          exact updAll_lookup_none p f hf tl i h
        | none =>
          simp only [NodeList.lookupNid, if_neg hj]
          rw [updAll_lookup_none p f hf cs i hcs]
          exact updAll_lookup_none p f hf tl i h
      · simp only [hp, if_false]
        simp only [NodeList.lookupNid, if_neg hj]
        rw [updAll_lookup_none p f hf cs i hcs]
        exact updAll_lookup_none p f hf tl i h

end A11y

namespace A11y

theorem lookup_some_findAll_ne (q : Node → Bool) :
    ∀ l : NodeList, ∀ i n, l.lookupNid i = some n → q n = true → l.findAll q ≠ []
  | .nil, i, n, h, _ => by simp [NodeList.lookupNid] at h
  | .cons (.txt a b) tl, i, n, h, hq => by
    simp only [NodeList.lookupNid] at h
    simp only [NodeList.findAll]
    exact lookup_some_findAll_ne q tl i n h hq
  | .cons (.elem j t a cs) tl, i, n, h, hq => by
    simp only [NodeList.lookupNid] at h
    simp only [NodeList.findAll]
    by_cases hj : j = i
    · rw [if_pos hj] at h
      have hn : n = Node.elem j t a cs := by
        injection h with h2
        exact h2.symm
      subst hn
      simp [hq]
    · rw [if_neg hj] at h
      cases hc : cs.lookupNid i with
      | some r =>
        rw [hc] at h
        injection h with h2
        have hqr : q r = true := by rw [h2]; exact hq
        have := lookup_some_findAll_ne q cs i r hc hqr
        intro hemp
        rcases List.append_eq_nil.1 hemp with ⟨h1, h3⟩
        rcases List.append_eq_nil.1 h1 with ⟨h0, h2⟩
        exact this h2
      | none =>
        rw [hc] at h
        have := lookup_some_findAll_ne q tl i n h hq
        intro hemp
        rcases List.append_eq_nil.1 hemp with ⟨h1, h3⟩
        exact this h3

/-- Central characterization of updAll by element identity: when the
matched predicate only selects elements of one tag, no such element nests
inside another, and child replacements carry no elements, then every
element of that tag is found afterwards exactly as its local edit (with
children untouched), and unmatched ones are unchanged. -/
theorem updAll_lookup_tagged (p : Node → Bool) (f : Node → Edit) (tg0 : String)
    (hp : ∀ m, p m = true → isTag tg0 m = true)
    (hf : ∀ n r, (f n).repl = some r → r.findAll (fun _ => true) = []) :
    ∀ l : NodeList, l.nestedFree (isTag tg0) = true →
      ∀ i n, l.lookupNid i = some n → isTag tg0 n = true →
        (l.updAll p f).lookupNid i = some (if p n then applyEdit f n else n)
  | .nil, _, i, n, h, _ => by simp [NodeList.lookupNid] at h
  | .cons (.txt a b) tl, hnest, i, n, h, htg => by
    simp only [NodeList.lookupNid] at h
    simp only [NodeList.nestedFree] at hnest
    simp only [NodeList.updAll, NodeList.lookupNid]
    exact updAll_lookup_tagged p f tg0 hp hf tl hnest i n h htg
  | .cons (.elem j t a cs) tl, hnest, i, n, h, htg => by
    simp only [NodeList.lookupNid] at h
    simp only [NodeList.nestedFree, Bool.and_eq_true] at hnest
    obtain ⟨hhead, htl⟩ := hnest
    by_cases hj : j = i
    · rw [if_pos hj] at h
      have hn : n = Node.elem j t a cs := by
        injection h with h2
        exact h2.symm
      subst hn
      have hcsq : cs.findAll (isTag tg0) = [] := by
        rw [if_pos htg] at hhead
        simpa [List.isEmpty_iff] using hhead
      have hcsp : cs.findAll p = [] := findAll_mono_empty p (isTag tg0) hp cs hcsq
      have hcs : cs.updAll p f = cs := updAll_no_match p f cs hcsp
      simp only [NodeList.updAll]
      by_cases hpn : p (Node.elem j t a cs)
      · simp only [hpn, if_true]
        cases hrepl : (f (Node.elem j t a cs)).repl with
        | some newCs =>
          simp only [NodeList.lookupNid, if_pos hj]
          simp [applyEdit, Node.tag, Node.attrs, hrepl]
        | none =>
          simp only [NodeList.lookupNid, if_pos hj, hcs]
          simp [applyEdit, Node.tag, Node.attrs, hrepl]
      · simp only [hpn, if_false, hcs]
        simp [NodeList.lookupNid, if_pos hj, hpn]
    · rw [if_neg hj] at h
      cases hc : cs.lookupNid i with
      | some r =>
        rw [hc] at h
        have hrn : r = n := by injection h
        subst hrn
        have hne := lookup_some_findAll_ne (isTag tg0) cs i r hc htg
        have hheadnot : isTag tg0 (Node.elem j t a cs) = false := by
          by_cases hb : isTag tg0 (Node.elem j t a cs)
          · rw [if_pos hb] at hhead
            exact absurd (by simpa [List.isEmpty_iff] using hhead) hne
          · simpa using hb
        have hpn : p (Node.elem j t a cs) = false := by
          by_cases hb : p (Node.elem j t a cs)
          · rw [hp _ hb] at hheadnot
            exact absurd hheadnot (by simp)
          · simpa using hb
        simp only [hheadnot, Bool.false_eq_true, if_false] at hhead
        simp only [NodeList.updAll, hpn, if_false]
        simp only [NodeList.lookupNid, if_neg hj]
        rw [updAll_lookup_tagged p f tg0 hp hf cs hhead i r hc htg]
      | none =>
        rw [hc] at h
        simp only [NodeList.updAll]
        by_cases hpn : p (Node.elem j t a cs)
        · simp only [hpn, if_true]
          cases hrepl : (f (Node.elem j t a cs)).repl with
          | some newCs =>
            simp only [NodeList.lookupNid, if_neg hj]
            rw [lookupNid_none_of_no_elems i newCs (hf _ _ hrepl)]
            exact updAll_lookup_tagged p f tg0 hp hf tl htl i n h htg
          | none =>
            simp only [NodeList.lookupNid, if_neg hj]
            rw [updAll_lookup_none p f hf cs i hc]
            exact updAll_lookup_tagged p f tg0 hp hf tl htl i n h htg
        · simp only [hpn, if_false]
          simp only [NodeList.lookupNid, if_neg hj]
          rw [updAll_lookup_none p f hf cs i hc]
          exact updAll_lookup_tagged p f tg0 hp hf tl htl i n h htg

end A11y

namespace A11y

/-- Node-level updAll and lookup commute through the root. -/
theorem node_lookup_updAll (p : Node → Bool) (f : Node → Edit) (t : Node) (i : Nat) :
    (updAll p f t).lookupNid i = (t.kids.updAll p f).lookupNid i := by
  cases t <;> simp [updAll, Node.lookupNid, Node.kids, NodeList.updAll]

/-- C8 amended supporting lemma: the A_ACTS_BUTTON pass retags an anchor to
a button exactly when its href is empty or absent; it replaces the children
with the default Button label exactly when the anchor also has no visible
text; anchors with a non-empty href are left unchanged. -/
theorem fixAActs_lookup (t : Node) (hnest : t.kids.nestedFree (isTag "a") = true)
    (i : Nat) (a0 : Node) (hl : t.lookupNid i = some a0) (ha : isTag "a" a0 = true) :
    (fixAActs t).lookupNid i
      = some (if pyStrip (chainStr a0 ["href"]) = "" then
          (if getTextStrip a0 = "" then
            Node.elem a0.nid "button" a0.attrs (.cons (.txt 0 "Button") .nil)
          else Node.elem a0.nid "button" a0.attrs a0.kids)
        else a0) := by
  unfold fixAActs
  rw [node_lookup_updAll]
  have hp : ∀ m : Node, (isTag "a" m && pyStrip (chainStr m ["href"]) = "" : Bool) = true
      → isTag "a" m = true := by
    intro m hm
    simp only [Bool.and_eq_true] at hm
    exact hm.1
  have hf : ∀ (n : Node) (r : NodeList),
      ((fun n => if getTextStrip n = "" then
          ({ tag := "button", attrs := n.attrs, repl := some (.cons (.txt 0 "Button") .nil) } : Edit)
        else ({ tag := "button", attrs := n.attrs, repl := none } : Edit)) n).repl = some r
      → r.findAll (fun _ => true) = [] := by
    intro n r hrepl
    by_cases htx : getTextStrip n = ""
    · simp only [htx, if_true] at hrepl
      injection hrepl with h2
      subst h2
      rfl
    · simp only [htx, if_false] at hrepl
      exact absurd hrepl (by simp)
  have key := updAll_lookup_tagged
    (fun n => isTag "a" n && pyStrip (chainStr n ["href"]) = "")
    (fun n => if getTextStrip n = "" then
        ({ tag := "button", attrs := n.attrs, repl := some (.cons (.txt 0 "Button") .nil) } : Edit)
      else ({ tag := "button", attrs := n.attrs, repl := none } : Edit))
    "a" hp hf t.kids hnest i a0 hl ha
  rw [key]
  cases a0 with
  | txt j s => simp [isTag] at ha
  | elem j tg at0 cs0 =>
    by_cases hhref : pyStrip (chainStr (Node.elem j tg at0 cs0) ["href"]) = ""
    · by_cases htx : getTextStrip (Node.elem j tg at0 cs0) = ""
      · simp [ha, hhref, htx, applyEdit, Node.tag, Node.attrs, Node.kids, Node.nid]
      · simp [ha, hhref, htx, applyEdit, Node.tag, Node.attrs, Node.kids, Node.nid]
    · simp [hhref]

/-- C8 (amended): applying an A_ACTS_BUTTON issue retags an anchor from
anchor to button semantics exactly when the anchor has no navigation
target (empty or absent href), independently of its text; the default
Button label is assigned exactly when the anchor also has no text (an
anchor with text keeps its text); anchors with a navigation target keep
their anchor tag and are unchanged. -/
theorem a_acts_button_retags_all_empty_href_anchors (cfg : Cfg) (t : Node) (iss : Issue)
    (hk : iss.kind = "A_ACTS_BUTTON") (hr : iss.chunk.role = "link")
    (hnest : t.kids.nestedFree (isTag "a") = true)
    (i : Nat) (a0 : Node) (hl : t.lookupNid i = some a0) (ha : isTag "a" a0 = true) :
    (apply_fixes cfg t [iss] "").lookupNid i
      = some (if pyStrip (chainStr a0 ["href"]) = "" then
          (if getTextStrip a0 = "" then
            Node.elem a0.nid "button" a0.attrs (.cons (.txt 0 "Button") .nil)
          else Node.elem a0.nid "button" a0.attrs a0.kids)
        else a0) := by
  have hstep : apply_fixes cfg t [iss] "" = fixAActs t := by
    simp [apply_fixes, fixStep, hk, hr]
  rw [hstep]
  exact fixAActs_lookup t hnest i a0 hl ha

def aDocW : Node :=
  .elem 1 "[document]" [] (.cons (.elem 2 "body" [] (.cons
    (.elem 3 "a" [] (.cons (.txt 4 "Hello") .nil))
    (.cons (.elem 5 "a" [("href", .s "x")] (.cons (.txt 6 "Go") .nil))
      (.cons (.elem 7 "a" [] .nil) .nil)))) .nil)

def aActsIssW : Issue :=
  { kind := "A_ACTS_BUTTON", sev := "LOW", details := [],
    chunk := { role := "link", path := "", text := "", attrs := [] } }

/-- Counterexample to C8 as stated: an anchor with empty href but
non-empty text Hello is retagged to a button by the A_ACTS_BUTTON fix,
though the claim says anchors that do not satisfy both conditions (no
target and no text) keep their anchor tag. -/
theorem a_acts_button_counterexample :
    (aDocW.lookupNid 3).map Node.tag = some "a"
    ∧ getTextStrip ((aDocW.lookupNid 3).getD (.txt 0 "")) = "Hello"
    ∧ pyStrip (chainStr ((aDocW.lookupNid 3).getD (.txt 0 "")) ["href"]) = ""
    ∧ ((apply_fixes cfg0 aDocW [aActsIssW] "").lookupNid 3).map Node.tag = some "button" := by
  decide

/-- Witness for the amended C8 at a concrete document: the textless
empty-href anchor becomes a labelled button, the anchor with an href is
untouched. -/
theorem a_acts_button_retags_all_empty_href_anchors_witness :
    (apply_fixes cfg0 aDocW [aActsIssW] "").lookupNid 7
      = some (.elem 7 "button" [] (.cons (.txt 0 "Button") .nil))
    ∧ (apply_fixes cfg0 aDocW [aActsIssW] "").lookupNid 5
      = some (.elem 5 "a" [("href", .s "x")] (.cons (.txt 6 "Go") .nil)) := by
  constructor
  · have h := a_acts_button_retags_all_empty_href_anchors cfg0 aDocW aActsIssW rfl rfl
      (by decide) 7 (.elem 7 "a" [] .nil) (by decide) (by decide)
    rw [h]
    decide
  · have h := a_acts_button_retags_all_empty_href_anchors cfg0 aDocW aActsIssW rfl rfl
      (by decide) 5 (.elem 5 "a" [("href", .s "x")] (.cons (.txt 6 "Go") .nil))
      (by decide) (by decide)
    rw [h]
    decide

end A11y

namespace A11y

theorem lookup_some_nid :
    ∀ l : NodeList, ∀ i n, l.lookupNid i = some n → n.nid = i
  | .cons (.txt a b) tl, i, n, h => by
    simp only [NodeList.lookupNid] at h
    exact lookup_some_nid tl i n h
  | .cons (.elem j t a cs) tl, i, n, h => by
    simp only [NodeList.lookupNid] at h
    by_cases hj : j = i
    · rw [if_pos hj] at h
      injection h with h2
      rw [← h2]
      exact hj
    · rw [if_neg hj] at h
      cases hc : cs.lookupNid i with
      | some r =>
        rw [hc] at h
        injection h with h2
        rw [← h2]
        exact lookup_some_nid cs i r hc
      | none =>
        rw [hc] at h
        exact lookup_some_nid tl i n h

theorem lookup_some_nid_mem :
    ∀ l : NodeList, ∀ i n, l.lookupNid i = some n → i ∈ l.nids
  | .cons (.txt a b) tl, i, n, h => by
    simp only [NodeList.lookupNid] at h
    simp only [NodeList.nids, List.mem_cons]
    exact Or.inr (lookup_some_nid_mem tl i n h)
  | .cons (.elem j t a cs) tl, i, n, h => by
    simp only [NodeList.lookupNid] at h
    simp only [NodeList.nids, List.mem_cons]
    by_cases hj : j = i
    · exact Or.inl hj.symm
    · rw [if_neg hj] at h
      refine Or.inr (List.mem_append.2 ?_)
      cases hc : cs.lookupNid i with
      | some r =>
        exact Or.inl (lookup_some_nid_mem cs i r hc)
      | none =>
        rw [hc] at h
        exact Or.inr (lookup_some_nid_mem tl i n h)

theorem findAll_mem_nid_mem (q : Node → Bool) :
    ∀ l : NodeList, ∀ n ∈ l.findAll q, n.nid ∈ l.nids
  | .cons (.txt a b) tl, n, h => by
    simp only [NodeList.findAll] at h
    simp only [NodeList.nids, List.mem_cons]
    exact Or.inr (findAll_mem_nid_mem q tl n h)
  | .cons (.elem j t a cs) tl, n, h => by
    simp only [NodeList.findAll] at h
    simp only [NodeList.nids, List.mem_cons]
    rcases List.mem_append.1 h with h1 | h3
    · rcases List.mem_append.1 h1 with h0 | h2
      · by_cases hq : q (.elem j t a cs)
        · simp [hq] at h0
          subst h0
          exact Or.inl rfl
        · simp [hq] at h0
      · exact Or.inr (List.mem_append.2 (Or.inl (findAll_mem_nid_mem q cs n h2)))
    · exact Or.inr (List.mem_append.2 (Or.inr (findAll_mem_nid_mem q tl n h3)))

/-- The found flag of updFirst reflects the presence of a match. -/
theorem updFirst_found (p : Node → Bool) (f : Node → Edit) :
    ∀ l : NodeList, (l.updFirst p f).2 = !(l.findAll p).isEmpty
  | .nil => rfl
  | .cons (.txt a b) tl => by
    simp only [NodeList.updFirst, NodeList.findAll]
    exact updFirst_found p f tl
  | .cons (.elem j t a cs) tl => by
    simp only [NodeList.updFirst, NodeList.findAll]
    by_cases hp : p (.elem j t a cs)
    · simp [hp]
    · simp only [hp, if_false, Bool.false_eq_true]
      have hc := updFirst_found p f cs
      have ht := updFirst_found p f tl
      by_cases hcs : (cs.findAll p).isEmpty
      · have : (cs.updFirst p f).2 = false := by rw [hc, hcs]; rfl
        simp only [this, if_false, Bool.false_eq_true]
        rw [ht]
        have hcs2 : cs.findAll p = [] := by simpa [List.isEmpty_iff] using hcs
        simp [hcs2]
      · have hcs3 : (cs.findAll p).isEmpty = false := by
          simpa using hcs
        have : (cs.updFirst p f).2 = true := by rw [hc, hcs3]; rfl
        simp only [this, if_true]
        have hcs2 : cs.findAll p ≠ [] := by
          simpa [List.isEmpty_iff] using hcs
        cases hx : cs.findAll p with
        | nil => exact absurd hx hcs2
        | cons y ys => simp [hx]

/-- Lookup misses are preserved by updFirst when replacements carry no
elements. -/
theorem updFirst_lookup_none (p : Node → Bool) (f : Node → Edit)
    (hf : ∀ n r, (f n).repl = some r → r.findAll (fun _ => true) = []) :
    ∀ l : NodeList, ∀ i, l.lookupNid i = none → (l.updFirst p f).1.lookupNid i = none
  | .nil, i, _ => rfl
  | .cons (.txt a b) tl, i, h => by
    simp only [NodeList.lookupNid] at h
    simp only [NodeList.updFirst, NodeList.lookupNid]
    exact updFirst_lookup_none p f hf tl i h
  | .cons (.elem j t a cs) tl, i, h => by
    simp only [NodeList.lookupNid] at h
    by_cases hj : j = i
    · simp [hj] at h
    · rw [if_neg hj] at h
      have hcs : cs.lookupNid i = none := by
        cases hc : cs.lookupNid i with
        | none => rfl
        | some r => rw [hc] at h; exact absurd h (by simp)
      rw [hcs] at h
      simp only [NodeList.updFirst]
      by_cases hp : p (.elem j t a cs)
      · simp only [hp, if_true]
        simp only [NodeList.lookupNid, applyEdit]
        cases hrepl : (f (.elem j t a (Node.kids (Node.elem j t a cs)))).repl with
        | some r =>
          simp only [Node.tag, Node.attrs, Node.kids] at hrepl ⊢
          simp only [NodeList.lookupNid, if_neg hj, hrepl, Option.getD]
          rw [lookupNid_none_of_no_elems i r (hf _ _ hrepl)]
          exact h
        | none =>
          simp only [Node.tag, Node.attrs, Node.kids] at hrepl ⊢
          simp only [NodeList.lookupNid, if_neg hj, hrepl, Option.getD]
          rw [hcs]
          exact h
      · simp only [hp, if_false]
        cases hfd : (cs.updFirst p f).2 with
        | true =>
          simp only [hfd, if_true, NodeList.lookupNid, if_neg hj]
          rw [updFirst_lookup_none p f hf cs i hcs]
          exact h
        | false =>
          simp only [hfd, if_false, NodeList.lookupNid, if_neg hj]
          rw [hcs]
          exact updFirst_lookup_none p f hf tl i h

end A11y

namespace A11y

theorem updFirst_cons_match (p : Node → Bool) (f : Node → Edit)
    (j : Nat) (t : String) (a : Attrs) (cs tl : NodeList)
    (hpj : p (.elem j t a cs) = true) :
    (NodeList.cons (.elem j t a cs) tl).updFirst p f
      = (.cons (applyEdit f (.elem j t a cs)) tl, true) := by
  simp [NodeList.updFirst, hpj]

theorem updFirst_cons_cs (p : Node → Bool) (f : Node → Edit)
    (j : Nat) (t : String) (a : Attrs) (cs tl : NodeList)
    (hpj : p (.elem j t a cs) = false) (hfd : (cs.updFirst p f).2 = true) :
    (NodeList.cons (.elem j t a cs) tl).updFirst p f
      = (.cons (.elem j t a (cs.updFirst p f).1) tl, true) := by
  simp [NodeList.updFirst, hpj, hfd]

theorem updFirst_cons_tl (p : Node → Bool) (f : Node → Edit)
    (j : Nat) (t : String) (a : Attrs) (cs tl : NodeList)
    (hpj : p (.elem j t a cs) = false) (hfd : (cs.updFirst p f).2 = false) :
    (NodeList.cons (.elem j t a cs) tl).updFirst p f
      = (.cons (.elem j t a cs) (tl.updFirst p f).1, (tl.updFirst p f).2) := by
  simp [NodeList.updFirst, hpj, hfd]

theorem findAll_cons_elem (p : Node → Bool)
    (j : Nat) (t : String) (a : Attrs) (cs tl : NodeList) :
    (NodeList.cons (.elem j t a cs) tl).findAll p
      = (if p (.elem j t a cs) = true then [Node.elem j t a cs] else [])
        ++ cs.findAll p ++ tl.findAll p := rfl

theorem lookupNid_cons_elem (i j : Nat) (t : String) (a : Attrs) (cs tl : NodeList) :
    (NodeList.cons (.elem j t a cs) tl).lookupNid i
      = (if j = i then some (.elem j t a cs)
         else match cs.lookupNid i with
           | some r => some r
           | none => tl.lookupNid i) := rfl

theorem applyEdit_elem (f : Node → Edit) (j : Nat) (t : String) (a : Attrs) (cs : NodeList) :
    applyEdit f (.elem j t a cs)
      = .elem j (f (.elem j t a cs)).tag (f (.elem j t a cs)).attrs
          ((f (.elem j t a cs)).repl.getD cs) := by
  simp [applyEdit, Node.tag, Node.attrs]

/-- Central characterization of updFirst by element identity (needs unique
identities): when the predicate selects only elements of one tag, no such
element nests inside another, and replacements carry no elements, then the
first match is found afterwards as its local edit and every other element
of that tag is unchanged. -/
theorem updFirst_lookup_tagged (p : Node → Bool) (f : Node → Edit) (tg0 : String)
    (hp : ∀ m, p m = true → isTag tg0 m = true)
    (hf : ∀ n r, (f n).repl = some r → r.findAll (fun _ => true) = []) :
    ∀ l : NodeList, l.nids.Nodup → l.nestedFree (isTag tg0) = true →
      ∀ i n, l.lookupNid i = some n → isTag tg0 n = true →
        (l.updFirst p f).1.lookupNid i
          = some (if (l.findAll p).head? = some n then applyEdit f n else n)
  | .nil, _, _, i, n, h, _ => by simp [NodeList.lookupNid] at h
  | .cons (.txt a b) tl, hnodup, hnest, i, n, h, htg => by
    simp only [NodeList.lookupNid] at h
    simp only [NodeList.nestedFree] at hnest
    simp only [NodeList.nids] at hnodup
    simp only [NodeList.updFirst, NodeList.findAll, NodeList.lookupNid]
    exact updFirst_lookup_tagged p f tg0 hp hf tl hnodup.of_cons hnest i n h htg
  | .cons (.elem j t a cs) tl, hnodup, hnest, i, n, h, htg => by
    rw [lookupNid_cons_elem] at h
    simp only [NodeList.nestedFree, Bool.and_eq_true] at hnest
    obtain ⟨hhead, htl⟩ := hnest
    simp only [NodeList.nids, List.nodup_cons, List.nodup_append] at hnodup
    obtain ⟨hjnot, hcsnd, htlnd, hdisj⟩ := hnodup
    rw [findAll_cons_elem]
    by_cases hpj : p (.elem j t a cs) = true
    · -- the head is the first match
      rw [updFirst_cons_match p f j t a cs tl hpj]
      have hheadtg : isTag tg0 (Node.elem j t a cs) = true := hp _ hpj
      have hcsq : cs.findAll (isTag tg0) = [] := by
        rw [if_pos hheadtg] at hhead
        simpa [List.isEmpty_iff] using hhead
      have hhd : ((if p (.elem j t a cs) = true then [Node.elem j t a cs] else [])
          ++ cs.findAll p ++ tl.findAll p).head? = some (Node.elem j t a cs) := by
        simp [hpj]
      rw [hhd]
      by_cases hj : j = i
      · rw [if_pos hj] at h
        have hn : n = Node.elem j t a cs := by
          injection h with h2
          exact h2.symm
        subst hn
        rw [if_pos rfl, applyEdit_elem]
        simp [lookupNid_cons_elem, hj]
      · rw [if_neg hj] at h
        cases hc : cs.lookupNid i with
        | some r =>
          rw [hc] at h
          have hrn : r = n := by injection h
          subst hrn
          exact absurd hcsq (lookup_some_findAll_ne (isTag tg0) cs i r hc htg)
        | none =>
          rw [hc] at h
          have hnid : n.nid = i := lookup_some_nid tl i n h
          have hne : Node.elem j t a cs ≠ n := by
            intro he
            rw [← he] at hnid
            exact hj hnid
          rw [if_neg (by simp only [Option.some.injEq]; exact hne)]
          rw [applyEdit_elem]
          cases hrepl : (f (.elem j t a cs)).repl with
          | some r =>
            simp only [Option.getD, lookupNid_cons_elem, if_neg hj]
            rw [lookupNid_none_of_no_elems i r (hf _ _ hrepl)]
            exact h
          | none =>
            simp only [Option.getD, lookupNid_cons_elem, if_neg hj]
            rw [hc]
            exact h
    · have hpjf : p (.elem j t a cs) = false := by simpa using hpj
      have hiff : (if p (.elem j t a cs) = true then [Node.elem j t a cs] else []) = [] := by
        simp [hpjf]
      rw [hiff, List.nil_append]
      cases hfd : (cs.updFirst p f).2 with
      | true =>
        rw [updFirst_cons_cs p f j t a cs tl hpjf hfd]
        have hcsne : cs.findAll p ≠ [] := by
          have := updFirst_found p f cs
          rw [hfd] at this
          intro hempty
          rw [hempty] at this
          simp at this
        by_cases hj : j = i
        · rw [if_pos hj] at h
          have hn : n = Node.elem j t a cs := by
            injection h with h2
            exact h2.symm
          subst hn
          have : cs.findAll p = [] :=
            findAll_mono_empty p (isTag tg0) hp cs
              (by rw [if_pos htg] at hhead; simpa [List.isEmpty_iff] using hhead)
          exact absurd this hcsne
        · rw [if_neg hj] at h
          cases hc : cs.lookupNid i with
          | some r =>
            rw [hc] at h
            have hrn : r = n := by injection h
            subst hrn
            have hheadnot : isTag tg0 (Node.elem j t a cs) = false := by
              by_cases hb : isTag tg0 (Node.elem j t a cs)
              · rw [if_pos hb] at hhead
                exact absurd (by simpa [List.isEmpty_iff] using hhead)
                  (lookup_some_findAll_ne (isTag tg0) cs i r hc htg)
              · simpa using hb
            simp only [hheadnot, Bool.false_eq_true, if_false] at hhead
            have ih := updFirst_lookup_tagged p f tg0 hp hf cs hcsnd hhead i r hc htg
            simp only [lookupNid_cons_elem, if_neg hj]
            rw [ih]
            cases hcsf : cs.findAll p with
            | nil => exact absurd hcsf hcsne
            | cons y ys => simp [hcsf]
          | none =>
            rw [hc] at h
            have hnidmem : i ∈ tl.nids := lookup_some_nid_mem tl i n h
            simp only [lookupNid_cons_elem, if_neg hj]
            rw [updFirst_lookup_none p f hf cs i hc]
            rw [h]
            cases hcsf : cs.findAll p with
            | nil => exact absurd hcsf hcsne
            | cons y ys =>
              have hymem : y ∈ cs.findAll p := by
                rw [hcsf]
                exact List.mem_cons_self y ys
              have hynid : y.nid ∈ cs.nids := findAll_mem_nid_mem p cs y hymem
              have hyne : y ≠ n := by
                intro he
                rw [he] at hynid
                rw [lookup_some_nid tl i n h] at hynid
                exact hdisj hynid hnidmem
              simp [hcsf, hyne]
      | false =>
        rw [updFirst_cons_tl p f j t a cs tl hpjf hfd]
        have hcse : cs.findAll p = [] := by
          have := updFirst_found p f cs
          rw [hfd] at this
          cases hx : cs.findAll p with
          | nil => rfl
          | cons y ys => rw [hx] at this; simp at this
        rw [hcse, List.nil_append]
        by_cases hj : j = i
        · rw [if_pos hj] at h
          have hn : n = Node.elem j t a cs := by
            injection h with h2
            exact h2.symm
          subst hn
          have hcne : ¬ ((tl.findAll p).head? = some (Node.elem j t a cs)) := by
            intro hh
            have hmem : Node.elem j t a cs ∈ tl.findAll p := by
              cases hx : tl.findAll p with
              | nil => rw [hx] at hh; simp at hh
              | cons y ys =>
                rw [hx] at hh
                simp only [List.head?_cons, Option.some.injEq] at hh
                rw [← hh]
                exact List.mem_cons_self _ _
            have := findAll_pred p tl _ hmem
            rw [this] at hpjf
            exact absurd hpjf (by simp)
          rw [if_neg hcne]
          simp [lookupNid_cons_elem, hj]
        · rw [if_neg hj] at h
          cases hc : cs.lookupNid i with
          | some r =>
            rw [hc] at h
            have hrn : r = n := by injection h
            subst hrn
            have hnidmem : i ∈ cs.nids := lookup_some_nid_mem cs i r hc
            have hcne : ¬ ((tl.findAll p).head? = some r) := by
              intro hh
              have hmem : r ∈ tl.findAll p := by
                cases hx : tl.findAll p with
                | nil => rw [hx] at hh; simp at hh
                | cons y ys =>
                  rw [hx] at hh
                  simp only [List.head?_cons, Option.some.injEq] at hh
                  rw [← hh]
                  exact List.mem_cons_self _ _
              have := findAll_mem_nid_mem p tl r hmem
              rw [lookup_some_nid cs i r hc] at this
              exact hdisj hnidmem this
            rw [if_neg hcne]
            simp only [lookupNid_cons_elem, if_neg hj]
            rw [hc]
          | none =>
            rw [hc] at h
            have ih := updFirst_lookup_tagged p f tg0 hp hf tl htlnd htl i n h htg
            simp only [lookupNid_cons_elem, if_neg hj]
            rw [hc, ih]

end A11y

namespace A11y

/-- C10: a POOR_LINK_TEXT or LINK_NO_NAME issue modifies at most one
anchor: the first anchor in document order matching the flagged text
(respectively the flagged href with empty text) has its contents replaced
by a single label text node, keeping its identity, tag and attributes;
every anchor that is not that first match is left entirely unchanged. -/
theorem relabel_fixes_modify_at_most_one_anchor (cfg : Cfg) (t : Node) (issP issL : Issue)
    (hkP : issP.kind = "POOR_LINK_TEXT") (hrP : issP.chunk.role = "link")
    (hkL : issL.kind = "LINK_NO_NAME") (hrL : issL.chunk.role = "link")
    (hnodup : t.kids.nids.Nodup) (hnest : t.kids.nestedFree (isTag "a") = true)
    (i : Nat) (n : Node) (hl : t.lookupNid i = some n) (ha : isTag "a" n = true) :
    (((t.kids.findAll (poorPred issP)).head? ≠ some n →
        (apply_fixes cfg t [issP] "").lookupNid i = some n)
      ∧ ((t.kids.findAll (poorPred issP)).head? = some n →
        (apply_fixes cfg t [issP] "").lookupNid i
          = some (.elem n.nid n.tag n.attrs (.cons (.txt 0 (poorLabel n)) .nil))))
    ∧ (((t.kids.findAll (noNamePred issL)).head? ≠ some n →
        (apply_fixes cfg t [issL] "").lookupNid i = some n)
      ∧ ((t.kids.findAll (noNamePred issL)).head? = some n →
        (apply_fixes cfg t [issL] "").lookupNid i
          = some (.elem n.nid n.tag n.attrs (.cons (.txt 0 (noNameLabel n)) .nil)))) := by
  obtain ⟨j, tg, a0, cs0, hn⟩ : ∃ j tg a0 cs0, n = Node.elem j tg a0 cs0 := by
    cases n with
    | txt x y => simp [isTag] at ha
    | elem j tg a0 cs0 => exact ⟨j, tg, a0, cs0, rfl⟩
  have hstepP : apply_fixes cfg t [issP] "" = fixPoor t issP := by
    simp [apply_fixes, fixStep, hkP, hrP]
  have hstepL : apply_fixes cfg t [issL] "" = fixLinkNoName t issL := by
    simp [apply_fixes, fixStep, hkL, hrL]
  have hlk : ∀ (p : Node → Bool) (f : Node → Edit), (updFirst p f t).lookupNid i
      = (t.kids.updFirst p f).1.lookupNid i := by
    intro p f
    cases t <;> simp [updFirst, Node.lookupNid, Node.kids, NodeList.updFirst]
  have hpP : ∀ m, poorPred issP m = true → isTag "a" m = true := by
    intro m hm
    simp only [poorPred, Bool.and_eq_true] at hm
    exact hm.1
  have hfP : ∀ (x : Node) (r : NodeList), (poorEdit x).repl = some r
      → r.findAll (fun _ => true) = [] := by
    intro x r hrepl
    simp only [poorEdit] at hrepl
    injection hrepl with h2
    subst h2
    rfl
  have hpL : ∀ m, noNamePred issL m = true → isTag "a" m = true := by
    intro m hm
    simp only [noNamePred, Bool.and_eq_true] at hm
    exact hm.1.1
  have hfL : ∀ (x : Node) (r : NodeList), (noNameEdit x).repl = some r
      → r.findAll (fun _ => true) = [] := by
    intro x r hrepl
    simp only [noNameEdit] at hrepl
    injection hrepl with h2
    subst h2
    rfl
  have keyP := updFirst_lookup_tagged (poorPred issP) poorEdit "a" hpP hfP
    t.kids hnodup hnest i n hl ha
  have keyL := updFirst_lookup_tagged (noNamePred issL) noNameEdit "a" hpL hfL
    t.kids hnodup hnest i n hl ha
  constructor
  · constructor
    · intro hne
      rw [hstepP]
      unfold fixPoor
      rw [hlk, keyP, if_neg hne]
    · intro heq
      rw [hstepP]
      unfold fixPoor
      rw [hlk, keyP, if_pos heq]
      subst hn
      simp [applyEdit, poorEdit, Node.tag, Node.attrs, Node.nid]
  · constructor
    · intro hne
      rw [hstepL]
      unfold fixLinkNoName
      rw [hlk, keyL, if_neg hne]
    · intro heq
      rw [hstepL]
      unfold fixLinkNoName
      rw [hlk, keyL, if_pos heq]
      subst hn
      simp [applyEdit, noNameEdit, Node.tag, Node.attrs, Node.nid]

def linkDocW : Node :=
  .elem 1 "[document]" [] (.cons (.elem 2 "body" [] (.cons
    (.elem 3 "a" [("href", .s "/a-page")] (.cons (.txt 4 "click here") .nil))
    (.cons (.elem 5 "a" [("href", .s "/b-page")] (.cons (.txt 6 "click here") .nil))
      (.cons (.elem 7 "a" [("href", .s "/c")] .nil)
        (.cons (.elem 8 "a" [("href", .s "/c")] .nil) .nil))))) .nil)

def poorIssW : Issue :=
  { kind := "POOR_LINK_TEXT", sev := "LOW", details := [],
    chunk := { role := "link", path := "", text := "click here", attrs := [] } }

def noNameIssW : Issue :=
  { kind := "LINK_NO_NAME", sev := "MEDIUM", details := [],
    chunk := { role := "link", path := "", text := "", attrs := [("href", .s "/c")] } }

/-- Witness for C10: with two anchors sharing the vague text and two
anchors sharing the flagged href, each fix relabels only the first one and
leaves the second unchanged. -/
theorem relabel_fixes_modify_at_most_one_anchor_witness :
    ((apply_fixes cfg0 linkDocW [poorIssW] "").lookupNid 5
        = some (.elem 5 "a" [("href", .s "/b-page")] (.cons (.txt 6 "click here") .nil))
      ∧ (apply_fixes cfg0 linkDocW [poorIssW] "").lookupNid 3
        = some (.elem 3 "a" [("href", .s "/a-page")] (.cons (.txt 0 "A Page") .nil)))
    ∧ ((apply_fixes cfg0 linkDocW [noNameIssW] "").lookupNid 8
        = some (.elem 8 "a" [("href", .s "/c")] .nil)
      ∧ (apply_fixes cfg0 linkDocW [noNameIssW] "").lookupNid 7
        = some (.elem 7 "a" [("href", .s "/c")] (.cons (.txt 0 "C") .nil))) := by
  refine ⟨⟨?_, ?_⟩, ⟨?_, ?_⟩⟩
  · have h := (relabel_fixes_modify_at_most_one_anchor cfg0 linkDocW poorIssW noNameIssW
      rfl rfl rfl rfl (by decide) (by decide) 5
      (.elem 5 "a" [("href", .s "/b-page")] (.cons (.txt 6 "click here") .nil))
      (by decide) (by decide)).1.1 (by decide)
    exact h
  · have h := (relabel_fixes_modify_at_most_one_anchor cfg0 linkDocW poorIssW noNameIssW
      rfl rfl rfl rfl (by decide) (by decide) 3
      (.elem 3 "a" [("href", .s "/a-page")] (.cons (.txt 4 "click here") .nil))
      (by decide) (by decide)).1.2 (by decide)
    rw [h]
    decide
  · have h := (relabel_fixes_modify_at_most_one_anchor cfg0 linkDocW poorIssW noNameIssW
      rfl rfl rfl rfl (by decide) (by decide) 8
      (.elem 8 "a" [("href", .s "/c")] .nil)
      (by decide) (by decide)).2.1 (by decide)
    exact h
  · have h := (relabel_fixes_modify_at_most_one_anchor cfg0 linkDocW poorIssW noNameIssW
      rfl rfl rfl rfl (by decide) (by decide) 7
      (.elem 7 "a" [("href", .s "/c")] .nil)
      (by decide) (by decide)).2.2 (by decide)
    rw [h]
    decide

end A11y

namespace A11y

theorem mem_sortedInsert (x y : String) :
    ∀ l : List String, x ∈ sortedInsert y l ↔ x = y ∨ x ∈ l
  | [] => by simp [sortedInsert]
  | z :: zs => by
    simp only [sortedInsert]
    by_cases h : strLeB y z
    · simp [h]
    · have hf : strLeB y z = false := by simpa using h
      rw [hf]
      simp only [Bool.false_eq_true, if_false, List.mem_cons]
      rw [mem_sortedInsert x y zs]
      tauto

theorem mem_pySorted (x : String) :
    ∀ l : List String, x ∈ pySorted l ↔ x ∈ l
  | [] => by simp [pySorted]
  | z :: zs => by
    simp only [pySorted, List.foldr_cons]
    rw [mem_sortedInsert]
    have := mem_pySorted x zs
    simp only [pySorted] at this
    rw [this, List.mem_cons]

/-- The rel tokens the fixer reads from the live anchor agree with the
tokens the audit reads from the captured chunk value. -/
theorem relTokens_relCapture (a : Node) :
    relTokens (some (relCapture a)) = relTokens (getA a.attrs "rel") := by
  unfold relCapture
  cases hg : getA a.attrs "rel" with
  | none => simp [relTokens]
  | some v =>
    cases v with
    | s x =>
      by_cases hx : x = ""
      · simp [relTokens, Val.truthy, hx]
      · simp [relTokens, Val.truthy, hx]
    | l xs =>
      by_cases hx : xs = []
      · simp [relTokens, Val.truthy, hx]
      · simp [relTokens, Val.truthy, hx]
    | b x => cases x <;> simp [relTokens, Val.truthy]
    | n x => by_cases hx : x = 0 <;> simp [relTokens, Val.truthy, hx]
    | nullV => simp [relTokens, Val.truthy]

/-- Every anchor of the document yields its link chunk in extract_chunks. -/
theorem linkChunk_mem_extract (t : Node) (pth : String) (a : Node)
    (hmem : (pth, a) ∈ elemsWithPath t) (ha : isTag "a" a = true) :
    linkChunk (pth, a) ∈ extract_chunks t := by
  unfold extract_chunks
  refine List.mem_append.2 (Or.inl ?_)
  refine List.mem_append.2 (Or.inl ?_)
  refine List.mem_append.2 (Or.inl ?_)
  refine List.mem_append.2 (Or.inl ?_)
  refine List.mem_append.2 (Or.inl ?_)
  refine List.mem_append.2 (Or.inr ?_)
  refine List.mem_map.2 ⟨(pth, a), ?_, rfl⟩
  exact List.mem_filter.2 ⟨hmem, ha⟩

/-- A link chunk with target _blank and incomplete rel tokens produces a
BLANK_TARGET_NO_REL issue of low severity in the audit. -/
theorem blank_issue_mem_audit (chunks : List Chunk) (c : Chunk)
    (hc : c ∈ chunks) (hrole : c.role = "link")
    (htarget : getA c.attrs "target" = some (.s "_blank"))
    (hcond : ¬ (((relTokens (getA c.attrs "rel")).map pyLower).contains "noopener" = true
      ∧ ((relTokens (getA c.attrs "rel")).map pyLower).contains "noreferrer" = true)) :
    ({ kind := "BLANK_TARGET_NO_REL", sev := "LOW", details := [], chunk := c } : Issue)
      ∈ audit chunks := by
  unfold audit
  refine List.mem_append.2 (Or.inl ?_)
  refine List.mem_append.2 (Or.inl ?_)
  refine List.mem_append.2 (Or.inl ?_)
  refine List.mem_append.2 (Or.inl ?_)
  refine List.mem_append.2 (Or.inl ?_)
  refine List.mem_append.2 (Or.inr ?_)
  refine List.mem_flatMap.2 ⟨c, List.mem_filter.2 ⟨hc, by simp [hrole]⟩, ?_⟩
  unfold blankTargetRule
  rw [if_pos htarget]
  have : (¬ ((relTokens (getA c.attrs "rel")).map pyLower).contains "noopener" = true
      ∨ ¬ ((relTokens (getA c.attrs "rel")).map pyLower).contains "noreferrer" = true) := by
    tauto
  rw [if_pos (by simpa using this)]
  exact List.mem_singleton.2 rfl

end A11y

namespace A11y

/-- C6 (amended): for a link with target="_blank" whose lower-cased rel
tokens do not include both noopener and noreferrer, the audit emits
BLANK_TARGET_NO_REL with severity LOW for its chunk; and provided the link
is the first anchor in document order matching its flagged href with
target="_blank", remediating that issue rewrites exactly that link's rel to
the space-joined token set that is the union of its lower-cased previous
tokens with noopener and noreferrer (order-insensitive). -/
theorem blank_target_audit_and_fix (cfg : Cfg) (t : Node) (pth : String) (a : Node)
    (hmem : (pth, a) ∈ elemsWithPath t) (ha : isTag "a" a = true)
    (htarget : getA a.attrs "target" = some (.s "_blank"))
    (hrelcond : ¬ (((relTokens (getA a.attrs "rel")).map pyLower).contains "noopener" = true
      ∧ ((relTokens (getA a.attrs "rel")).map pyLower).contains "noreferrer" = true))
    (hnodup : t.kids.nids.Nodup) (hnest : t.kids.nestedFree (isTag "a") = true)
    (hlook : t.lookupNid a.nid = some a)
    (hfirst : (t.kids.findAll (blankPred
      { kind := "BLANK_TARGET_NO_REL", sev := "LOW", details := [],
        chunk := linkChunk (pth, a) })).head? = some a) :
    ({ kind := "BLANK_TARGET_NO_REL", sev := "LOW", details := [],
       chunk := linkChunk (pth, a) } : Issue) ∈ audit (extract_chunks t)
    ∧ (apply_fixes cfg t
        [{ kind := "BLANK_TARGET_NO_REL", sev := "LOW", details := [],
           chunk := linkChunk (pth, a) }] "").lookupNid a.nid
        = some (.elem a.nid a.tag (setA a.attrs "rel" (.s (blankRelVal a))) a.kids)
    ∧ (∀ x, x ∈ pySorted ((((relTokens (getA a.attrs "rel")).map pyLower)
          ++ ["noopener", "noreferrer"]).dedup)
        ↔ (x ∈ (relTokens (getA a.attrs "rel")).map pyLower
            ∨ x = "noopener" ∨ x = "noreferrer")) := by
  have hchunkTarget : getA (linkChunk (pth, a)).attrs "target" = some (.s "_blank") := by
    have hchain : pyStrip (chainStr a ["target"]) = "_blank" := by
      simp only [chainStr, List.map, firstTruthy, htarget]
      simp [Val.truthy, Val.str]
      decide
    simp [linkChunk, getA, hchain]
  have hchunkRel : getA (linkChunk (pth, a)).attrs "rel" = some (relCapture a) := by
    simp [linkChunk, getA]
  refine ⟨?_, ?_, ?_⟩
  · refine blank_issue_mem_audit (extract_chunks t) (linkChunk (pth, a))
      (linkChunk_mem_extract t pth a hmem ha) rfl hchunkTarget ?_
    rw [hchunkRel, relTokens_relCapture a]
    exact hrelcond
  · have hstep : apply_fixes cfg t
        [{ kind := "BLANK_TARGET_NO_REL", sev := "LOW", details := [],
           chunk := linkChunk (pth, a) }] ""
        = fixBlank t
          { kind := "BLANK_TARGET_NO_REL", sev := "LOW", details := [],
            chunk := linkChunk (pth, a) } := by
      simp [apply_fixes, fixStep]
      intro hr
      exact absurd rfl hr
    rw [hstep]
    unfold fixBlank
    have hlk : (updFirst (blankPred
        { kind := "BLANK_TARGET_NO_REL", sev := "LOW", details := [],
          chunk := linkChunk (pth, a) }) blankEdit t).lookupNid a.nid
        = (t.kids.updFirst (blankPred
          { kind := "BLANK_TARGET_NO_REL", sev := "LOW", details := [],
            chunk := linkChunk (pth, a) }) blankEdit).1.lookupNid a.nid := by
      cases t <;> simp [updFirst, Node.lookupNid, Node.kids, NodeList.updFirst]
    rw [hlk]
    have hp : ∀ m, blankPred
        { kind := "BLANK_TARGET_NO_REL", sev := "LOW", details := [],
          chunk := linkChunk (pth, a) } m = true → isTag "a" m = true := by
      intro m hm
      simp only [blankPred, Bool.and_eq_true] at hm
      exact hm.1.1
    have hf : ∀ (x : Node) (r : NodeList), (blankEdit x).repl = some r
        → r.findAll (fun _ => true) = [] := by
      intro x r hrepl
      simp [blankEdit] at hrepl
    rw [updFirst_lookup_tagged _ blankEdit "a" hp hf t.kids hnodup hnest a.nid a hlook ha]
    rw [if_pos hfirst]
    cases a with
    | txt x y => simp [isTag] at ha
    | elem j tg a0 cs0 =>
      simp [applyEdit, blankEdit, Node.tag, Node.attrs, Node.nid, Node.kids]
  · intro x
    rw [mem_pySorted, List.mem_dedup, List.mem_append]
    simp

def blankDocC : Node :=
  .elem 1 "[document]" [] (.cons (.elem 2 "body" [] (.cons
    (.elem 3 "a" [("href", .s "u"), ("target", .s "_blank"), ("rel", .l ["noopener"])]
      (.cons (.txt 4 "x") .nil))
    (.cons
      (.elem 5 "a" [("href", .s "u"), ("target", .s "_blank"), ("rel", .l ["noopener"])]
        (.cons (.txt 6 "y") .nil)) .nil))) .nil)

set_option maxRecDepth 40000 in
/-- Counterexample to C6 as stated: with two identical target-blank links
sharing one href, both link chunks are flagged, but after remediation of
the audited issues the second link's rel token set is still only noopener:
both fixes re-found the first matching anchor and the second was never
updated. -/
theorem blank_target_counterexample :
    ((audit (extract_chunks blankDocC)).filter
      (fun i => i.kind = "BLANK_TARGET_NO_REL")).length = 2
    ∧ (apply_fixes cfg0 blankDocC (audit (extract_chunks blankDocC)) "").lookupNid 5
        = some (.elem 5 "a"
            [("href", .s "u"), ("target", .s "_blank"), ("rel", .l ["noopener"])]
            (.cons (.txt 6 "y") .nil)) := by
  decide

def blankDocW : Node :=
  .elem 1 "[document]" [] (.cons (.elem 2 "body" [] (.cons
    (.elem 3 "a" [("href", .s "u"), ("target", .s "_blank"), ("rel", .l ["noopener"])]
      (.cons (.txt 4 "x") .nil)) .nil)) .nil)

/-- Witness for the amended C6 at the spec's example: a single link with
rel="noopener" is flagged and ends with rel="noopener noreferrer". -/
theorem blank_target_audit_and_fix_witness :
    ({ kind := "BLANK_TARGET_NO_REL", sev := "LOW", details := [],
       chunk := linkChunk ("[document]>body>a",
         .elem 3 "a" [("href", .s "u"), ("target", .s "_blank"), ("rel", .l ["noopener"])]
           (.cons (.txt 4 "x") .nil)) } : Issue) ∈ audit (extract_chunks blankDocW)
    ∧ (apply_fixes cfg0 blankDocW
        [{ kind := "BLANK_TARGET_NO_REL", sev := "LOW", details := [],
           chunk := linkChunk ("[document]>body>a",
             .elem 3 "a" [("href", .s "u"), ("target", .s "_blank"), ("rel", .l ["noopener"])]
               (.cons (.txt 4 "x") .nil)) }] "").lookupNid 3
        = some (.elem 3 "a"
            [("href", .s "u"), ("target", .s "_blank"),
             ("rel", .s "noopener noreferrer")]
            (.cons (.txt 4 "x") .nil)) := by
  have h := blank_target_audit_and_fix cfg0 blankDocW "[document]>body>a"
    (.elem 3 "a" [("href", .s "u"), ("target", .s "_blank"), ("rel", .l ["noopener"])]
      (.cons (.txt 4 "x") .nil))
    (by decide) (by decide) (by decide) (by decide) (by decide) (by decide)
    (by decide) (by decide)
  refine ⟨h.1, ?_⟩
  have h2 := h.2.1
  simp only [Node.nid] at h2
  rw [h2]
  decide

end A11y

namespace A11y

theorem mem_altCandidates_empty (pr : Node × Node) :
    ∀ l : List (Node × Node), pr ∈ l → pyStrip (chainStr pr.2 ["alt"]) = ""
      → pr ∈ altCandidates "" l
  | [], h, _ => absurd h (List.not_mem_nil pr)
  | (p, img) :: rest, h, halt => by
    rw [show altCandidates "" ((p, img) :: rest)
        = (if pyStrip (chainStr img ["alt"]) = "" then [(p, img)] else [])
          ++ altCandidates "" rest from by simp [altCandidates]]
    rcases List.mem_cons.1 h with h1 | h2
    · subst h1
      rw [if_pos halt]
      exact List.mem_append_left _ (List.mem_singleton.2 rfl)
    · exact List.mem_append_right _ (mem_altCandidates_empty pr rest h2 halt)

theorem lookup_mapped_image (g : Node × Node → String)
    (hg : ∀ pn, g pn = "Image") (k : Nat) :
    ∀ cands : List (Node × Node), (∃ pn ∈ cands, pn.2.nid = k) →
      (cands.map (fun pn => (pn.2.nid, g pn))).lookup k = some "Image"
  | [], hex => by
    rcases hex with ⟨q, hq, _⟩
    exact absurd hq (List.not_mem_nil q)
  | pn0 :: tl, hex => by
    by_cases hk : k = pn0.2.nid
    · simp only [List.map, List.lookup]
      have hb : (k == pn0.2.nid) = true := by simpa using hk
      rw [hb, hg pn0]
    · simp only [List.map, List.lookup]
      have hb : (k == pn0.2.nid) = false := by simpa using hk
      rw [hb]
      apply lookup_mapped_image g hg k tl
      rcases hex with ⟨q, hq, hqk⟩
      rcases List.mem_cons.1 hq with h1 | h2
      · exact absurd (h1 ▸ hqk).symm hk
      · exact ⟨q, h2, hqk⟩

/-- C5: for an img with no live alt text, when the issue carries an empty
target source and the text-generation collaborator is disabled, remediation
of MISSING_ALT sets that img's alt to the literal Image; moreover a
disabled collaborator and a failing collaborator both yield the Image
fallback, never an error. -/
theorem missing_alt_fallback (cfg : Cfg) (t : Node) (iss : Issue) (par a : Node)
    (hgen : cfg.gen = none)
    (hk : iss.kind = "MISSING_ALT") (hr : iss.chunk.role = "img")
    (htarget : pyStrip (getS iss.chunk.attrs "src") = "")
    (hmem : (par, a) ∈ elemsWithParent t)
    (ha : isTag "img" a = true)
    (halt : pyStrip (chainStr a ["alt"]) = "")
    (hnest : t.kids.nestedFree (isTag "img") = true)
    (hlook : t.lookupNid a.nid = some a) :
    (apply_fixes cfg t [iss] "").lookupNid a.nid
      = some (.elem a.nid a.tag (setA a.attrs "alt" (.s "Image")) a.kids)
    ∧ (∀ ctx, generate_alt none ctx = "Image")
    ∧ (∀ f ctx, (∀ s, f s = none) → generate_alt (some f) ctx = "Image") := by
  refine ⟨?_, fun ctx => rfl, fun f ctx hf => by simp [generate_alt, hf]⟩
  have hstep : apply_fixes cfg t [iss] "" = fixMissingAlt cfg t iss := by
    simp [apply_fixes, fixStep, hk, hr]
  rw [hstep]
  simp only [fixMissingAlt]
  rw [htarget, hgen]
  have hcand : (par, a) ∈ altCandidates ""
      ((elemsWithParent t).filter (fun pn => isTag "img" pn.2)) :=
    mem_altCandidates_empty (par, a) _ (List.mem_filter.2 ⟨hmem, ha⟩) halt
  have hlv : ((altCandidates ""
        ((elemsWithParent t).filter (fun pn => isTag "img" pn.2))).map
      (fun pn => (pn.2.nid,
        if generate_alt none (getTextSep " " pn.1) = "" then "Image"
        else generate_alt none (getTextSep " " pn.1)))).lookup a.nid
      = some "Image" :=
    lookup_mapped_image _ (fun pn => rfl) a.nid _ ⟨(par, a), hcand, rfl⟩
  have hlk : ∀ (p : Node → Bool) (f : Node → Edit),
      (updAll p f t).lookupNid a.nid = (t.kids.updAll p f).lookupNid a.nid := by
    intro p f
    cases t <;> simp [updAll, Node.lookupNid, Node.kids, NodeList.updAll]
  rw [hlk]
  have hp : ∀ m, (isTag "img" m && (((altCandidates ""
        ((elemsWithParent t).filter (fun pn => isTag "img" pn.2))).map
      (fun pn => (pn.2.nid,
        if generate_alt none (getTextSep " " pn.1) = "" then "Image"
        else generate_alt none (getTextSep " " pn.1)))).lookup m.nid).isSome)
      = true → isTag "img" m = true := by
    intro m hm
    simp only [Bool.and_eq_true] at hm
    exact hm.1
  have hf : ∀ (x : Node) (r : NodeList),
      (({ tag := x.tag,
          attrs := setA x.attrs "alt" (.s ((((altCandidates ""
            ((elemsWithParent t).filter (fun pn => isTag "img" pn.2))).map
          (fun pn => (pn.2.nid,
            if generate_alt none (getTextSep " " pn.1) = "" then "Image"
            else generate_alt none (getTextSep " " pn.1)))).lookup x.nid).getD "")),
          repl := none } : Edit)).repl = some r
      → r.findAll (fun _ => true) = [] := by
    intro x r hrepl
    simp at hrepl
  rw [updAll_lookup_tagged _ _ "img" hp hf t.kids hnest a.nid a hlook ha]
  have hpa : (isTag "img" a && (((altCandidates ""
        ((elemsWithParent t).filter (fun pn => isTag "img" pn.2))).map
      (fun pn => (pn.2.nid,
        if generate_alt none (getTextSep " " pn.1) = "" then "Image"
        else generate_alt none (getTextSep " " pn.1)))).lookup a.nid).isSome)
      = true := by
    rw [ha, hlv]
    rfl
  rw [if_pos hpa]
  cases a with
  | txt x y => simp [isTag] at ha
  | elem j tg a0 cs0 =>
    simp only [Node.nid] at hlv
    simp [applyEdit, Node.tag, Node.attrs, Node.nid, Node.kids, hlv]

def altDocW : Node :=
  .elem 1 "[document]" [] (.cons (.elem 2 "body" []
    (.cons (.elem 3 "img" [] .nil) .nil)) .nil)

def altIssW : Issue :=
  { kind := "MISSING_ALT", sev := "MEDIUM", details := [],
    chunk := { role := "img", path := "", text := "", attrs := [] } }

/-- Witness for C5 at a concrete document whose only img lacks both alt and
any source attribute. -/
theorem missing_alt_fallback_witness :
    (apply_fixes cfg0 altDocW [altIssW] "").lookupNid 3
      = some (.elem 3 "img" [("alt", .s "Image")] .nil)
    ∧ generate_alt none "" = "Image" := by
  have h := missing_alt_fallback cfg0 altDocW altIssW
    (.elem 2 "body" [] (.cons (.elem 3 "img" [] .nil) .nil))
    (.elem 3 "img" [] .nil)
    rfl rfl rfl (by decide) (by decide) (by decide) (by decide) (by decide) (by decide)
  refine ⟨?_, h.2.1 ""⟩
  have h1 := h.1
  simp only [Node.nid] at h1
  rw [h1]
  decide

end A11y

namespace A11y

theorem filter_flatMap_nil {α β : Type} (q : β → Bool) (r : α → List β) :
    ∀ l : List α, (∀ c ∈ l, (r c).filter q = []) → (l.flatMap r).filter q = []
  | [], _ => rfl
  | c :: tl, h => by
    rw [List.flatMap_cons, List.filter_append, h c (List.mem_cons_self c tl),
      filter_flatMap_nil q r tl (fun x hx => h x (List.mem_cons_of_mem c hx)),
      List.append_nil]

theorem imgRule_no_landmark (c : Chunk) :
    (imgRule c).filter (fun i => i.kind = "MISSING_LANDMARKS") = [] := by
  unfold imgRule
  repeat' split
  all_goals simp

theorem headingScan_no_landmark :
    ∀ (l : List Chunk) (last : Nat),
      (headingScanAux last l).filter (fun i => i.kind = "MISSING_LANDMARKS") = []
  | [], _ => rfl
  | c :: rest, last => by
    simp only [headingScanAux, List.filter_append]
    rw [headingScan_no_landmark rest _, List.append_nil]
    split <;> simp

theorem poorLinkRule_no_landmark (c : Chunk) :
    (poorLinkRule c).filter (fun i => i.kind = "MISSING_LANDMARKS") = [] := by
  unfold poorLinkRule
  repeat' split
  all_goals simp

theorem linkNoNameRule_no_landmark (c : Chunk) :
    (linkNoNameRule c).filter (fun i => i.kind = "MISSING_LANDMARKS") = [] := by
  unfold linkNoNameRule
  repeat' split
  all_goals simp

theorem blankTargetRule_no_landmark (c : Chunk) :
    (blankTargetRule c).filter (fun i => i.kind = "MISSING_LANDMARKS") = [] := by
  unfold blankTargetRule
  repeat' split
  all_goals simp

theorem controlRule_no_landmark (c : Chunk) :
    (controlRule c).filter (fun i => i.kind = "MISSING_LANDMARKS") = [] := by
  unfold controlRule
  repeat' split
  all_goals simp

theorem iframeRule_no_landmark (c : Chunk) :
    (iframeRule c).filter (fun i => i.kind = "MISSING_LANDMARKS") = [] := by
  unfold iframeRule
  repeat' split
  all_goals simp

theorem svgRule_no_landmark (c : Chunk) :
    (svgRule c).filter (fun i => i.kind = "MISSING_LANDMARKS") = [] := by
  unfold svgRule
  repeat' split
  all_goals simp

theorem aActsRule_no_landmark (c : Chunk) :
    (aActsRule c).filter (fun i => i.kind = "MISSING_LANDMARKS") = [] := by
  unfold aActsRule
  repeat' split
  all_goals simp

theorem docChunk_main_false (t : Node) (h : t.findAll (isTag "main") = []) :
    attrTruthy (docChunk t).attrs "has_main" = false := by
  simp [docChunk, attrTruthy, getA, Node.findFirst, h, Val.truthy]

theorem docChunk_nav_false (t : Node) (h : t.findAll (isTag "nav") = []) :
    attrTruthy (docChunk t).attrs "has_nav" = false := by
  simp [docChunk, attrTruthy, getA, Node.findFirst, h, Val.truthy]

end A11y

namespace A11y

theorem extract_docFilter (t : Node) :
    (extract_chunks t).filter (fun c => c.role = "document") = [docChunk t] := by
  unfold extract_chunks
  simp only [List.filter_append]
  rw [filter_flatMap_nil (fun c => decide (c.role = "document"))
    (fun lvl => ((elemsWithPath t).filter
      (fun pn => isTag ("h" ++ toString lvl) pn.2)).map (headingChunk lvl))
    (List.range' 1 6)
    (fun lvl _ => by simp [List.filter_map, Function.comp, headingChunk])]
  simp [List.filter_map, Function.comp, imgChunk, linkChunk, controlChunk,
    iframeChunk, svgChunk, sectionChunk, docChunk]

theorem docRules_filter (t : Node) (hm : Node.findAll (isTag "main") t = [])
    (hn : Node.findAll (isTag "nav") t = []) :
    (documentRules (docChunk t)).filter (fun i => i.kind = "MISSING_LANDMARKS")
      = [{ kind := "MISSING_LANDMARKS", sev := "LOW",
           details := [("missing", Val.s "main")], chunk := docChunk t },
         { kind := "MISSING_LANDMARKS", sev := "LOW",
           details := [("missing", Val.s "nav")], chunk := docChunk t }] := by
  unfold documentRules
  rw [docChunk_main_false t hm, docChunk_nav_false t hn]
  simp only [List.filter_append]
  repeat' split
  all_goals simp_all

theorem audit_landmarks_filter (t : Node) (hm : Node.findAll (isTag "main") t = [])
    (hn : Node.findAll (isTag "nav") t = []) :
    (audit (extract_chunks t)).filter (fun i => i.kind = "MISSING_LANDMARKS")
      = [{ kind := "MISSING_LANDMARKS", sev := "LOW",
           details := [("missing", Val.s "main")], chunk := docChunk t },
         { kind := "MISSING_LANDMARKS", sev := "LOW",
           details := [("missing", Val.s "nav")], chunk := docChunk t }] := by
  unfold audit
  simp only [List.filter_append]
  rw [filter_flatMap_nil _ imgRule _ (fun c _ => imgRule_no_landmark c),
    headingScan_no_landmark _ 0,
    filter_flatMap_nil _ poorLinkRule _ (fun c _ => poorLinkRule_no_landmark c),
    filter_flatMap_nil _ linkNoNameRule _ (fun c _ => linkNoNameRule_no_landmark c),
    filter_flatMap_nil _ blankTargetRule _ (fun c _ => blankTargetRule_no_landmark c),
    filter_flatMap_nil _ controlRule _ (fun c _ => controlRule_no_landmark c),
    filter_flatMap_nil _ iframeRule _ (fun c _ => iframeRule_no_landmark c),
    filter_flatMap_nil _ svgRule _ (fun c _ => svgRule_no_landmark c),
    filter_flatMap_nil _ aActsRule _ (fun c _ => aActsRule_no_landmark c),
    extract_docFilter t]
  simp only [List.flatMap_cons, List.flatMap_nil, List.append_nil, List.nil_append]
  exact docRules_filter t hm hn

end A11y

namespace A11y

theorem findAll_nlappend (p : Node → Bool) :
    ∀ xs ys : NodeList, (xs.append ys).findAll p = xs.findAll p ++ ys.findAll p
  | .nil, ys => by simp [NodeList.append, NodeList.findAll]
  | .cons (.txt i s) tl, ys => by
    simp only [NodeList.append, NodeList.findAll]
    exact findAll_nlappend p tl ys
  | .cons (.elem i t a cs) tl, ys => by
    simp only [NodeList.append, NodeList.findAll, findAll_nlappend p tl ys,
      List.append_assoc]

theorem spliceFirst_found (q : Node → Bool) (g : Node → List Node) :
    ∀ l : NodeList, (l.spliceFirst q g).2 = !(l.findAll q).isEmpty
  | .nil => rfl
  | .cons (.txt a b) tl => by
    simp only [NodeList.spliceFirst, NodeList.findAll]
    exact spliceFirst_found q g tl
  | .cons (.elem j t a cs) tl => by
    simp only [NodeList.spliceFirst, NodeList.findAll]
    by_cases hq : q (.elem j t a cs)
    · simp [hq]
    · simp only [hq, if_false, Bool.false_eq_true]
      have hc := spliceFirst_found q g cs
      have ht := spliceFirst_found q g tl
      by_cases hcs : (cs.findAll q).isEmpty
      · have hb : (cs.spliceFirst q g).2 = false := by rw [hc, hcs]; rfl
        simp only [hb, if_false, Bool.false_eq_true]
        rw [ht]
        have hcs2 : cs.findAll q = [] := by simpa [List.isEmpty_iff] using hcs
        simp [hcs2]
      · have hcs3 : (cs.findAll q).isEmpty = false := by simpa using hcs
        have hb : (cs.spliceFirst q g).2 = true := by rw [hc, hcs3]; rfl
        simp only [hb, if_true]
        have hcs2 : cs.findAll q ≠ [] := by simpa [List.isEmpty_iff] using hcs
        cases hx : cs.findAll q with
        | nil => exact absurd hx hcs2
        | cons y ys => simp [hx]

theorem spliceFirst_cons_txt (q : Node → Bool) (g : Node → List Node)
    (i : Nat) (s : String) (tl : NodeList) :
    (NodeList.cons (.txt i s) tl).spliceFirst q g
      = (.cons (.txt i s) (tl.spliceFirst q g).1, (tl.spliceFirst q g).2) := by
  simp [NodeList.spliceFirst]

theorem spliceFirst_cons_match (q : Node → Bool) (g : Node → List Node)
    (j : Nat) (s : String) (a : Attrs) (cs tl : NodeList)
    (hq : q (.elem j s a cs) = true) :
    (NodeList.cons (.elem j s a cs) tl).spliceFirst q g
      = ((NodeList.ofList (g (.elem j s a cs))).append tl, true) := by
  simp [NodeList.spliceFirst, hq]

theorem spliceFirst_cons_cs (q : Node → Bool) (g : Node → List Node)
    (j : Nat) (s : String) (a : Attrs) (cs tl : NodeList)
    (hq : q (.elem j s a cs) = false) (hfd : (cs.spliceFirst q g).2 = true) :
    (NodeList.cons (.elem j s a cs) tl).spliceFirst q g
      = (.cons (.elem j s a (cs.spliceFirst q g).1) tl, true) := by
  simp [NodeList.spliceFirst, hq, hfd]

theorem spliceFirst_cons_tl (q : Node → Bool) (g : Node → List Node)
    (j : Nat) (s : String) (a : Attrs) (cs tl : NodeList)
    (hq : q (.elem j s a cs) = false) (hfd : (cs.spliceFirst q g).2 = false) :
    (NodeList.cons (.elem j s a cs) tl).spliceFirst q g
      = (.cons (.elem j s a cs) (tl.spliceFirst q g).1, (tl.spliceFirst q g).2) := by
  simp [NodeList.spliceFirst, hq, hfd]

theorem len_spliceFirst (q : Node → Bool) (g : Node → List Node) (tg : String) (d : Nat)
    (hg : ∀ n, q n = true →
      ((NodeList.ofList (g n)).findAll (isTag tg)).length
        = (if isTag tg n then 1 else 0) + (n.kids.findAll (isTag tg)).length + d) :
    ∀ l : NodeList,
      ((l.spliceFirst q g).1.findAll (isTag tg)).length
        = (l.findAll (isTag tg)).length + (if (l.spliceFirst q g).2 then d else 0)
  | .nil => by simp [NodeList.spliceFirst, NodeList.findAll]
  | .cons (.txt i s) tl => by
    rw [spliceFirst_cons_txt q g i s tl]
    dsimp only
    simp only [NodeList.findAll]
    exact len_spliceFirst q g tg d hg tl
  | .cons (.elem j s a cs) tl => by
    by_cases hq : q (.elem j s a cs) = true
    · rw [spliceFirst_cons_match q g j s a cs tl hq]
      dsimp only
      rw [findAll_nlappend, findAll_cons_elem, if_pos rfl]
      have hgx := hg (.elem j s a cs) hq
      simp only [Node.kids] at hgx
      simp only [List.length_append, hgx]
      by_cases hi : isTag tg (.elem j s a cs) = true <;> simp [hi] <;> omega
    · have hqf : q (.elem j s a cs) = false := by simpa using hq
      have hc := len_spliceFirst q g tg d hg cs
      have ht := len_spliceFirst q g tg d hg tl
      cases hr : (cs.spliceFirst q g).2 with
      | true =>
        rw [spliceFirst_cons_cs q g j s a cs tl hqf hr]
        dsimp only
        rw [hr, if_pos rfl] at hc
        rw [if_pos rfl]
        simp only [findAll_cons_elem, List.length_append, hc, isTag]
        by_cases hi : s = tg <;> simp [hi] <;> omega
      | false =>
        rw [spliceFirst_cons_tl q g j s a cs tl hqf hr]
        dsimp only
        rw [hr] at hc
        simp only [Bool.false_eq_true, if_false, Nat.add_zero] at hc
        simp only [findAll_cons_elem, List.length_append, ht]
        by_cases hi : isTag tg (.elem j s a cs) = true <;> simp [hi] <;> omega

end A11y

namespace A11y

theorem len_updFirst_repl (q : Node → Bool) (f : Node → Edit) (tg : String) (D : Node → Nat)
    (htag : ∀ n, (f n).tag = n.tag)
    (hD : ∀ m, q m = true →
      (((f m).repl.getD m.kids).findAll (isTag tg)).length
        = (m.kids.findAll (isTag tg)).length + D m) :
    ∀ l : NodeList,
      ((l.updFirst q f).1.findAll (isTag tg)).length
        = (l.findAll (isTag tg)).length
          + (match (l.findAll q).head? with
             | some m => D m
             | none => 0)
  | .nil => by simp [NodeList.updFirst, NodeList.findAll]
  | .cons (.txt i s) tl => by
    simp only [NodeList.updFirst, NodeList.findAll]
    exact len_updFirst_repl q f tg D htag hD tl
  | .cons (.elem j s a cs) tl => by
    by_cases hq : q (.elem j s a cs) = true
    · rw [updFirst_cons_match q f j s a cs tl hq]
      dsimp only
      have hhead : ((NodeList.cons (.elem j s a cs) tl).findAll q).head?
          = some (.elem j s a cs) := by
        rw [findAll_cons_elem, if_pos hq]
        simp
      rw [hhead]
      dsimp only
      have happ : applyEdit f (.elem j s a cs)
          = .elem j (f (.elem j s a cs)).tag (f (.elem j s a cs)).attrs
              ((f (.elem j s a cs)).repl.getD cs) := by
        simp [applyEdit, Node.tag, Node.attrs]
      rw [happ, findAll_cons_elem, findAll_cons_elem]
      have hDx := hD (.elem j s a cs) hq
      simp only [Node.kids] at hDx
      have htg := htag (.elem j s a cs)
      simp only [Node.tag] at htg
      simp only [List.length_append, hDx, htg, isTag]
      by_cases hi : s = tg <;> simp [hi] <;> omega
    · have hqf : q (.elem j s a cs) = false := by simpa using hq
      have hc := len_updFirst_repl q f tg D htag hD cs
      have ht := len_updFirst_repl q f tg D htag hD tl
      cases hr : (cs.updFirst q f).2 with
      | true =>
        rw [updFirst_cons_cs q f j s a cs tl hqf hr]
        dsimp only
        have hne : cs.findAll q ≠ [] := by
          have hfo := updFirst_found q f cs
          rw [hr] at hfo
          intro hnil
          rw [hnil] at hfo
          simp at hfo
        cases hx : cs.findAll q with
        | nil => exact absurd hx hne
        | cons m ms =>
          rw [hx] at hc
          simp only [List.head?] at hc
          have hhead : ((NodeList.cons (.elem j s a cs) tl).findAll q).head? = some m := by
            rw [findAll_cons_elem, if_neg (by simp [hqf]), hx]
            simp
          rw [hhead]
          dsimp only
          rw [findAll_cons_elem, findAll_cons_elem]
          simp only [List.length_append, hc, isTag]
          by_cases hi : s = tg <;> simp [hi] <;> omega
      | false =>
        rw [updFirst_cons_tl q f j s a cs tl hqf hr]
        dsimp only
        have hnil : cs.findAll q = [] := by
          have hfo := updFirst_found q f cs
          rw [hr] at hfo
          cases hxx : cs.findAll q with
          | nil => rfl
          | cons y ys => rw [hxx] at hfo; simp at hfo
        have hhead : (NodeList.cons (.elem j s a cs) tl).findAll q = tl.findAll q := by
          rw [findAll_cons_elem, if_neg (by simp [hqf]), hnil]
          simp
        rw [hhead, findAll_cons_elem, findAll_cons_elem]
        simp only [List.length_append, ht]
        omega

end A11y

namespace A11y

theorem insertRootFront_findAll (p : Node → Bool) (x t : Node)
    (hx : (NodeList.cons x NodeList.nil).findAll p = []) :
    (insertRootFront x t).findAll p = t.findAll p := by
  cases t with
  | txt i s => rfl
  | elem i s a cs =>
    cases x with
    | txt j u => simp [insertRootFront, Node.findAll, Node.kids, NodeList.findAll]
    | elem j u b ds =>
      simp only [NodeList.findAll, List.append_nil] at hx
      rcases List.append_eq_nil.1 hx with ⟨hx1, hx2⟩
      simp [insertRootFront, Node.findAll, Node.kids, NodeList.findAll, hx1, hx2]

theorem appendRoot_findAll (p : Node → Bool) (x t : Node)
    (hx : (NodeList.cons x NodeList.nil).findAll p = []) :
    (appendRoot x t).findAll p = t.findAll p := by
  cases t with
  | txt i s => rfl
  | elem i s a cs =>
    simp only [appendRoot, Node.findAll, Node.kids, findAll_nlappend, hx, List.append_nil]

theorem insertRootFront_isElem (x t : Node) (hE : t.isElem = true) :
    (insertRootFront x t).isElem = true := by
  cases t with
  | txt i s => simp [Node.isElem] at hE
  | elem i s a cs => rfl

theorem ensureHeadHtml_findAll (tg : String) (h1 : tg ≠ "head") (h2 : tg ≠ "html") (t : Node) :
    (ensureHeadHtml t).findAll (isTag tg) = t.findAll (isTag tg) := by
  unfold ensureHeadHtml
  have hh : (NodeList.cons (Node.elem 0 "head" [] .nil) NodeList.nil).findAll (isTag tg)
      = [] := by
    simp [NodeList.findAll, isTag, Ne.symm h1]
  have hm : (NodeList.cons (Node.elem 0 "html" [] .nil) NodeList.nil).findAll (isTag tg)
      = [] := by
    simp [NodeList.findAll, isTag, Ne.symm h2]
  split
  · dsimp only
    split
    · rfl
    · exact insertRootFront_findAll _ _ _ hm
  · dsimp only
    split
    · exact insertRootFront_findAll _ _ _ hh
    · rw [insertRootFront_findAll _ _ _ hm, insertRootFront_findAll _ _ _ hh]

theorem ensureHeadHtml_isElem (t : Node) (hE : t.isElem = true) :
    (ensureHeadHtml t).isElem = true := by
  unfold ensureHeadHtml
  split
  · dsimp only
    split
    · exact hE
    · exact insertRootFront_isElem _ _ hE
  · dsimp only
    split
    · exact insertRootFront_isElem _ _ hE
    · exact insertRootFront_isElem _ _ (insertRootFront_isElem _ _ hE)

theorem ensureBody_findAll (tg : String) (h : tg ≠ "body") (t : Node) :
    (ensureBody t).findAll (isTag tg) = t.findAll (isTag tg) := by
  unfold ensureBody
  split
  · rfl
  · exact appendRoot_findAll _ _ _ (by simp [NodeList.findAll, isTag, Ne.symm h])

theorem ensureBody_hasBody (t : Node) (hE : t.isElem = true) :
    (ensureBody t).findAll (isTag "body") ≠ [] := by
  unfold ensureBody
  split
  · intro hnil
    rename_i hs
    rw [Node.findFirst, hnil] at hs
    simp at hs
  · cases t with
    | txt i s => simp [Node.isElem] at hE
    | elem i s a cs =>
      simp only [appendRoot, Node.findAll, Node.kids, findAll_nlappend]
      intro hnil
      rcases List.append_eq_nil.1 hnil with ⟨hx1, hx2⟩
      simp [NodeList.findAll, isTag] at hx2

theorem ensureBody_isElem (t : Node) (hE : t.isElem = true) :
    (ensureBody t).isElem = true := by
  unfold ensureBody
  split
  · exact hE
  · cases t with
    | txt i s => simp [Node.isElem] at hE
    | elem i s a cs => rfl

end A11y

namespace A11y

theorem node_findAll_eq (p : Node → Bool) (s : Node) : s.findAll p = s.kids.findAll p := rfl

theorem node_updFirst_findAll (q : Node → Bool) (f : Node → Edit) (p : Node → Bool) (s : Node) :
    (updFirst q f s).findAll p = ((s.kids).updFirst q f).1.findAll p := by
  cases s <;> simp [updFirst, Node.findAll, Node.kids, NodeList.updFirst]

theorem head_of_ne_nil {α : Type} (l : List α) (h : l ≠ []) : ∃ m, l.head? = some m := by
  cases l with
  | nil => exact absurd rfl h
  | cons x xs => exact ⟨x, rfl⟩

theorem fixDocLandmark_main (t : Node) (iss : Issue)
    (hk : iss.kind = "MISSING_LANDMARKS")
    (hd : getA iss.details "missing" = some (Val.s "main"))
    (hE : t.isElem = true)
    (hm : t.findAll (isTag "main") = [])
    (hn : t.findAll (isTag "nav") = []) :
    ((fixDocIssue t iss).findAll (isTag "main")).length = 1
    ∧ ((fixDocIssue t iss).findAll (isTag "nav")).length = 0
    ∧ (fixDocIssue t iss).findAll (isTag "body") ≠ []
    ∧ (fixDocIssue t iss).isElem = true := by
  have hsE := ensureHeadHtml_isElem t hE
  have h2E := ensureBody_isElem _ hsE
  have h2m : (ensureBody (ensureHeadHtml t)).findAll (isTag "main") = [] := by
    rw [ensureBody_findAll "main" (by decide) _,
      ensureHeadHtml_findAll "main" (by decide) (by decide) t, hm]
  have h2n : (ensureBody (ensureHeadHtml t)).findAll (isTag "nav") = [] := by
    rw [ensureBody_findAll "nav" (by decide) _,
      ensureHeadHtml_findAll "nav" (by decide) (by decide) t, hn]
  have h2b : (ensureBody (ensureHeadHtml t)).findAll (isTag "body") ≠ [] :=
    ensureBody_hasBody _ hsE
  have hnone : ((ensureBody (ensureHeadHtml t)).findFirst (isTag "main")).isNone = true := by
    simp [Node.findFirst, h2m]
  cases hb : (ensureBody (ensureHeadHtml t)).findFirst (isTag "body") with
  | none =>
    exfalso
    rw [Node.findFirst, List.head?_eq_none_iff] at hb
    exact h2b hb
  | some b =>
    have hbk : ((ensureBody (ensureHeadHtml t)).kids.findAll (isTag "body")).head? = some b := hb
    cases hdv : b.findFirst (isTag "div") with
    | none =>
      have hred : fixDocIssue t iss
          = insertFrontOfFirst (isTag "body")
              (.elem 0 "main" [("id", Val.s "main")] .nil)
              (ensureBody (ensureHeadHtml t)) := by
        simp [fixDocIssue, hk, hd, hnone, hb, hdv]
      rw [hred]
      unfold insertFrontOfFirst
      have hlen : ∀ (tg : String) (D : Nat),
          (∀ m, isTag "body" m = true →
            ((NodeList.cons (Node.elem 0 "main" [("id", Val.s "main")] .nil) m.kids).findAll
              (isTag tg)).length = (m.kids.findAll (isTag tg)).length + D) →
          ((updFirst (isTag "body")
            (fun n =>
              { tag := n.tag, attrs := n.attrs,
                repl := some (.cons (Node.elem 0 "main" [("id", Val.s "main")] .nil)
                  n.kids) })
            (ensureBody (ensureHeadHtml t))).findAll (isTag tg)).length
          = ((ensureBody (ensureHeadHtml t)).findAll (isTag tg)).length + D := by
        intro tg D hD
        rw [node_updFirst_findAll]
        rw [len_updFirst_repl (isTag "body") _ tg (fun _ => D) (fun n => rfl)
          (by intro m hm2; exact hD m hm2) _]
        rw [hbk]
        rw [node_findAll_eq]
      refine ⟨?_, ?_, ?_, ?_⟩
      · rw [hlen "main" 1 ?_, h2m]
        · simp
        · intro m _
          simp [NodeList.findAll, isTag]
      · rw [hlen "nav" 0 ?_, h2n]
        · simp
        · intro m _
          simp [NodeList.findAll, isTag]
      · have := hlen "body" 0 ?_
        · intro hnil
          rw [hnil] at this
          simp at this
          exact h2b (List.length_eq_zero.1 this.symm)
        · intro m _
          simp [NodeList.findAll, isTag]
      · cases hEE : (ensureBody (ensureHeadHtml t)) with
        | txt i s => rw [hEE] at h2E; simp [Node.isElem] at h2E
        | elem i s a cs => rfl
    | some d =>
      have hred : fixDocIssue t iss
          = updFirst (isTag "body")
              (fun bb =>
                { tag := bb.tag, attrs := bb.attrs,
                  repl := some ((bb.kids.spliceFirst (isTag "div")
                    (fun dd => [Node.elem 0 "main" [("id", Val.s "main")]
                      (.cons dd .nil)])).1) })
              (ensureBody (ensureHeadHtml t)) := by
        simp [fixDocIssue, hk, hd, hnone, hb, hdv]
      rw [hred]
      have hfound : (b.kids.spliceFirst (isTag "div")
          (fun dd => [Node.elem 0 "main" [("id", Val.s "main")] (.cons dd .nil)])).2
          = true := by
        rw [spliceFirst_found]
        rw [Node.findFirst] at hdv
        cases hx : b.kids.findAll (isTag "div") with
        | nil =>
          rw [node_findAll_eq, hx] at hdv
          simp at hdv
        | cons y ys => simp
      have hlen : ∀ (tg : String) (d0 : Nat),
          (∀ n, isTag "div" n = true →
            ((NodeList.ofList [Node.elem 0 "main" [("id", Val.s "main")] (.cons n .nil)]).findAll
              (isTag tg)).length
              = (if isTag tg n then 1 else 0) + (n.kids.findAll (isTag tg)).length + d0) →
          ((updFirst (isTag "body")
            (fun bb =>
              { tag := bb.tag, attrs := bb.attrs,
                repl := some ((bb.kids.spliceFirst (isTag "div")
                  (fun dd => [Node.elem 0 "main" [("id", Val.s "main")]
                    (.cons dd .nil)])).1) })
            (ensureBody (ensureHeadHtml t))).findAll (isTag tg)).length
          = ((ensureBody (ensureHeadHtml t)).findAll (isTag tg)).length + d0 := by
        intro tg d0 hg
        rw [node_updFirst_findAll]
        rw [len_updFirst_repl (isTag "body") _ tg
          (fun m => if (m.kids.spliceFirst (isTag "div")
            (fun dd => [Node.elem 0 "main" [("id", Val.s "main")] (.cons dd .nil)])).2
            then d0 else 0)
          (fun n => rfl)
          (by
            intro m _
            exact len_spliceFirst (isTag "div") _ tg d0 hg m.kids) _]
        rw [hbk]
        dsimp only
        rw [hfound, if_pos rfl, node_findAll_eq]
      refine ⟨?_, ?_, ?_, ?_⟩
      · rw [hlen "main" 1 ?_, h2m]
        · simp
        · intro n hn2
          cases n with
          | txt i s => simp [isTag] at hn2
          | elem j2 s2 a2 cs2 =>
            simp [isTag] at hn2
            subst hn2
            simp [NodeList.ofList, NodeList.findAll, isTag, Node.kids]
      · rw [hlen "nav" 0 ?_, h2n]
        · simp
        · intro n hn2
          cases n with
          | txt i s => simp [isTag] at hn2
          | elem j2 s2 a2 cs2 =>
            simp [isTag] at hn2
            subst hn2
            simp [NodeList.ofList, NodeList.findAll, isTag, Node.kids]
      · have := hlen "body" 0 ?_
        · intro hnil
          rw [hnil] at this
          simp at this
          exact h2b (List.length_eq_zero.1 this.symm)
        · intro n hn2
          cases n with
          | txt i s => simp [isTag] at hn2
          | elem j2 s2 a2 cs2 =>
            simp [isTag] at hn2
            subst hn2
            simp [NodeList.ofList, NodeList.findAll, isTag, Node.kids]
      · cases hEE : (ensureBody (ensureHeadHtml t)) with
        | txt i s => rw [hEE] at h2E; simp [Node.isElem] at h2E
        | elem i s a cs => rfl

end A11y

namespace A11y

theorem fixDocLandmark_nav (t : Node) (iss : Issue)
    (hk : iss.kind = "MISSING_LANDMARKS")
    (hd : getA iss.details "missing" = some (Val.s "nav"))
    (hE : t.isElem = true)
    (hn : t.findAll (isTag "nav") = []) :
    ((fixDocIssue t iss).findAll (isTag "nav")).length = 1
    ∧ ((fixDocIssue t iss).findAll (isTag "main")).length
        = (t.findAll (isTag "main")).length := by
  have hsE := ensureHeadHtml_isElem t hE
  have h2m : (ensureBody (ensureHeadHtml t)).findAll (isTag "main")
      = t.findAll (isTag "main") := by
    rw [ensureBody_findAll "main" (by decide) _,
      ensureHeadHtml_findAll "main" (by decide) (by decide) t]
  have h2n : (ensureBody (ensureHeadHtml t)).findAll (isTag "nav") = [] := by
    rw [ensureBody_findAll "nav" (by decide) _,
      ensureHeadHtml_findAll "nav" (by decide) (by decide) t, hn]
  have h2b : (ensureBody (ensureHeadHtml t)).findAll (isTag "body") ≠ [] :=
    ensureBody_hasBody _ hsE
  have hnone : ((ensureBody (ensureHeadHtml t)).findFirst (isTag "nav")).isNone = true := by
    simp [Node.findFirst, h2n]
  obtain ⟨b, hbk⟩ := head_of_ne_nil _ h2b
  have hred : fixDocIssue t iss
      = insertFrontOfFirst (isTag "body") (.elem 0 "nav" [] .nil)
          (ensureBody (ensureHeadHtml t)) := by
    simp [fixDocIssue, hk, hd, hnone]
  rw [hred]
  unfold insertFrontOfFirst
  have hlen : ∀ (tg : String) (D : Nat),
      (∀ m, isTag "body" m = true →
        ((NodeList.cons (Node.elem 0 "nav" [] .nil) m.kids).findAll
          (isTag tg)).length = (m.kids.findAll (isTag tg)).length + D) →
      ((updFirst (isTag "body")
        (fun n =>
          { tag := n.tag, attrs := n.attrs,
            repl := some (.cons (Node.elem 0 "nav" [] .nil) n.kids) })
        (ensureBody (ensureHeadHtml t))).findAll (isTag tg)).length
      = ((ensureBody (ensureHeadHtml t)).findAll (isTag tg)).length + D := by
    intro tg D hD
    rw [node_updFirst_findAll]
    rw [len_updFirst_repl (isTag "body") _ tg (fun _ => D) (fun n => rfl)
      (by intro m hm2; exact hD m hm2) _]
    rw [show ((ensureBody (ensureHeadHtml t)).kids.findAll (isTag "body")).head? = some b
      from hbk]
    rw [node_findAll_eq]
  refine ⟨?_, ?_⟩
  · rw [hlen "nav" 1 ?_, h2n]
    · simp
    · intro m _
      simp [NodeList.findAll, isTag]
  · rw [hlen "main" 0 ?_, h2m]
    · simp
    · intro m _
      simp [NodeList.findAll, isTag]

end A11y

namespace A11y

/-- C7: on a document with neither a main nor a nav element, the audit
yields exactly two MISSING_LANDMARKS issues, one for main and one for nav,
in that order; and remediating exactly those two issues yields a document
with exactly one main element and exactly one nav element. -/
theorem missing_landmarks_audit_and_fix (cfg : Cfg) (t : Node)
    (hE : t.isElem = true)
    (hm : t.findAll (isTag "main") = [])
    (hn : t.findAll (isTag "nav") = []) :
    (audit (extract_chunks t)).filter (fun i => i.kind = "MISSING_LANDMARKS")
      = [{ kind := "MISSING_LANDMARKS", sev := "LOW",
           details := [("missing", Val.s "main")], chunk := docChunk t },
         { kind := "MISSING_LANDMARKS", sev := "LOW",
           details := [("missing", Val.s "nav")], chunk := docChunk t }]
    ∧ ((apply_fixes cfg t
        [{ kind := "MISSING_LANDMARKS", sev := "LOW",
           details := [("missing", Val.s "main")], chunk := docChunk t },
         { kind := "MISSING_LANDMARKS", sev := "LOW",
           details := [("missing", Val.s "nav")], chunk := docChunk t }] "").findAll
        (isTag "main")).length = 1
    ∧ ((apply_fixes cfg t
        [{ kind := "MISSING_LANDMARKS", sev := "LOW",
           details := [("missing", Val.s "main")], chunk := docChunk t },
         { kind := "MISSING_LANDMARKS", sev := "LOW",
           details := [("missing", Val.s "nav")], chunk := docChunk t }] "").findAll
        (isTag "nav")).length = 1 := by
  have hstep : apply_fixes cfg t
      [{ kind := "MISSING_LANDMARKS", sev := "LOW",
         details := [("missing", Val.s "main")], chunk := docChunk t },
       { kind := "MISSING_LANDMARKS", sev := "LOW",
         details := [("missing", Val.s "nav")], chunk := docChunk t }] ""
      = fixDocIssue (fixDocIssue t
          { kind := "MISSING_LANDMARKS", sev := "LOW",
            details := [("missing", Val.s "main")], chunk := docChunk t })
          { kind := "MISSING_LANDMARKS", sev := "LOW",
            details := [("missing", Val.s "nav")], chunk := docChunk t } := by
    simp [apply_fixes, fixStep, docKinds]
  have hM := fixDocLandmark_main t
    { kind := "MISSING_LANDMARKS", sev := "LOW",
      details := [("missing", Val.s "main")], chunk := docChunk t }
    rfl (by simp [getA]) hE hm hn
  have hN := fixDocLandmark_nav
    (fixDocIssue t
      { kind := "MISSING_LANDMARKS", sev := "LOW",
        details := [("missing", Val.s "main")], chunk := docChunk t })
    { kind := "MISSING_LANDMARKS", sev := "LOW",
      details := [("missing", Val.s "nav")], chunk := docChunk t }
    rfl (by simp [getA]) hM.2.2.2 (List.length_eq_zero.1 hM.2.1)
  refine ⟨audit_landmarks_filter t hm hn, ?_, ?_⟩
  · rw [hstep, hN.2, hM.1]
  · rw [hstep, hN.1]

def lmDocW : Node :=
  .elem 1 "[document]" [] (.cons (.elem 2 "body" [] .nil) .nil)

/-- Witness for C7 at a concrete document with an empty body and no
landmarks. -/
theorem missing_landmarks_audit_and_fix_witness :
    (audit (extract_chunks lmDocW)).filter (fun i => i.kind = "MISSING_LANDMARKS")
      = [{ kind := "MISSING_LANDMARKS", sev := "LOW",
           details := [("missing", Val.s "main")], chunk := docChunk lmDocW },
         { kind := "MISSING_LANDMARKS", sev := "LOW",
           details := [("missing", Val.s "nav")], chunk := docChunk lmDocW }]
    ∧ ((apply_fixes cfg0 lmDocW
        [{ kind := "MISSING_LANDMARKS", sev := "LOW",
           details := [("missing", Val.s "main")], chunk := docChunk lmDocW },
         { kind := "MISSING_LANDMARKS", sev := "LOW",
           details := [("missing", Val.s "nav")], chunk := docChunk lmDocW }] "").findAll
        (isTag "main")).length = 1
    ∧ ((apply_fixes cfg0 lmDocW
        [{ kind := "MISSING_LANDMARKS", sev := "LOW",
           details := [("missing", Val.s "main")], chunk := docChunk lmDocW },
         { kind := "MISSING_LANDMARKS", sev := "LOW",
           details := [("missing", Val.s "nav")], chunk := docChunk lmDocW }] "").findAll
        (isTag "nav")).length = 1 :=
  missing_landmarks_audit_and_fix cfg0 lmDocW (by decide) (by decide) (by decide)

end A11y

namespace A11y

/-- Indexing of a list by position, starting at k. -/
def withIdx {α : Type} (k : Nat) : List α → List (Nat × α)
  | [] => []
  | x :: tl => (k, x) :: withIdx (k + 1) tl

theorem mem_withIdx_ge {α : Type} :
    ∀ (l : List α) (k : Nat) (p : Nat × α), p ∈ withIdx k l → k ≤ p.1
  | [], _, p, h => absurd h (List.not_mem_nil p)
  | x :: tl, k, p, h => by
    rcases List.mem_cons.1 h with h1 | h2
    · subst h1; exact Nat.le_refl k
    · exact Nat.le_of_succ_le (mem_withIdx_ge tl (k + 1) p h2)

theorem pairwise_withIdx {α : Type} :
    ∀ (l : List α) (k : Nat),
      List.Pairwise (fun a b => a.1 < b.1) (withIdx k l)
  | [], _ => List.Pairwise.nil
  | x :: tl, k => by
    refine List.Pairwise.cons ?_ (pairwise_withIdx tl (k + 1))
    intro b hb
    exact Nat.lt_of_succ_le (mem_withIdx_ge tl (k + 1) b hb)

theorem withIdx_filter_map_fst {α β : Type} (q : Nat × α → Bool) (p : α → Bool)
    (hq : ∀ i x, q (i, x) = p x) (mkC : α → β) (l : List α) :
    ∀ k, (((withIdx k l).filter q).map (fun pn => (mkC pn.2, pn.1))).map Prod.fst
        = (l.filter p).map mkC := by
  induction l with
  | nil => intro k; rfl
  | cons x tl ih =>
    intro k
    simp only [withIdx, List.filter_cons, hq k x]
    by_cases hp : p x = true
    · simp [hp, ih (k + 1)]
    · have hp2 : p x = false := by simpa using hp
      simp [hp2, ih (k + 1)]

/-- The fixed emission rank of a chunk in extract_chunks: images, headings
by level, links, controls, iframes, svgs, sections, document. -/
def chunkRank (c : Chunk) : Nat :=
  if c.role = "img" then 0
  else if c.role = "heading" then 10 + parseHeadingLvl (pyLower (getS c.attrs "tag"))
  else if c.role = "link" then 20
  else if c.role = "control" then 21
  else if c.role = "iframe" then 22
  else if c.role = "svg" then 23
  else if c.role = "section" then 24
  else 25

/-- The lexicographic grouped-order relation: earlier group, or the same
group and an earlier document position. -/
def chunkLe (x y : Chunk × Nat) : Prop :=
  chunkRank x.1 < chunkRank y.1 ∨ (chunkRank x.1 = chunkRank y.1 ∧ x.2 ≤ y.2)

/-- extract_chunks instrumented with document-order element positions: the
same traversals, each chunk paired with the position of its source element
in the document-order element list (the synthetic document chunk takes the
position after all elements). -/
def chunkSrcPos (soup : Node) : List (Chunk × Nat) :=
  let ew := withIdx 0 (elemsWithPath soup)
  ((ew.filter (fun pn => isTag "img" pn.2.2)).map (fun pn => (imgChunk pn.2, pn.1)))
    ++ ((List.range' 1 6).flatMap (fun lvl =>
        (ew.filter (fun pn => isTag ("h" ++ toString lvl) pn.2.2)).map
          (fun pn => (headingChunk lvl pn.2, pn.1))))
    ++ ((ew.filter (fun pn => isTag "a" pn.2.2)).map (fun pn => (linkChunk pn.2, pn.1)))
    ++ ((ew.filter (fun pn => isTag "input" pn.2.2 || isTag "select" pn.2.2
          || isTag "textarea" pn.2.2 || isTag "button" pn.2.2)).map
          (fun pn => (controlChunk pn.2, pn.1)))
    ++ ((ew.filter (fun pn => isTag "iframe" pn.2.2)).map (fun pn => (iframeChunk pn.2, pn.1)))
    ++ ((ew.filter (fun pn => isTag "svg" pn.2.2)).map (fun pn => (svgChunk pn.2, pn.1)))
    ++ ((ew.filter (fun pn => isVisibleTextBlock pn.2.2 && (textOf pn.2.2).length ≥ 60)).map
          (fun pn => (sectionChunk pn.2, pn.1)))
    ++ [(docChunk soup, (elemsWithPath soup).length)]

theorem block_pairwise (l : List (String × Node)) (q : Nat × (String × Node) → Bool)
    (mkC : (String × Node) → Chunk) (r : Nat)
    (hr : ∀ pn, chunkRank (mkC pn) = r) :
    List.Pairwise chunkLe (((withIdx 0 l).filter q).map (fun pn => (mkC pn.2, pn.1))) := by
  have hpw : List.Pairwise (fun a b : Nat × (String × Node) => a.1 < b.1)
      ((withIdx 0 l).filter q) := (pairwise_withIdx l 0).filter q
  rw [List.pairwise_map]
  refine hpw.imp ?_
  intro a b hab
  exact Or.inr ⟨by rw [hr a.2, hr b.2], Nat.le_of_lt hab⟩

theorem block_rank (l : List (String × Node)) (q : Nat × (String × Node) → Bool)
    (mkC : (String × Node) → Chunk) (r : Nat)
    (hr : ∀ pn, chunkRank (mkC pn) = r) :
    ∀ x ∈ ((withIdx 0 l).filter q).map (fun pn => (mkC pn.2, pn.1)), chunkRank x.1 = r := by
  intro x hx
  rcases List.mem_map.1 hx with ⟨pn, _, h⟩
  rw [← h]
  exact hr pn.2

theorem pairwise_block_append (r : Nat) (L1 L2 : List (Chunk × Nat))
    (h1 : List.Pairwise chunkLe L1) (hr1 : ∀ x ∈ L1, chunkRank x.1 = r)
    (h2 : List.Pairwise chunkLe L2) (hlb : ∀ y ∈ L2, r < chunkRank y.1) :
    List.Pairwise chunkLe (L1 ++ L2)
    ∧ ∀ r0 : Nat, r0 < r → ∀ y ∈ L1 ++ L2, r0 < chunkRank y.1 := by
  constructor
  · exact List.pairwise_append.2
      ⟨h1, h2, fun x hx y hy => Or.inl (by rw [hr1 x hx]; exact hlb y hy)⟩
  · intro r0 hr0 y hy
    rcases List.mem_append.1 hy with h | h
    · rw [hr1 y h]; exact hr0
    · exact Nat.lt_trans hr0 (hlb y h)

end A11y

namespace A11y

theorem chunkRank_img (pn : String × Node) : chunkRank (imgChunk pn) = 0 := rfl

theorem chunkRank_h1 (pn : String × Node) : chunkRank (headingChunk 1 pn) = 11 := rfl

theorem chunkRank_h2 (pn : String × Node) : chunkRank (headingChunk 2 pn) = 12 := rfl

theorem chunkRank_h3 (pn : String × Node) : chunkRank (headingChunk 3 pn) = 13 := rfl

theorem chunkRank_h4 (pn : String × Node) : chunkRank (headingChunk 4 pn) = 14 := rfl

theorem chunkRank_h5 (pn : String × Node) : chunkRank (headingChunk 5 pn) = 15 := rfl

theorem chunkRank_h6 (pn : String × Node) : chunkRank (headingChunk 6 pn) = 16 := rfl

theorem chunkRank_link (pn : String × Node) : chunkRank (linkChunk pn) = 20 := rfl

theorem chunkRank_control (pn : String × Node) : chunkRank (controlChunk pn) = 21 := rfl

theorem chunkRank_iframe (pn : String × Node) : chunkRank (iframeChunk pn) = 22 := rfl

theorem chunkRank_svg (pn : String × Node) : chunkRank (svgChunk pn) = 23 := rfl

theorem chunkRank_section (pn : String × Node) : chunkRank (sectionChunk pn) = 24 := rfl

theorem chunkRank_doc (soup : Node) : chunkRank (docChunk soup) = 25 := rfl

end A11y

namespace A11y

/-- C4 (amended): chunk extraction is faithful to extract_chunks and is
ordered by group rank (images, headings by level one to six, links,
controls, iframes, svgs, sections, document), with document order holding
inside each group; it is not globally ordered by document position. -/
theorem extraction_grouped_order (soup : Node) :
    (chunkSrcPos soup).map Prod.fst = extract_chunks soup
    ∧ List.Pairwise chunkLe (chunkSrcPos soup) := by
  have hr6 : List.range' 1 6 = [1, 2, 3, 4, 5, 6] := rfl
  constructor
  · simp only [chunkSrcPos, extract_chunks]
    rw [hr6]
    simp only [List.flatMap_cons, List.flatMap_nil, List.append_nil, List.map_append]
    rw [withIdx_filter_map_fst (fun pn => isTag "img" pn.2.2)
        (fun x => isTag "img" x.2) (fun i x => rfl) imgChunk (elemsWithPath soup) 0,
      withIdx_filter_map_fst (fun pn => isTag ("h" ++ toString 1) pn.2.2)
        (fun x => isTag ("h" ++ toString 1) x.2) (fun i x => rfl)
        (headingChunk 1) (elemsWithPath soup) 0,
      withIdx_filter_map_fst (fun pn => isTag ("h" ++ toString 2) pn.2.2)
        (fun x => isTag ("h" ++ toString 2) x.2) (fun i x => rfl)
        (headingChunk 2) (elemsWithPath soup) 0,
      withIdx_filter_map_fst (fun pn => isTag ("h" ++ toString 3) pn.2.2)
        (fun x => isTag ("h" ++ toString 3) x.2) (fun i x => rfl)
        (headingChunk 3) (elemsWithPath soup) 0,
      withIdx_filter_map_fst (fun pn => isTag ("h" ++ toString 4) pn.2.2)
        (fun x => isTag ("h" ++ toString 4) x.2) (fun i x => rfl)
        (headingChunk 4) (elemsWithPath soup) 0,
      withIdx_filter_map_fst (fun pn => isTag ("h" ++ toString 5) pn.2.2)
        (fun x => isTag ("h" ++ toString 5) x.2) (fun i x => rfl)
        (headingChunk 5) (elemsWithPath soup) 0,
      withIdx_filter_map_fst (fun pn => isTag ("h" ++ toString 6) pn.2.2)
        (fun x => isTag ("h" ++ toString 6) x.2) (fun i x => rfl)
        (headingChunk 6) (elemsWithPath soup) 0,
      withIdx_filter_map_fst (fun pn => isTag "a" pn.2.2)
        (fun x => isTag "a" x.2) (fun i x => rfl) linkChunk (elemsWithPath soup) 0,
      withIdx_filter_map_fst (fun pn => isTag "input" pn.2.2 || isTag "select" pn.2.2
          || isTag "textarea" pn.2.2 || isTag "button" pn.2.2)
        (fun x => isTag "input" x.2 || isTag "select" x.2
          || isTag "textarea" x.2 || isTag "button" x.2) (fun i x => rfl)
        controlChunk (elemsWithPath soup) 0,
      withIdx_filter_map_fst (fun pn => isTag "iframe" pn.2.2)
        (fun x => isTag "iframe" x.2) (fun i x => rfl) iframeChunk (elemsWithPath soup) 0,
      withIdx_filter_map_fst (fun pn => isTag "svg" pn.2.2)
        (fun x => isTag "svg" x.2) (fun i x => rfl) svgChunk (elemsWithPath soup) 0,
      withIdx_filter_map_fst
        (fun pn => isVisibleTextBlock pn.2.2 && (textOf pn.2.2).length ≥ 60)
        (fun x => isVisibleTextBlock x.2 && (textOf x.2).length ≥ 60) (fun i x => rfl)
        sectionChunk (elemsWithPath soup) 0]
    rfl
  · simp only [chunkSrcPos]
    rw [hr6]
    simp only [List.flatMap_cons, List.flatMap_nil, List.append_nil, List.append_assoc]
    have Gdoc : List.Pairwise chunkLe [(docChunk soup, (elemsWithPath soup).length)]
        ∧ ∀ r0 : Nat, r0 < 25 →
          ∀ y ∈ [(docChunk soup, (elemsWithPath soup).length)], r0 < chunkRank y.1 := by
      constructor
      · exact List.pairwise_singleton _ _
      · intro r0 h y hy
        rw [List.mem_singleton] at hy
        subst hy
        rw [show chunkRank (docChunk soup, (elemsWithPath soup).length).1 = 25
          from chunkRank_doc soup]
        exact h
    have Gsec := pairwise_block_append 24 _ _
      (block_pairwise (elemsWithPath soup)
        (fun pn => isVisibleTextBlock pn.2.2 && (textOf pn.2.2).length ≥ 60)
        sectionChunk 24 chunkRank_section)
      (block_rank (elemsWithPath soup)
        (fun pn => isVisibleTextBlock pn.2.2 && (textOf pn.2.2).length ≥ 60)
        sectionChunk 24 chunkRank_section)
      Gdoc.1 (Gdoc.2 24 (by decide))
    have Gsvg := pairwise_block_append 23 _ _
      (block_pairwise (elemsWithPath soup) (fun pn => isTag "svg" pn.2.2)
        svgChunk 23 chunkRank_svg)
      (block_rank (elemsWithPath soup) (fun pn => isTag "svg" pn.2.2)
        svgChunk 23 chunkRank_svg)
      Gsec.1 (Gsec.2 23 (by decide))
    have Gifr := pairwise_block_append 22 _ _
      (block_pairwise (elemsWithPath soup) (fun pn => isTag "iframe" pn.2.2)
        iframeChunk 22 chunkRank_iframe)
      (block_rank (elemsWithPath soup) (fun pn => isTag "iframe" pn.2.2)
        iframeChunk 22 chunkRank_iframe)
      Gsvg.1 (Gsvg.2 22 (by decide))
    have Gctl := pairwise_block_append 21 _ _
      (block_pairwise (elemsWithPath soup)
        (fun pn => isTag "input" pn.2.2 || isTag "select" pn.2.2
          || isTag "textarea" pn.2.2 || isTag "button" pn.2.2)
        controlChunk 21 chunkRank_control)
      (block_rank (elemsWithPath soup)
        (fun pn => isTag "input" pn.2.2 || isTag "select" pn.2.2
          || isTag "textarea" pn.2.2 || isTag "button" pn.2.2)
        controlChunk 21 chunkRank_control)
      Gifr.1 (Gifr.2 21 (by decide))
    have Glnk := pairwise_block_append 20 _ _
      (block_pairwise (elemsWithPath soup) (fun pn => isTag "a" pn.2.2)
        linkChunk 20 chunkRank_link)
      (block_rank (elemsWithPath soup) (fun pn => isTag "a" pn.2.2)
        linkChunk 20 chunkRank_link)
      Gctl.1 (Gctl.2 20 (by decide))
    have Gh6 := pairwise_block_append 16 _ _
      (block_pairwise (elemsWithPath soup) (fun pn => isTag ("h" ++ toString 6) pn.2.2)
        (headingChunk 6) 16 chunkRank_h6)
      (block_rank (elemsWithPath soup) (fun pn => isTag ("h" ++ toString 6) pn.2.2)
        (headingChunk 6) 16 chunkRank_h6)
      Glnk.1 (Glnk.2 16 (by decide))
    have Gh5 := pairwise_block_append 15 _ _
      (block_pairwise (elemsWithPath soup) (fun pn => isTag ("h" ++ toString 5) pn.2.2)
        (headingChunk 5) 15 chunkRank_h5)
      (block_rank (elemsWithPath soup) (fun pn => isTag ("h" ++ toString 5) pn.2.2)
        (headingChunk 5) 15 chunkRank_h5)
      Gh6.1 (Gh6.2 15 (by decide))
    have Gh4 := pairwise_block_append 14 _ _
      (block_pairwise (elemsWithPath soup) (fun pn => isTag ("h" ++ toString 4) pn.2.2)
        (headingChunk 4) 14 chunkRank_h4)
      (block_rank (elemsWithPath soup) (fun pn => isTag ("h" ++ toString 4) pn.2.2)
        (headingChunk 4) 14 chunkRank_h4)
      Gh5.1 (Gh5.2 14 (by decide))
    have Gh3 := pairwise_block_append 13 _ _
      (block_pairwise (elemsWithPath soup) (fun pn => isTag ("h" ++ toString 3) pn.2.2)
        (headingChunk 3) 13 chunkRank_h3)
      (block_rank (elemsWithPath soup) (fun pn => isTag ("h" ++ toString 3) pn.2.2)
        (headingChunk 3) 13 chunkRank_h3)
      Gh4.1 (Gh4.2 13 (by decide))
    have Gh2 := pairwise_block_append 12 _ _
      (block_pairwise (elemsWithPath soup) (fun pn => isTag ("h" ++ toString 2) pn.2.2)
        (headingChunk 2) 12 chunkRank_h2)
      (block_rank (elemsWithPath soup) (fun pn => isTag ("h" ++ toString 2) pn.2.2)
        (headingChunk 2) 12 chunkRank_h2)
      Gh3.1 (Gh3.2 12 (by decide))
    have Gh1 := pairwise_block_append 11 _ _
      (block_pairwise (elemsWithPath soup) (fun pn => isTag ("h" ++ toString 1) pn.2.2)
        (headingChunk 1) 11 chunkRank_h1)
      (block_rank (elemsWithPath soup) (fun pn => isTag ("h" ++ toString 1) pn.2.2)
        (headingChunk 1) 11 chunkRank_h1)
      Gh2.1 (Gh2.2 11 (by decide))
    exact (pairwise_block_append 0 _ _
      (block_pairwise (elemsWithPath soup) (fun pn => isTag "img" pn.2.2)
        imgChunk 0 chunkRank_img)
      (block_rank (elemsWithPath soup) (fun pn => isTag "img" pn.2.2)
        imgChunk 0 chunkRank_img)
      Gh1.1 (Gh1.2 0 (by decide))).1

def orderDocC : Node :=
  .elem 1 "[document]" [] (.cons (.elem 2 "body" []
    (.cons (.elem 3 "a" [("href", .s "x")] (.cons (.txt 4 "t") .nil))
      (.cons (.elem 5 "img" [("src", .s "i"), ("alt", .s "z")] .nil) .nil))) .nil)

/-- Counterexample to C4 as stated: with an anchor occurring before an img
in the document, the img chunk is emitted first, so the chunk list is not
ordered by document position of the source elements; the position-annotated
list projects to the real extract_chunks output. -/
theorem extraction_order_counterexample :
    ¬ List.Pairwise (fun x y : Chunk × Nat => x.2 ≤ y.2) (chunkSrcPos orderDocC)
    ∧ (chunkSrcPos orderDocC).map Prod.fst = extract_chunks orderDocC := by
  constructor
  · decide
  · decide

end A11y

namespace A11y

/-- The heading level the audit and fixer read off a chunk. -/
def chunkLvl (c : Chunk) : Nat := parseHeadingLvl (pyLower (getS c.attrs "tag"))

/-- An element with one of the six heading tags. -/
def isHeadingTag (n : Node) : Bool :=
  isTag "h1" n || isTag "h2" n || isTag "h3" n
    || isTag "h4" n || isTag "h5" n || isTag "h6" n

/-- The heading levels of the document in document order. -/
def docHeadingLvls (t : Node) : List Nat :=
  ((elemsWithPath t).filter (fun pn => isHeadingTag pn.2)).map
    (fun pn => parseHeadingLvl pn.2.tag)

theorem filter_kind_flatMap_nil (K K0 : String) (hne : K0 ≠ K) (r : Chunk → List Issue)
    (hr : ∀ c i, i ∈ r c → i.kind = K0) (l : List Chunk) :
    (l.flatMap r).filter (fun i => i.kind = K) = [] := by
  rw [List.filter_eq_nil]
  intro i hi
  rcases List.mem_flatMap.1 hi with ⟨c, _, hic⟩
  simp [hr c i hic, hne]

theorem imgRule_kind (c : Chunk) (i : Issue) (h : i ∈ imgRule c) :
    i.kind = "MISSING_ALT" := by
  unfold imgRule at h
  repeat' split at h
  all_goals simp_all

theorem poorLinkRule_kind (c : Chunk) (i : Issue) (h : i ∈ poorLinkRule c) :
    i.kind = "POOR_LINK_TEXT" := by
  unfold poorLinkRule at h
  repeat' split at h
  all_goals simp_all

theorem linkNoNameRule_kind (c : Chunk) (i : Issue) (h : i ∈ linkNoNameRule c) :
    i.kind = "LINK_NO_NAME" := by
  unfold linkNoNameRule at h
  repeat' split at h
  all_goals simp_all

theorem blankTargetRule_kind (c : Chunk) (i : Issue) (h : i ∈ blankTargetRule c) :
    i.kind = "BLANK_TARGET_NO_REL" := by
  unfold blankTargetRule at h
  repeat' split at h
  all_goals simp_all

theorem controlRule_kind (c : Chunk) (i : Issue) (h : i ∈ controlRule c) :
    i.kind = "CONTROL_NO_LABEL" := by
  unfold controlRule at h
  repeat' split at h
  all_goals simp_all

theorem iframeRule_kind (c : Chunk) (i : Issue) (h : i ∈ iframeRule c) :
    i.kind = "IFRAME_NO_TITLE" := by
  unfold iframeRule at h
  repeat' split at h
  all_goals simp_all

theorem svgRule_kind (c : Chunk) (i : Issue) (h : i ∈ svgRule c) :
    i.kind = "SVG_NO_NAME" := by
  unfold svgRule at h
  repeat' split at h
  all_goals simp_all

theorem aActsRule_kind (c : Chunk) (i : Issue) (h : i ∈ aActsRule c) :
    i.kind = "A_ACTS_BUTTON" := by
  unfold aActsRule at h
  repeat' split at h
  all_goals simp_all

theorem documentRules_no_bad (c : Chunk) :
    (documentRules c).filter (fun i => i.kind = "BAD_HEADING_ORDER") = [] := by
  unfold documentRules
  simp only [List.filter_append]
  repeat' split
  all_goals simp

theorem headingScan_all_bad :
    ∀ (l : List Chunk) (last : Nat) (i : Issue),
      i ∈ headingScanAux last l → i.kind = "BAD_HEADING_ORDER"
  | [], _, i, h => absurd h (List.not_mem_nil i)
  | c :: rest, last, i, h => by
    simp only [headingScanAux, List.mem_append] at h
    rcases h with h | h
    · split at h
      · rcases List.mem_singleton.1 h with rfl
        rfl
      · exact absurd h (List.not_mem_nil i)
    · exact headingScan_all_bad rest _ i h

/-- The BAD_HEADING_ORDER issues of an audit are exactly the heading scan
over the heading chunks, in chunk order. -/
theorem audit_bad_filter (chunks : List Chunk) :
    (audit chunks).filter (fun i => i.kind = "BAD_HEADING_ORDER")
      = headingScanAux 0 (chunks.filter (fun c => c.role = "heading")) := by
  unfold audit
  simp only [List.filter_append]
  rw [filter_kind_flatMap_nil _ "MISSING_ALT" (by decide) imgRule imgRule_kind,
    filter_kind_flatMap_nil _ "POOR_LINK_TEXT" (by decide) poorLinkRule poorLinkRule_kind,
    filter_kind_flatMap_nil _ "LINK_NO_NAME" (by decide) linkNoNameRule linkNoNameRule_kind,
    filter_kind_flatMap_nil _ "BLANK_TARGET_NO_REL" (by decide) blankTargetRule
      blankTargetRule_kind,
    filter_kind_flatMap_nil _ "CONTROL_NO_LABEL" (by decide) controlRule controlRule_kind,
    filter_kind_flatMap_nil _ "IFRAME_NO_TITLE" (by decide) iframeRule iframeRule_kind,
    filter_kind_flatMap_nil _ "SVG_NO_NAME" (by decide) svgRule svgRule_kind,
    filter_kind_flatMap_nil _ "A_ACTS_BUTTON" (by decide) aActsRule aActsRule_kind,
    filter_flatMap_nil _ documentRules _ (fun c _ => documentRules_no_bad c)]
  rw [List.filter_eq_self.2
    (fun i hi => by simp [headingScan_all_bad _ 0 i hi])]
  simp

end A11y

namespace A11y

theorem filter_flatMap_comm {α β : Type} (q : β → Bool) (r : α → List β) :
    ∀ l : List α, (l.flatMap r).filter q = l.flatMap (fun a => (r a).filter q)
  | [] => rfl
  | c :: tl => by
    rw [List.flatMap_cons, List.filter_append, List.flatMap_cons,
      filter_flatMap_comm q r tl]

theorem extract_headFilter (t : Node) :
    (extract_chunks t).filter (fun c => c.role = "heading")
      = (List.range' 1 6).flatMap (fun lvl =>
          ((elemsWithPath t).filter (fun pn => isTag ("h" ++ toString lvl) pn.2)).map
            (headingChunk lvl)) := by
  unfold extract_chunks
  simp only [List.filter_append]
  rw [filter_flatMap_comm]
  simp [List.filter_map, Function.comp, imgChunk, linkChunk, controlChunk,
    iframeChunk, svgChunk, sectionChunk, docChunk, headingChunk]

end A11y

namespace A11y

theorem scan_nil : ∀ (cs : List Chunk) (last : Nat),
    (∀ c ∈ cs, chunkLvl c ≠ 0) →
    List.Chain' (fun a b => b ≤ a + 1) (cs.map chunkLvl) →
    (∀ l0 ∈ (cs.map chunkLvl).head?, last ≠ 0 → l0 ≤ last + 1) →
    headingScanAux last cs = []
  | [], _, _, _, _ => rfl
  | c :: rest, last, hnz, hch, hhd => by
    simp only [headingScanAux]
    have e : parseHeadingLvl (pyLower (getS c.attrs "tag")) = chunkLvl c := rfl
    rw [e]
    have hnc : chunkLvl c ≠ 0 := hnz c (List.mem_cons_self c rest)
    have hch2 : List.Chain' (fun a b => b ≤ a + 1) (rest.map chunkLvl)
        ∧ ∀ h ∈ (rest.map chunkLvl).head?, h ≤ chunkLvl c + 1 := by
      have := hch
      rw [List.map_cons] at this
      exact ⟨(List.chain'_cons'.1 this).2, (List.chain'_cons'.1 this).1⟩
    have hrec : headingScanAux (if chunkLvl c ≠ 0 then chunkLvl c else last) rest = [] := by
      rw [if_pos hnc]
      exact scan_nil rest (chunkLvl c)
        (fun x hx => hnz x (List.mem_cons_of_mem c hx))
        hch2.1
        (fun l0 hl0 _ => hch2.2 l0 hl0)
    rw [hrec]
    rw [if_neg ?_, List.nil_append]
    intro hcond
    rcases hcond with ⟨hlast, _, hgt⟩
    have hle : chunkLvl c ≤ last + 1 := by
      apply hhd (chunkLvl c) ?_ hlast
      rw [List.map_cons]
      rfl
    omega

theorem scan_emits : ∀ (cs1 : List Chunk) (ca cb : Chunk) (cs2 : List Chunk) (last : Nat),
    chunkLvl ca ≠ 0 → chunkLvl cb ≠ 0 →
    chunkLvl cb > chunkLvl ca + 1 →
    ({ kind := "BAD_HEADING_ORDER", sev := "LOW",
       details := [("prev", Val.n (chunkLvl ca)), ("curr", Val.n (chunkLvl cb))],
       chunk := cb } : Issue) ∈ headingScanAux last (cs1 ++ ca :: cb :: cs2)
  | [], ca, cb, cs2, last, hca, hcb, hj => by
    simp only [List.nil_append, headingScanAux]
    refine List.mem_append_right _ ?_
    have ea : parseHeadingLvl (pyLower (getS ca.attrs "tag")) = chunkLvl ca := rfl
    have eb : parseHeadingLvl (pyLower (getS cb.attrs "tag")) = chunkLvl cb := rfl
    rw [ea, eb, if_pos hca]
    refine List.mem_append_left _ ?_
    rw [if_pos ⟨hca, hcb, hj⟩]
    exact List.mem_singleton.2 rfl
  | c :: cs1, ca, cb, cs2, last, hca, hcb, hj => by
    simp only [List.cons_append, headingScanAux]
    refine List.mem_append_right _ ?_
    exact scan_emits cs1 ca cb cs2 _ hca hcb hj

end A11y

namespace A11y

theorem walk_reach : ∀ (l : List Nat) (x : Nat),
    List.Chain (fun a b => b ≤ a + 1 ∧ a ≤ b + 1) x l →
    ∀ b ∈ l, ∀ c, x ≤ c → c ≤ b → c = x ∨ c ∈ l
  | [], _, _, b, hb, _, _, _ => absurd hb (List.not_mem_nil b)
  | y :: tl, x, hch, b, hb, c, hxc, hcb => by
    rcases List.chain_cons.1 hch with ⟨hstep, htl⟩
    by_cases hcx : c = x
    · exact Or.inl hcx
    · have hxlt : x < c := Nat.lt_of_le_of_ne hxc (Ne.symm hcx)
      have hyc : y ≤ c := by
        have h1 := hstep.1
        omega
      rcases List.mem_cons.1 hb with rfl | hbtl
      · right
        have hce : c = b := Nat.le_antisymm hcb hyc
        rw [hce]
        exact List.mem_cons_self b tl
      · rcases walk_reach tl y htl b hbtl c hyc hcb with h1 | h2
        · right; rw [h1]; exact List.mem_cons_self y tl
        · right; exact List.mem_cons_of_mem y h2

theorem walk_ivt (l : List Nat)
    (hch : List.Chain' (fun a b => b ≤ a + 1 ∧ a ≤ b + 1) l)
    (a b c : Nat) (ha : a ∈ l) (hb : b ∈ l) (hac : a ≤ c) (hcb : c ≤ b) : c ∈ l := by
  obtain ⟨l1, l2, rfl⟩ := List.append_of_mem ha
  rcases List.mem_append.1 hb with hb1 | hb2
  · have hch2 : List.Chain' (fun a b => b ≤ a + 1 ∧ a ≤ b + 1) (l1 ++ [a]) :=
      (List.chain'_split.1 hch).1
    have hchr : List.Chain' (fun a b => b ≤ a + 1 ∧ a ≤ b + 1) (l1 ++ [a]).reverse := by
      rw [List.chain'_reverse]
      exact hch2.imp (fun a b h => ⟨h.2, h.1⟩)
    rw [show (l1 ++ [a]).reverse = a :: l1.reverse by simp] at hchr
    have hchain : List.Chain (fun a b => b ≤ a + 1 ∧ a ≤ b + 1) a l1.reverse := hchr
    have hb1r : b ∈ l1.reverse := List.mem_reverse.2 hb1
    rcases walk_reach l1.reverse a hchain b hb1r c hac hcb with h1 | h2
    · rw [h1]
      exact List.mem_append_right l1 (List.mem_cons_self a l2)
    · exact List.mem_append_left _ (List.mem_reverse.1 h2)
  · rcases List.mem_cons.1 hb2 with rfl | hb3
    · have hce : c = b := Nat.le_antisymm hcb hac
      rw [hce]
      exact List.mem_append_right l1 (List.mem_cons_self b l2)
    · have hch3 : List.Chain' (fun a b => b ≤ a + 1 ∧ a ≤ b + 1) (a :: l2) :=
        (List.chain'_split.1 hch).2
      have hchain : List.Chain (fun a b => b ≤ a + 1 ∧ a ≤ b + 1) a l2 := hch3
      rcases walk_reach l2 a hchain b hb3 c hac hcb with h1 | h2
      · rw [h1]
        exact List.mem_append_right l1 (List.mem_cons_self a l2)
      · exact List.mem_append_right l1 (List.mem_cons_of_mem a h2)

theorem chain_replicate_prepend (l : Nat) (rest : List Nat)
    (hch : List.Chain' (fun a b => b ≤ a + 1) rest)
    (hb : ∀ h ∈ rest.head?, h ≤ l + 1) :
    ∀ n, List.Chain' (fun a b => b ≤ a + 1) (List.replicate n l ++ rest)
  | 0 => by simpa using hch
  | n + 1 => by
    simp only [List.replicate_succ, List.cons_append]
    refine List.chain'_cons'.2 ⟨?_, chain_replicate_prepend l rest hch hb n⟩
    intro h hh
    cases n with
    | zero =>
      simp only [List.replicate, List.nil_append] at hh
      exact hb h hh
    | succ m =>
      simp only [List.replicate_succ, List.cons_append, List.head?_cons,
        Option.mem_def, Option.some.injEq] at hh
      omega

theorem grp_prepend (P : Nat → Prop) (l n : Nat) (rest : List Nat)
    (hl1 : 1 ≤ l)
    (hPl : 0 < n ↔ P l)
    (hplus : P l → ∀ h, P h → l < h → P (l + 1))
    (hch : List.Chain' (fun a b : Nat => b ≤ a + 1) rest)
    (hhd : ∀ h ∈ rest.head?, P h ∧ l < h ∧ ∀ p, P p → l < p → h ≤ p) :
    List.Chain' (fun a b : Nat => b ≤ a + 1) (List.replicate n l ++ rest)
    ∧ ∀ h ∈ (List.replicate n l ++ rest).head?,
        P h ∧ l - 1 < h ∧ ∀ p, P p → l - 1 < p → h ≤ p := by
  constructor
  · cases n with
    | zero => simpa using hch
    | succ m =>
      apply chain_replicate_prepend l rest hch
      intro h hh
      have hP : P l := hPl.1 (Nat.succ_pos m)
      exact (hhd h hh).2.2 (l + 1) (hplus hP h (hhd h hh).1 (hhd h hh).2.1) (by omega)
  · intro h hh
    cases n with
    | zero =>
      simp only [List.replicate, List.nil_append] at hh
      obtain ⟨hPh, hlh, hmin⟩ := hhd h hh
      refine ⟨hPh, by omega, ?_⟩
      intro p hp hlp
      by_cases hpl : p = l
      · exfalso
        exact absurd (hPl.2 (hpl ▸ hp)) (by omega)
      · exact hmin p hp (by omega)
    | succ m =>
      simp only [List.replicate_succ, List.cons_append, List.head?_cons,
        Option.mem_def, Option.some.injEq] at hh
      subst hh
      refine ⟨hPl.1 (Nat.succ_pos m), by omega, ?_⟩
      intro p _ hlp
      omega

end A11y

namespace A11y

theorem chunkLvl_h1 (pn : String × Node) : chunkLvl (headingChunk 1 pn) = 1 := rfl

theorem chunkLvl_h2 (pn : String × Node) : chunkLvl (headingChunk 2 pn) = 2 := rfl

theorem chunkLvl_h3 (pn : String × Node) : chunkLvl (headingChunk 3 pn) = 3 := rfl

theorem chunkLvl_h4 (pn : String × Node) : chunkLvl (headingChunk 4 pn) = 4 := rfl

theorem chunkLvl_h5 (pn : String × Node) : chunkLvl (headingChunk 5 pn) = 5 := rfl

theorem chunkLvl_h6 (pn : String × Node) : chunkLvl (headingChunk 6 pn) = 6 := rfl

theorem map_const_replicate {α β : Type} (b : β) :
    ∀ l : List α, l.map (fun _ => b) = List.replicate l.length b
  | [] => rfl
  | x :: tl => by simp [List.replicate_succ, map_const_replicate b tl]

theorem isTag_tag (s : String) (n : Node) (h : isTag s n = true) : n.tag = s := by
  cases n with
  | txt i u => simp [isTag] at h
  | elem i tg a cs =>
    simp only [isTag, decide_eq_true_eq] at h
    exact h

theorem headingTag_parse (n : Node) (k : Nat) (hk1 : 1 ≤ k) (hk6 : k ≤ 6)
    (h : isTag ("h" ++ toString k) n = true) : parseHeadingLvl n.tag = k := by
  rw [isTag_tag _ n h]
  interval_cases k <;> rfl

theorem isHeadingTag_cases (n : Node) (h : isHeadingTag n = true) :
    ∃ k, 1 ≤ k ∧ k ≤ 6 ∧ isTag ("h" ++ toString k) n = true := by
  simp only [isHeadingTag, Bool.or_eq_true] at h
  rcases h with ((((h | h) | h) | h) | h) | h
  · exact ⟨1, by decide, by decide, h⟩
  · exact ⟨2, by decide, by decide, h⟩
  · exact ⟨3, by decide, by decide, h⟩
  · exact ⟨4, by decide, by decide, h⟩
  · exact ⟨5, by decide, by decide, h⟩
  · exact ⟨6, by decide, by decide, h⟩

theorem heading_presence (t : Node) (v : Nat) (h1 : 1 ≤ v) (h6 : v ≤ 6) :
    0 < ((elemsWithPath t).filter (fun pn => isTag ("h" ++ toString v) pn.2)).length
      ↔ v ∈ docHeadingLvls t := by
  constructor
  · intro hpos
    obtain ⟨pn, hpn⟩ := List.exists_mem_of_length_pos hpos
    have hmem := (List.mem_filter.1 hpn).1
    have htg := (List.mem_filter.1 hpn).2
    refine List.mem_map.2 ⟨pn, List.mem_filter.2 ⟨hmem, ?_⟩,
      headingTag_parse pn.2 v h1 h6 htg⟩
    simp only [isHeadingTag, Bool.or_eq_true]
    interval_cases v
    · exact Or.inl (Or.inl (Or.inl (Or.inl (Or.inl htg))))
    · exact Or.inl (Or.inl (Or.inl (Or.inl (Or.inr htg))))
    · exact Or.inl (Or.inl (Or.inl (Or.inr htg)))
    · exact Or.inl (Or.inl (Or.inr htg))
    · exact Or.inl (Or.inr htg)
    · exact Or.inr htg
  · intro hv
    obtain ⟨pn, hpn, hparse⟩ := List.mem_map.1 hv
    have hmem := (List.mem_filter.1 hpn).1
    have htg := (List.mem_filter.1 hpn).2
    obtain ⟨k, hk1, hk6, hktag⟩ := isHeadingTag_cases pn.2 htg
    have hpk : parseHeadingLvl pn.2.tag = k := headingTag_parse pn.2 k hk1 hk6 hktag
    have hkv : k = v := by rw [hpk] at hparse; exact hparse
    subst hkv
    exact List.length_pos.2 (List.ne_nil_of_mem (List.mem_filter.2 ⟨hmem, hktag⟩))

theorem HB_mem_lvl (t : Node) (c : Chunk)
    (hc : c ∈ (List.range' 1 6).flatMap (fun lvl =>
      ((elemsWithPath t).filter (fun pn => isTag ("h" ++ toString lvl) pn.2)).map
        (headingChunk lvl))) : 1 ≤ chunkLvl c ∧ chunkLvl c ≤ 6 := by
  rcases List.mem_flatMap.1 hc with ⟨lvl, hlvl, hcm⟩
  rcases List.mem_map.1 hcm with ⟨pn, _, rfl⟩
  rw [show List.range' 1 6 = [1, 2, 3, 4, 5, 6] from rfl] at hlvl
  simp only [List.mem_cons, List.not_mem_nil, or_false] at hlvl
  rcases hlvl with rfl | rfl | rfl | rfl | rfl | rfl
  · rw [chunkLvl_h1]; exact ⟨by decide, by decide⟩
  · rw [chunkLvl_h2]; exact ⟨by decide, by decide⟩
  · rw [chunkLvl_h3]; exact ⟨by decide, by decide⟩
  · rw [chunkLvl_h4]; exact ⟨by decide, by decide⟩
  · rw [chunkLvl_h5]; exact ⟨by decide, by decide⟩
  · rw [chunkLvl_h6]; exact ⟨by decide, by decide⟩

end A11y

namespace A11y

theorem heading_levels_chain (t : Node)
    (hdoc : List.Chain' (fun a b => b ≤ a + 1 ∧ a ≤ b + 1) (docHeadingLvls t)) :
    List.Chain' (fun a b : Nat => b ≤ a + 1)
      (((List.range' 1 6).flatMap (fun lvl =>
        ((elemsWithPath t).filter (fun pn => isTag ("h" ++ toString lvl) pn.2)).map
          (headingChunk lvl))).map chunkLvl) := by
  have hplus : ∀ k, k ∈ docHeadingLvls t → ∀ h, h ∈ docHeadingLvls t → k < h →
      (k + 1) ∈ docHeadingLvls t := by
    intro k hk h hh hlt
    exact walk_ivt (docHeadingLvls t) hdoc k h (k + 1) hk hh (by omega) (by omega)
  rw [show List.range' 1 6 = [1, 2, 3, 4, 5, 6] from rfl]
  simp only [List.flatMap_cons, List.flatMap_nil, List.map_append, List.map_map,
    List.map_nil]
  simp only [show (chunkLvl ∘ headingChunk 1) = (fun _ : String × Node => 1) from
      funext (fun pn => chunkLvl_h1 pn),
    show (chunkLvl ∘ headingChunk 2) = (fun _ : String × Node => 2) from
      funext (fun pn => chunkLvl_h2 pn),
    show (chunkLvl ∘ headingChunk 3) = (fun _ : String × Node => 3) from
      funext (fun pn => chunkLvl_h3 pn),
    show (chunkLvl ∘ headingChunk 4) = (fun _ : String × Node => 4) from
      funext (fun pn => chunkLvl_h4 pn),
    show (chunkLvl ∘ headingChunk 5) = (fun _ : String × Node => 5) from
      funext (fun pn => chunkLvl_h5 pn),
    show (chunkLvl ∘ headingChunk 6) = (fun _ : String × Node => 6) from
      funext (fun pn => chunkLvl_h6 pn),
    map_const_replicate]
  have R6 := grp_prepend (fun v => v ∈ docHeadingLvls t) 6
    ((elemsWithPath t).filter (fun pn => isTag ("h" ++ toString 6) pn.2)).length
    [] (by decide) (heading_presence t 6 (by decide) (by decide))
    (fun hP h hPh hlt => hplus 6 hP h hPh hlt)
    List.chain'_nil
    (by intro h hh; simp at hh)
  have R5 := grp_prepend (fun v => v ∈ docHeadingLvls t) 5
    ((elemsWithPath t).filter (fun pn => isTag ("h" ++ toString 5) pn.2)).length
    (List.replicate
      ((elemsWithPath t).filter (fun pn => isTag ("h" ++ toString 6) pn.2)).length 6 ++ [])
    (by decide) (heading_presence t 5 (by decide) (by decide))
    (fun hP h hPh hlt => hplus 5 hP h hPh hlt)
    R6.1 R6.2
  have R4 := grp_prepend (fun v => v ∈ docHeadingLvls t) 4
    ((elemsWithPath t).filter (fun pn => isTag ("h" ++ toString 4) pn.2)).length
    (List.replicate
      ((elemsWithPath t).filter (fun pn => isTag ("h" ++ toString 5) pn.2)).length 5
      ++ (List.replicate
        ((elemsWithPath t).filter (fun pn => isTag ("h" ++ toString 6) pn.2)).length 6
        ++ []))
    (by decide) (heading_presence t 4 (by decide) (by decide))
    (fun hP h hPh hlt => hplus 4 hP h hPh hlt)
    R5.1 R5.2
  have R3 := grp_prepend (fun v => v ∈ docHeadingLvls t) 3
    ((elemsWithPath t).filter (fun pn => isTag ("h" ++ toString 3) pn.2)).length
    (List.replicate
      ((elemsWithPath t).filter (fun pn => isTag ("h" ++ toString 4) pn.2)).length 4
      ++ (List.replicate
        ((elemsWithPath t).filter (fun pn => isTag ("h" ++ toString 5) pn.2)).length 5
        ++ (List.replicate
          ((elemsWithPath t).filter (fun pn => isTag ("h" ++ toString 6) pn.2)).length 6
          ++ [])))
    (by decide) (heading_presence t 3 (by decide) (by decide))
    (fun hP h hPh hlt => hplus 3 hP h hPh hlt)
    R4.1 R4.2
  have R2 := grp_prepend (fun v => v ∈ docHeadingLvls t) 2
    ((elemsWithPath t).filter (fun pn => isTag ("h" ++ toString 2) pn.2)).length
    (List.replicate
      ((elemsWithPath t).filter (fun pn => isTag ("h" ++ toString 3) pn.2)).length 3
      ++ (List.replicate
        ((elemsWithPath t).filter (fun pn => isTag ("h" ++ toString 4) pn.2)).length 4
        ++ (List.replicate
          ((elemsWithPath t).filter (fun pn => isTag ("h" ++ toString 5) pn.2)).length 5
          ++ (List.replicate
            ((elemsWithPath t).filter (fun pn => isTag ("h" ++ toString 6) pn.2)).length 6
            ++ []))))
    (by decide) (heading_presence t 2 (by decide) (by decide))
    (fun hP h hPh hlt => hplus 2 hP h hPh hlt)
    R3.1 R3.2
  have R1 := grp_prepend (fun v => v ∈ docHeadingLvls t) 1
    ((elemsWithPath t).filter (fun pn => isTag ("h" ++ toString 1) pn.2)).length
    (List.replicate
      ((elemsWithPath t).filter (fun pn => isTag ("h" ++ toString 2) pn.2)).length 2
      ++ (List.replicate
        ((elemsWithPath t).filter (fun pn => isTag ("h" ++ toString 3) pn.2)).length 3
        ++ (List.replicate
          ((elemsWithPath t).filter (fun pn => isTag ("h" ++ toString 4) pn.2)).length 4
          ++ (List.replicate
            ((elemsWithPath t).filter (fun pn => isTag ("h" ++ toString 5) pn.2)).length 5
            ++ (List.replicate
              ((elemsWithPath t).filter (fun pn => isTag ("h" ++ toString 6) pn.2)).length 6
              ++ [])))))
    (by decide) (heading_presence t 1 (by decide) (by decide))
    (fun hP h hPh hlt => hplus 1 hP h hPh hlt)
    R2.1 R2.2
  exact R1.1

end A11y

namespace A11y

/-- C1 (amended): the heading scan runs over heading chunks in chunk-list
order, which groups headings by level one to six, not in document order.
The BAD_HEADING_ORDER issues are exactly the scan output; when consecutive
document-order heading levels differ by at most one, no issue is ever
emitted; and a jump of more than one level between adjacent heading chunks
in chunk order always emits the issue with prev the earlier level and curr
the later level. -/
theorem bad_heading_order_scan (t : Node) :
    ((audit (extract_chunks t)).filter (fun i => i.kind = "BAD_HEADING_ORDER")
        = headingScanAux 0 ((extract_chunks t).filter (fun c => c.role = "heading")))
    ∧ (List.Chain' (fun a b => b ≤ a + 1 ∧ a ≤ b + 1) (docHeadingLvls t) →
        (audit (extract_chunks t)).filter (fun i => i.kind = "BAD_HEADING_ORDER") = [])
    ∧ (∀ cs1 ca cb cs2,
        (extract_chunks t).filter (fun c => c.role = "heading")
          = cs1 ++ ca :: cb :: cs2 →
        chunkLvl cb > chunkLvl ca + 1 →
        ({ kind := "BAD_HEADING_ORDER", sev := "LOW",
           details := [("prev", Val.n (chunkLvl ca)), ("curr", Val.n (chunkLvl cb))],
           chunk := cb } : Issue) ∈ audit (extract_chunks t)) := by
  refine ⟨audit_bad_filter (extract_chunks t), ?_, ?_⟩
  · intro hdoc
    rw [audit_bad_filter, extract_headFilter]
    apply scan_nil
    · intro c hc
      have h := HB_mem_lvl t c hc
      omega
    · exact heading_levels_chain t hdoc
    · intro l0 _ h0
      exact absurd rfl h0
  · intro cs1 ca cb cs2 hsplit hjump
    rw [extract_headFilter] at hsplit
    have hmca : ca ∈ (List.range' 1 6).flatMap (fun lvl =>
        ((elemsWithPath t).filter (fun pn => isTag ("h" ++ toString lvl) pn.2)).map
          (headingChunk lvl)) := by
      rw [hsplit]
      exact List.mem_append_right _ (List.mem_cons_self _ _)
    have hmcb : cb ∈ (List.range' 1 6).flatMap (fun lvl =>
        ((elemsWithPath t).filter (fun pn => isTag ("h" ++ toString lvl) pn.2)).map
          (headingChunk lvl)) := by
      rw [hsplit]
      exact List.mem_append_right _ (List.mem_cons_of_mem _ (List.mem_cons_self _ _))
    have hnzca : chunkLvl ca ≠ 0 := by
      have h := HB_mem_lvl t ca hmca
      omega
    have hnzcb : chunkLvl cb ≠ 0 := by
      have h := HB_mem_lvl t cb hmcb
      omega
    have hmem := scan_emits cs1 ca cb cs2 0 hnzca hnzcb hjump
    have hflt : (
        { kind := "BAD_HEADING_ORDER", sev := "LOW",
          details := [("prev", Val.n (chunkLvl ca)), ("curr", Val.n (chunkLvl cb))],
          chunk := cb } : Issue)
        ∈ (audit (extract_chunks t)).filter (fun i => i.kind = "BAD_HEADING_ORDER") := by
      rw [audit_bad_filter, extract_headFilter, hsplit]
      exact hmem
    exact List.mem_of_mem_filter hflt

def headDocC : Node :=
  .elem 1 "[document]" [] (.cons (.elem 2 "body" []
    (.cons (.elem 3 "h1" [] (.cons (.txt 4 "a") .nil))
      (.cons (.elem 5 "h4" [] (.cons (.txt 6 "b") .nil))
        (.cons (.elem 7 "h3" [] (.cons (.txt 8 "c") .nil))
          (.cons (.elem 9 "h2" [] (.cons (.txt 10 "d") .nil)) .nil))))) .nil)

/-- Counterexample to C1 as stated: in document order the levels run one,
four, three, two — the second heading exceeds the last parsed level by
three — yet the audit emits no BAD_HEADING_ORDER at all, because the scan
sees the chunks grouped by level as one, two, three, four. -/
theorem bad_heading_counterexample :
    docHeadingLvls headDocC = [1, 4, 3, 2]
    ∧ (audit (extract_chunks headDocC)).filter
        (fun i => i.kind = "BAD_HEADING_ORDER") = [] := by
  decide

def headDocW : Node :=
  .elem 1 "[document]" [] (.cons (.elem 2 "body" []
    (.cons (.elem 3 "h2" [] (.cons (.txt 4 "a") .nil))
      (.cons (.elem 5 "h4" [] (.cons (.txt 6 "b") .nil)) .nil))) .nil)

/-- Witness for the amended C1 at the spec's example: h2 followed by h4
yields the issue with prev two and curr four. -/
theorem bad_heading_order_scan_witness :
    ({ kind := "BAD_HEADING_ORDER", sev := "LOW",
       details := [("prev", Val.n 2), ("curr", Val.n 4)],
       chunk := headingChunk 4 ("[document]>body>h4",
         .elem 5 "h4" [] (.cons (.txt 6 "b") .nil)) } : Issue)
      ∈ audit (extract_chunks headDocW) := by
  have h := (bad_heading_order_scan headDocW).2.2 []
    (headingChunk 2 ("[document]>body>h2", .elem 3 "h2" [] (.cons (.txt 4 "a") .nil)))
    (headingChunk 4 ("[document]>body>h4", .elem 5 "h4" [] (.cons (.txt 6 "b") .nil)))
    [] (by decide) (by decide)
  exact h

end A11y

namespace A11y

/-- Content preservation: every text node and every node identity of the
first document is still present in the second. -/
def presv (t u : Node) : Prop :=
  (∀ q ∈ t.kids.textNodes, q ∈ u.kids.textNodes)
    ∧ (∀ j ∈ t.kids.nids, j ∈ u.kids.nids)

theorem presv_refl (t : Node) : presv t t := ⟨fun _ h => h, fun _ h => h⟩

theorem presv_trans {a b c : Node} (h1 : presv a b) (h2 : presv b c) : presv a c :=
  ⟨fun q hq => h2.1 q (h1.1 q hq), fun j hj => h2.2 j (h1.2 j hj)⟩

theorem textNodes_nlappend : ∀ xs ys : NodeList,
    (xs.append ys).textNodes = xs.textNodes ++ ys.textNodes
  | .nil, ys => rfl
  | .cons (.txt i s) tl, ys => by
    simp only [NodeList.append, NodeList.textNodes, textNodes_nlappend tl ys,
      List.cons_append]
  | .cons (.elem i t a cs) tl, ys => by
    simp only [NodeList.append, NodeList.textNodes, textNodes_nlappend tl ys,
      List.append_assoc]

theorem nids_nlappend : ∀ xs ys : NodeList,
    (xs.append ys).nids = xs.nids ++ ys.nids
  | .nil, ys => rfl
  | .cons (.txt i s) tl, ys => by
    simp only [NodeList.append, NodeList.nids, nids_nlappend tl ys, List.cons_append]
  | .cons (.elem i t a cs) tl, ys => by
    simp only [NodeList.append, NodeList.nids, nids_nlappend tl ys,
      List.append_assoc, List.cons_append]

theorem textNodes_cons_sub (x : Node) (kids : NodeList) :
    ∀ q ∈ kids.textNodes, q ∈ (NodeList.cons x kids).textNodes := by
  intro q hq
  cases x with
  | txt i s => exact List.mem_cons_of_mem _ hq
  | elem i t a cs => exact List.mem_append_right _ hq

theorem nids_cons_sub (x : Node) (kids : NodeList) :
    ∀ j ∈ kids.nids, j ∈ (NodeList.cons x kids).nids := by
  intro j hj
  cases x with
  | txt i s => exact List.mem_cons_of_mem _ hj
  | elem i t a cs => exact List.mem_cons_of_mem _ (List.mem_append_right _ hj)

theorem updAll_sub (p : Node → Bool) (f : Node → Edit)
    (hf : ∀ n r, (f n).repl = some r →
      (∀ q ∈ n.kids.textNodes, q ∈ r.textNodes) ∧ (∀ j ∈ n.kids.nids, j ∈ r.nids)) :
    ∀ l : NodeList,
      (∀ q ∈ l.textNodes, q ∈ (l.updAll p f).textNodes)
      ∧ (∀ j ∈ l.nids, j ∈ (l.updAll p f).nids)
  | .nil => ⟨fun _ h => h, fun _ h => h⟩
  | .cons (.txt i s) tl => by
    have ih := updAll_sub p f hf tl
    simp only [NodeList.updAll, NodeList.textNodes, NodeList.nids]
    constructor
    · intro q hq
      rcases List.mem_cons.1 hq with h | h
      · exact List.mem_cons.2 (Or.inl h)
      · exact List.mem_cons.2 (Or.inr (ih.1 q h))
    · intro j hj
      rcases List.mem_cons.1 hj with h | h
      · exact List.mem_cons.2 (Or.inl h)
      · exact List.mem_cons.2 (Or.inr (ih.2 j h))
  | .cons (.elem i t a cs) tl => by
    have ihc := updAll_sub p f hf cs
    have iht := updAll_sub p f hf tl
    simp only [NodeList.updAll]
    by_cases hp : p (.elem i t a cs) = true
    · simp only [hp, if_true]
      cases hrepl : (f (.elem i t a cs)).repl with
      | some r =>
        simp only [hrepl, NodeList.textNodes, NodeList.nids]
        constructor
        · intro q hq
          rcases List.mem_append.1 hq with h | h
          · exact List.mem_append_left _ ((hf _ r hrepl).1 q h)
          · exact List.mem_append_right _ (iht.1 q h)
        · intro j hj
          rcases List.mem_cons.1 hj with h | h
          · exact List.mem_cons.2 (Or.inl h)
          · rcases List.mem_append.1 h with h2 | h2
            · exact List.mem_cons.2
                (Or.inr (List.mem_append_left _ ((hf _ r hrepl).2 j h2)))
            · exact List.mem_cons.2
                (Or.inr (List.mem_append_right _ (iht.2 j h2)))
      | none =>
        simp only [hrepl, NodeList.textNodes, NodeList.nids]
        constructor
        · intro q hq
          rcases List.mem_append.1 hq with h | h
          · exact List.mem_append_left _ (ihc.1 q h)
          · exact List.mem_append_right _ (iht.1 q h)
        · intro j hj
          rcases List.mem_cons.1 hj with h | h
          · exact List.mem_cons.2 (Or.inl h)
          · rcases List.mem_append.1 h with h2 | h2
            · exact List.mem_cons.2 (Or.inr (List.mem_append_left _ (ihc.2 j h2)))
            · exact List.mem_cons.2 (Or.inr (List.mem_append_right _ (iht.2 j h2)))
    · have hp2 : p (.elem i t a cs) = false := by simpa using hp
      simp only [hp2, Bool.false_eq_true, if_false, NodeList.textNodes, NodeList.nids]
      constructor
      · intro q hq
        rcases List.mem_append.1 hq with h | h
        · exact List.mem_append_left _ (ihc.1 q h)
        · exact List.mem_append_right _ (iht.1 q h)
      · intro j hj
        rcases List.mem_cons.1 hj with h | h
        · exact List.mem_cons.2 (Or.inl h)
        · rcases List.mem_append.1 h with h2 | h2
          · exact List.mem_cons.2 (Or.inr (List.mem_append_left _ (ihc.2 j h2)))
          · exact List.mem_cons.2 (Or.inr (List.mem_append_right _ (iht.2 j h2)))

end A11y

namespace A11y

theorem updFirst_sub (p : Node → Bool) (f : Node → Edit)
    (hf : ∀ n r, (f n).repl = some r →
      (∀ q ∈ n.kids.textNodes, q ∈ r.textNodes) ∧ (∀ j ∈ n.kids.nids, j ∈ r.nids)) :
    ∀ l : NodeList,
      (∀ q ∈ l.textNodes, q ∈ (l.updFirst p f).1.textNodes)
      ∧ (∀ j ∈ l.nids, j ∈ (l.updFirst p f).1.nids)
  | .nil => ⟨fun _ h => h, fun _ h => h⟩
  | .cons (.txt i s) tl => by
    have ih := updFirst_sub p f hf tl
    simp only [NodeList.updFirst, NodeList.textNodes, NodeList.nids]
    constructor
    · intro q hq
      rcases List.mem_cons.1 hq with h | h
      · exact List.mem_cons.2 (Or.inl h)
      · exact List.mem_cons.2 (Or.inr (ih.1 q h))
    · intro j hj
      rcases List.mem_cons.1 hj with h | h
      · exact List.mem_cons.2 (Or.inl h)
      · exact List.mem_cons.2 (Or.inr (ih.2 j h))
  | .cons (.elem i t a cs) tl => by
    have ihc := updFirst_sub p f hf cs
    have iht := updFirst_sub p f hf tl
    by_cases hp : p (.elem i t a cs) = true
    · rw [updFirst_cons_match p f i t a cs tl hp]
      dsimp only
      cases hrepl : (f (.elem i t a cs)).repl with
      | some r =>
        have happ : applyEdit f (.elem i t a cs)
            = .elem i (f (.elem i t a cs)).tag (f (.elem i t a cs)).attrs r := by
          simp [applyEdit, Node.tag, Node.attrs, hrepl]
        rw [happ]
        simp only [NodeList.textNodes, NodeList.nids]
        constructor
        · intro q hq
          rcases List.mem_append.1 hq with h | h
          · exact List.mem_append_left _ ((hf _ r hrepl).1 q h)
          · exact List.mem_append_right _ h
        · intro j hj
          rcases List.mem_cons.1 hj with h | h
          · exact List.mem_cons.2 (Or.inl h)
          · rcases List.mem_append.1 h with h2 | h2
            · exact List.mem_cons.2
                (Or.inr (List.mem_append_left _ ((hf _ r hrepl).2 j h2)))
            · exact List.mem_cons.2 (Or.inr (List.mem_append_right _ h2))
      | none =>
        have happ : applyEdit f (.elem i t a cs)
            = .elem i (f (.elem i t a cs)).tag (f (.elem i t a cs)).attrs cs := by
          simp [applyEdit, Node.tag, Node.attrs, hrepl]
        rw [happ]
        simp only [NodeList.textNodes, NodeList.nids]
        exact ⟨fun q hq => hq, fun j hj => hj⟩
    · have hp2 : p (.elem i t a cs) = false := by simpa using hp
      cases hfd : (cs.updFirst p f).2 with
      | true =>
        rw [updFirst_cons_cs p f i t a cs tl hp2 hfd]
        dsimp only
        simp only [NodeList.textNodes, NodeList.nids]
        constructor
        · intro q hq
          rcases List.mem_append.1 hq with h | h
          · exact List.mem_append_left _ (ihc.1 q h)
          · exact List.mem_append_right _ h
        · intro j hj
          rcases List.mem_cons.1 hj with h | h
          · exact List.mem_cons.2 (Or.inl h)
          · rcases List.mem_append.1 h with h2 | h2
            · exact List.mem_cons.2 (Or.inr (List.mem_append_left _ (ihc.2 j h2)))
            · exact List.mem_cons.2 (Or.inr (List.mem_append_right _ h2))
      | false =>
        rw [updFirst_cons_tl p f i t a cs tl hp2 hfd]
        dsimp only
        simp only [NodeList.textNodes, NodeList.nids]
        constructor
        · intro q hq
          rcases List.mem_append.1 hq with h | h
          · exact List.mem_append_left _ h
          · exact List.mem_append_right _ (iht.1 q h)
        · intro j hj
          rcases List.mem_cons.1 hj with h | h
          · exact List.mem_cons.2 (Or.inl h)
          · rcases List.mem_append.1 h with h2 | h2
            · exact List.mem_cons.2 (Or.inr (List.mem_append_left _ h2))
            · exact List.mem_cons.2 (Or.inr (List.mem_append_right _ (iht.2 j h2)))

theorem spliceFirst_sub (q0 : Node → Bool) (g : Node → List Node)
    (hg : ∀ n, q0 n = true →
      (∀ x ∈ (NodeList.cons n NodeList.nil).textNodes,
        x ∈ (NodeList.ofList (g n)).textNodes)
      ∧ (∀ j ∈ (NodeList.cons n NodeList.nil).nids, j ∈ (NodeList.ofList (g n)).nids)) :
    ∀ l : NodeList,
      (∀ x ∈ l.textNodes, x ∈ (l.spliceFirst q0 g).1.textNodes)
      ∧ (∀ j ∈ l.nids, j ∈ (l.spliceFirst q0 g).1.nids)
  | .nil => ⟨fun _ h => h, fun _ h => h⟩
  | .cons (.txt i s) tl => by
    have ih := spliceFirst_sub q0 g hg tl
    rw [spliceFirst_cons_txt q0 g i s tl]
    dsimp only
    simp only [NodeList.textNodes, NodeList.nids]
    constructor
    · intro x hx
      rcases List.mem_cons.1 hx with h | h
      · exact List.mem_cons.2 (Or.inl h)
      · exact List.mem_cons.2 (Or.inr (ih.1 x h))
    · intro j hj
      rcases List.mem_cons.1 hj with h | h
      · exact List.mem_cons.2 (Or.inl h)
      · exact List.mem_cons.2 (Or.inr (ih.2 j h))
  | .cons (.elem i t a cs) tl => by
    have ihc := spliceFirst_sub q0 g hg cs
    have iht := spliceFirst_sub q0 g hg tl
    by_cases hq : q0 (.elem i t a cs) = true
    · rw [spliceFirst_cons_match q0 g i t a cs tl hq]
      dsimp only
      rw [textNodes_nlappend, nids_nlappend]
      simp only [NodeList.textNodes, NodeList.nids]
      constructor
      · intro x hx
        rcases List.mem_append.1 hx with h | h
        · refine List.mem_append_left _ ((hg _ hq).1 x ?_)
          simp only [NodeList.textNodes]
          exact List.mem_append_left _ h
        · exact List.mem_append_right _ h
      · intro j hj
        rcases List.mem_cons.1 hj with h | h
        · refine List.mem_append_left _ ((hg _ hq).2 j ?_)
          simp only [NodeList.nids]
          exact List.mem_cons.2 (Or.inl h)
        · rcases List.mem_append.1 h with h2 | h2
          · refine List.mem_append_left _ ((hg _ hq).2 j ?_)
            simp only [NodeList.nids]
            exact List.mem_cons.2 (Or.inr (List.mem_append_left _ h2))
          · exact List.mem_append_right _ h2
    · have hq2 : q0 (.elem i t a cs) = false := by simpa using hq
      cases hfd : (cs.spliceFirst q0 g).2 with
      | true =>
        rw [spliceFirst_cons_cs q0 g i t a cs tl hq2 hfd]
        dsimp only
        simp only [NodeList.textNodes, NodeList.nids]
        constructor
        · intro x hx
          rcases List.mem_append.1 hx with h | h
          · exact List.mem_append_left _ (ihc.1 x h)
          · exact List.mem_append_right _ h
        · intro j hj
          rcases List.mem_cons.1 hj with h | h
          · exact List.mem_cons.2 (Or.inl h)
          · rcases List.mem_append.1 h with h2 | h2
            · exact List.mem_cons.2 (Or.inr (List.mem_append_left _ (ihc.2 j h2)))
            · exact List.mem_cons.2 (Or.inr (List.mem_append_right _ h2))
      | false =>
        rw [spliceFirst_cons_tl q0 g i t a cs tl hq2 hfd]
        dsimp only
        simp only [NodeList.textNodes, NodeList.nids]
        constructor
        · intro x hx
          rcases List.mem_append.1 hx with h | h
          · exact List.mem_append_left _ h
          · exact List.mem_append_right _ (iht.1 x h)
        · intro j hj
          rcases List.mem_cons.1 hj with h | h
          · exact List.mem_cons.2 (Or.inl h)
          · rcases List.mem_append.1 h with h2 | h2
            · exact List.mem_cons.2 (Or.inr (List.mem_append_left _ h2))
            · exact List.mem_cons.2 (Or.inr (List.mem_append_right _ (iht.2 j h2)))

end A11y

namespace A11y

theorem hf_of_none (f : Node → Edit) (h : ∀ n, (f n).repl = none) :
    ∀ n r, (f n).repl = some r →
      (∀ q ∈ n.kids.textNodes, q ∈ r.textNodes) ∧ (∀ j ∈ n.kids.nids, j ∈ r.nids) := by
  intro n r hr
  rw [h n] at hr
  exact absurd hr (by simp)

theorem presv_updAll (p : Node → Bool) (f : Node → Edit)
    (hf : ∀ n r, (f n).repl = some r →
      (∀ q ∈ n.kids.textNodes, q ∈ r.textNodes) ∧ (∀ j ∈ n.kids.nids, j ∈ r.nids))
    (t : Node) : presv t (updAll p f t) := by
  cases t with
  | txt i s => exact presv_refl _
  | elem i tg a cs => exact ⟨(updAll_sub p f hf cs).1, (updAll_sub p f hf cs).2⟩

theorem presv_updFirst (p : Node → Bool) (f : Node → Edit)
    (hf : ∀ n r, (f n).repl = some r →
      (∀ q ∈ n.kids.textNodes, q ∈ r.textNodes) ∧ (∀ j ∈ n.kids.nids, j ∈ r.nids))
    (t : Node) : presv t (updFirst p f t) := by
  cases t with
  | txt i s => exact presv_refl _
  | elem i tg a cs => exact ⟨(updFirst_sub p f hf cs).1, (updFirst_sub p f hf cs).2⟩

theorem presv_insertRootFront (x t : Node) : presv t (insertRootFront x t) := by
  cases t with
  | txt i s => exact presv_refl _
  | elem i tg a cs =>
    exact ⟨fun q hq => textNodes_cons_sub x cs q hq, fun j hj => nids_cons_sub x cs j hj⟩

theorem presv_appendRoot (x t : Node) : presv t (appendRoot x t) := by
  cases t with
  | txt i s => exact presv_refl _
  | elem i tg a cs =>
    constructor
    · intro q hq
      show q ∈ (cs.append (.cons x .nil)).textNodes
      rw [textNodes_nlappend]
      exact List.mem_append_left _ hq
    · intro j hj
      show j ∈ (cs.append (.cons x .nil)).nids
      rw [nids_nlappend]
      exact List.mem_append_left _ hj

theorem presv_insertFrontOfFirst (p : Node → Bool) (x t : Node) :
    presv t (insertFrontOfFirst p x t) := by
  apply presv_updFirst
  intro n r hr
  simp only at hr
  injection hr with hr2
  subst hr2
  exact ⟨fun q hq => textNodes_cons_sub x n.kids q hq,
    fun j hj => nids_cons_sub x n.kids j hj⟩

theorem presv_appendToFirst (p : Node → Bool) (x t : Node) :
    presv t (appendToFirst p x t) := by
  apply presv_updFirst
  intro n r hr
  simp only at hr
  injection hr with hr2
  subst hr2
  constructor
  · intro q hq
    rw [textNodes_nlappend]
    exact List.mem_append_left _ hq
  · intro j hj
    rw [nids_nlappend]
    exact List.mem_append_left _ hj

theorem presv_ensureHeadHtml (t : Node) : presv t (ensureHeadHtml t) := by
  unfold ensureHeadHtml
  split
  · dsimp only
    split
    · exact presv_refl t
    · exact presv_insertRootFront _ t
  · dsimp only
    split
    · exact presv_insertRootFront _ t
    · exact presv_trans (presv_insertRootFront _ t) (presv_insertRootFront _ _)

theorem presv_ensureBody (t : Node) : presv t (ensureBody t) := by
  unfold ensureBody
  split
  · exact presv_refl t
  · exact presv_appendRoot _ t

theorem presv_fixDocIssue (t : Node) (iss : Issue) : presv t (fixDocIssue t iss) := by
  have h1 : presv t (ensureHeadHtml t) := presv_ensureHeadHtml t
  have h2 : presv t (ensureBody (ensureHeadHtml t)) :=
    presv_trans h1 (presv_ensureBody _)
  unfold fixDocIssue
  split
  · dsimp only
    split
    · split
      · exact h1
      · exact presv_trans h1 (presv_appendToFirst _ _ _)
    · exact h1
  · split
    · dsimp only
      split
      · split
        · exact h1
        · exact presv_trans h1 (presv_appendToFirst _ _ _)
      · exact h1
    · split
      · dsimp only
        split
        · split
          · exact h1
          · exact presv_trans h1 (presv_appendToFirst _ _ _)
        · exact h1
      · split
        · dsimp only
          split
          · split
            · exact h1
            · exact presv_trans h1 (presv_updFirst _ _ (hf_of_none _ (fun n => rfl)) _)
          · exact h1
        · split
          · dsimp only
            split
            · split
              · exact h2
              · exact presv_trans h2 (presv_insertFrontOfFirst _ _ _)
            · exact h2
          · split
            · dsimp only
              split
              · split
                · split
                  · refine presv_trans h2 (presv_updFirst _ _ ?_ _)
                    intro n r hr
                    simp only at hr
                    injection hr with hr2
                    subst hr2
                    have hsub := spliceFirst_sub (isTag "div")
                      (fun dd => [Node.elem 0 "main" [("id", Val.s "main")]
                        (.cons dd .nil)]) ?_ n.kids
                    · exact ⟨hsub.1, hsub.2⟩
                    · intro m _
                      simp only [NodeList.ofList, NodeList.textNodes, NodeList.nids]
                      constructor
                      · intro x hx
                        exact List.mem_append_left _ hx
                      · intro j hj
                        exact List.mem_cons.2 (Or.inr (List.mem_append_left _ hj))
                  · exact presv_trans h2 (presv_insertFrontOfFirst _ _ _)
                · exact h2
              · split
                · exact presv_trans h2 (presv_insertFrontOfFirst _ _ _)
                · exact h2
            · exact h1

end A11y

namespace A11y

theorem presv_fixMissingAlt (cfg : Cfg) (t : Node) (iss : Issue) :
    presv t (fixMissingAlt cfg t iss) := by
  unfold fixMissingAlt
  exact presv_updAll _ _ (hf_of_none _ (fun n => rfl)) t

theorem presv_fixBadHeading (t : Node) (iss : Issue) :
    presv t (fixBadHeading t iss) := by
  unfold fixBadHeading
  dsimp only
  split
  · exact presv_updFirst _ _ (hf_of_none _ (fun n => rfl)) t
  · exact presv_refl t

theorem presv_fixBlank (t : Node) (iss : Issue) : presv t (fixBlank t iss) := by
  unfold fixBlank
  exact presv_updFirst _ _ (hf_of_none _ (fun n => rfl)) t

theorem presv_fixIframe (t : Node) : presv t (fixIframe t) := by
  unfold fixIframe
  exact presv_updAll _ _ (hf_of_none _ (fun n => rfl)) t

theorem presv_fixSvg (t : Node) : presv t (fixSvg t) := by
  unfold fixSvg
  refine presv_updAll _ _ (hf_of_none _ ?_) t
  intro n
  dsimp only
  split <;> rfl

theorem presv_injectBase (u : String) (t : Node) : presv t (injectBase u t) := by
  unfold injectBase
  split
  · split
    · exact presv_refl t
    · exact presv_insertFrontOfFirst _ _ t
  · exact presv_refl t

theorem normA_repl_none (u : String) : ∀ n, (normA u n).repl = none := by
  intro n
  unfold normA
  split
  · split <;> rfl
  · rfl

theorem presv_normalize_urls (t : Node) (u : String) : presv t (normalize_urls t u) := by
  unfold normalize_urls
  refine presv_trans (presv_injectBase u t) ?_
  refine presv_trans
    (presv_updAll (isTag "img") (normImg u)
      (hf_of_none _ (fun n => rfl)) (injectBase u t)) ?_
  exact presv_updAll (isTag "a") (normA u)
    (hf_of_none _ (normA_repl_none u)) _

set_option maxHeartbeats 1000000 in
theorem presv_fixStep (cfg : Cfg) (t : Node) (iss : Issue)
    (h1 : iss.kind ≠ "POOR_LINK_TEXT") (h2 : iss.kind ≠ "LINK_NO_NAME")
    (h3 : iss.kind ≠ "CONTROL_NO_LABEL") (h4 : iss.kind ≠ "A_ACTS_BUTTON") :
    presv t (fixStep cfg t iss) := by
  unfold fixStep
  dsimp only
  split
  · exact presv_fixMissingAlt cfg t iss
  · split
    · exact presv_fixBadHeading t iss
    · split
      · rename_i hc
        exact absurd hc.1 h1
      · split
        · rename_i hc
          exact (h2 hc.1).elim
        · split
          · exact presv_fixBlank t iss
          · split
            · rename_i hc
              exact absurd hc.1 h3
            · split
              · exact presv_fixIframe t
              · split
                · exact presv_fixSvg t
                · split
                  · rename_i hc
                    exact absurd hc.1 h4
                  · split
                    · exact presv_fixDocIssue t iss
                    · exact presv_refl t

theorem presv_foldl (cfg : Cfg) :
    ∀ (issues : List Issue) (t : Node),
      (∀ i ∈ issues, i.kind ≠ "POOR_LINK_TEXT" ∧ i.kind ≠ "LINK_NO_NAME"
        ∧ i.kind ≠ "CONTROL_NO_LABEL" ∧ i.kind ≠ "A_ACTS_BUTTON") →
      presv t (issues.foldl (fixStep cfg) t)
  | [], t, _ => presv_refl t
  | i :: rest, t, h => by
    rw [List.foldl_cons]
    have hi := h i (List.mem_cons_self i rest)
    exact presv_trans (presv_fixStep cfg t i hi.1 hi.2.1 hi.2.2.1 hi.2.2.2)
      (presv_foldl cfg rest _ (fun x hx => h x (List.mem_cons_of_mem i hx)))

/-- C2 (amended): remediation preserves every text node and every node
identity of the document for issue lists that avoid the four relabeling
kinds POOR_LINK_TEXT, LINK_NO_NAME, CONTROL_NO_LABEL and A_ACTS_BUTTON;
those four may replace a flagged element's entire children with a fresh
label. -/
theorem remediation_preserves_content (cfg : Cfg) (t : Node) (issues : List Issue)
    (page_url : String)
    (hk : ∀ i ∈ issues, i.kind ≠ "POOR_LINK_TEXT" ∧ i.kind ≠ "LINK_NO_NAME"
      ∧ i.kind ≠ "CONTROL_NO_LABEL" ∧ i.kind ≠ "A_ACTS_BUTTON") :
    presv t (apply_fixes cfg t issues page_url) := by
  unfold apply_fixes
  dsimp only
  split
  · exact presv_trans (presv_foldl cfg issues t hk) (presv_normalize_urls _ _)
  · exact presv_foldl cfg issues t hk

def poorDocC : Node :=
  .elem 1 "[document]" [] (.cons (.elem 2 "body" []
    (.cons (.elem 3 "a" [("href", .s "u")] (.cons (.txt 4 "click here") .nil)) .nil)) .nil)

set_option maxRecDepth 40000 in
/-- Counterexample to C2 as stated: remediating the audit's own issues for
a document with a vague link destroys the link's original text node — the
POOR_LINK_TEXT branch assigns a.string, replacing the content. -/
theorem remediation_removes_content_counterexample :
    (4, "click here") ∈ poorDocC.kids.textNodes
    ∧ (4, "click here") ∉ (apply_fixes cfg0 poorDocC
        (audit (extract_chunks poorDocC)) "").kids.textNodes := by
  decide

/-- Witness for the amended C2: an untitled-iframe issue is remediated and
the document's text node and identities survive. -/
theorem remediation_preserves_content_witness :
    (4, "x") ∈ (apply_fixes cfg0
      (.elem 1 "[document]" [] (.cons (.elem 2 "body" []
        (.cons (.elem 3 "iframe" [] (.cons (.txt 4 "x") .nil)) .nil)) .nil))
      [{ kind := "IFRAME_NO_TITLE", sev := "LOW", details := [],
         chunk := { role := "iframe", path := "", text := "", attrs := [] } }]
      "").kids.textNodes
    ∧ 3 ∈ (apply_fixes cfg0
      (.elem 1 "[document]" [] (.cons (.elem 2 "body" []
        (.cons (.elem 3 "iframe" [] (.cons (.txt 4 "x") .nil)) .nil)) .nil))
      [{ kind := "IFRAME_NO_TITLE", sev := "LOW", details := [],
         chunk := { role := "iframe", path := "", text := "", attrs := [] } }]
      "").kids.nids := by
  have h := remediation_preserves_content cfg0
    (.elem 1 "[document]" [] (.cons (.elem 2 "body" []
      (.cons (.elem 3 "iframe" [] (.cons (.txt 4 "x") .nil)) .nil)) .nil))
    [{ kind := "IFRAME_NO_TITLE", sev := "LOW", details := [],
       chunk := { role := "iframe", path := "", text := "", attrs := [] } }]
    "" (by decide)
  exact ⟨h.1 (4, "x") (by decide), h.2 3 (by decide)⟩

end A11y

namespace A11y

theorem splitNetlocAux_chars : ∀ l : List Char,
    ∀ c ∈ (splitNetlocAux l).1, ¬(c = '/' ∨ c = '?' ∨ c = '#')
  | [], c, hc => absurd hc (List.not_mem_nil c)
  | x :: xs, c, hc => by
    unfold splitNetlocAux at hc
    split at hc
    · exact absurd hc (List.not_mem_nil c)
    · rename_i hx
      rcases List.mem_cons.1 hc with rfl | h2
      · exact hx
      · exact splitNetlocAux_chars xs c h2

theorem splitNetlocAux_app (nl rest : List Char)
    (hnl : ∀ c ∈ nl, ¬(c = '/' ∨ c = '?' ∨ c = '#'))
    (hrest : rest = [] ∨ (rest.headD ' ' = '/' ∨ rest.headD ' ' = '?'
      ∨ rest.headD ' ' = '#')) :
    splitNetlocAux (nl ++ rest) = (nl, rest) := by
  induction nl with
  | nil =>
    rcases hrest with rfl | hh
    · rfl
    · cases rest with
      | nil => rfl
      | cons y ys =>
        simp only [List.headD_cons] at hh
        simp only [List.nil_append]
        unfold splitNetlocAux
        rw [if_pos hh]
  | cons x xs ih =>
    have hx := hnl x (List.mem_cons_self x xs)
    simp only [List.cons_append]
    unfold splitNetlocAux
    rw [if_neg hx, ih (fun c hc => hnl c (List.mem_cons_of_mem x hc))]

theorem splitFirstChar_none (c : Char) :
    ∀ l : List Char, c ∉ l → splitFirstChar c l = none := by
  intro l
  induction l with
  | nil => intro _; rfl
  | cons x xs ih =>
    intro h
    unfold splitFirstChar
    rw [if_neg, ih, Option.map_none']
    · exact fun hx => h (List.mem_cons_of_mem x hx)
    · intro hx
      exact h (by rw [hx]; exact List.mem_cons_self c xs)

theorem splitFirstChar_app (c : Char) :
    ∀ xs ys : List Char, c ∉ xs → splitFirstChar c (xs ++ c :: ys) = some (xs, ys) := by
  intro xs
  induction xs with
  | nil => intro ys _; simp [splitFirstChar]
  | cons x xs ih =>
    intro ys h
    simp only [List.cons_append]
    unfold splitFirstChar
    rw [if_neg, ih ys, Option.map_some']
    · exact fun hx => h (List.mem_cons_of_mem x hx)
    · intro hx
      exact h (by rw [hx]; exact List.mem_cons_self c xs)

theorem splitFirstChar_parts (c : Char) :
    ∀ l a b, splitFirstChar c l = some (a, b) → l = a ++ c :: b ∧ c ∉ a := by
  intro l
  induction l with
  | nil => intro a b h; simp [splitFirstChar] at h
  | cons x xs ih =>
    intro a b h
    unfold splitFirstChar at h
    split at h
    · rename_i hx
      subst hx
      simp only [Option.some.injEq, Prod.mk.injEq] at h
      rw [← h.1, ← h.2]
      exact ⟨rfl, List.not_mem_nil x⟩
    · rename_i hx
      cases hsp : splitFirstChar c xs with
      | none => rw [hsp] at h; simp at h
      | some p =>
        rw [hsp] at h
        simp only [Option.map_some', Option.some.injEq, Prod.mk.injEq] at h
        obtain ⟨hp, hc⟩ := ih p.1 p.2 (by rw [hsp])
        rw [← h.1, ← h.2]
        constructor
        · simp [hp]
        · intro hmem
          rcases List.mem_cons.1 hmem with rfl | h2
          · exact hx rfl
          · exact hc h2

theorem findIdx_go_app (p : Char → Bool) :
    ∀ (xs rest : List Char) (y : Char) (i : Nat), (∀ x ∈ xs, p x = false) →
      p y = true → List.findIdx? p (xs ++ y :: rest) i = some (i + xs.length) := by
  intro xs
  induction xs with
  | nil => intro rest y i _ hy; simp [List.findIdx?_cons, hy]
  | cons x xs ih =>
    intro rest y i h hy
    simp only [List.cons_append, List.findIdx?_cons, h x (List.mem_cons_self x xs),
      cond_false]
    rw [ih rest y (i + 1) (fun z hz => h z (List.mem_cons_of_mem x hz)) hy]
    show some (i + 1 + xs.length) = some (i + (x :: xs).length)
    simp only [List.length_cons, Option.some.injEq]
    omega

theorem findIdx_app_true (p : Char → Bool) (xs rest : List Char) (y : Char)
    (h : ∀ x ∈ xs, p x = false) (hy : p y = true) :
    (xs ++ y :: rest).findIdx? p = some xs.length := by
  have := findIdx_go_app p xs rest y 0 h hy
  simpa using this

theorem mem_splitNetlocAux_fst : ∀ l : List Char, ∀ c ∈ (splitNetlocAux l).1, c ∈ l
  | [], c, hc => absurd hc (List.not_mem_nil c)
  | x :: xs, c, hc => by
    unfold splitNetlocAux at hc
    split at hc
    · exact absurd hc (List.not_mem_nil c)
    · rcases List.mem_cons.1 hc with rfl | h2
      · exact List.mem_cons_self c xs
      · exact List.mem_cons_of_mem x (mem_splitNetlocAux_fst xs c h2)

theorem mem_splitNetlocAux_snd : ∀ l : List Char, ∀ c ∈ (splitNetlocAux l).2, c ∈ l
  | [], c, hc => absurd hc (List.not_mem_nil c)
  | x :: xs, c, hc => by
    unfold splitNetlocAux at hc
    split at hc
    · exact hc
    · exact List.mem_cons_of_mem x (mem_splitNetlocAux_snd xs c hc)

theorem uint32_le_iff (a b : UInt32) : (a ≤ b) ↔ a.toNat ≤ b.toNat := Iff.rfl

theorem toNat_ofNat_valid (n : Nat) (h : Nat.isValidChar n) :
    (Char.ofNat n).toNat = n := by
  unfold Char.ofNat
  rw [dif_pos h]
  rfl

theorem isAlpha_iff (c : Char) : c.isAlpha = true ↔
    (65 ≤ c.toNat ∧ c.toNat ≤ 90) ∨ (97 ≤ c.toNat ∧ c.toNat ≤ 122) := by
  unfold Char.isAlpha Char.isUpper Char.isLower
  simp only [Bool.or_eq_true, Bool.and_eq_true, decide_eq_true_eq, ge_iff_le]
  rw [uint32_le_iff, uint32_le_iff, uint32_le_iff, uint32_le_iff]
  show (65 ≤ c.toNat ∧ c.toNat ≤ 90) ∨ (97 ≤ c.toNat ∧ c.toNat ≤ 122) ↔ _
  rfl

theorem toLower_isAlpha (c : Char) (h : c.isAlpha = true) :
    c.toLower.isAlpha = true := by
  unfold Char.toLower
  show (if c.toNat ≥ 65 ∧ c.toNat ≤ 90 then Char.ofNat (c.toNat + 32)
    else c).isAlpha = true
  split
  · rename_i hc
    have hv : Nat.isValidChar (c.toNat + 32) := by left; omega
    rw [isAlpha_iff, toNat_ofNat_valid (c.toNat + 32) hv]
    right
    omega
  · exact h

theorem char_eq_iff_toNat (c d : Char) : c = d ↔ c.toNat = d.toNat := by
  constructor
  · intro h
    rw [h]
  · intro h
    exact Char.ext (UInt32.ext h)

theorem toLower_not_unsafe (c : Char) (h : isUnsafeUrlByte c = false) :
    isUnsafeUrlByte c.toLower = false := by
  unfold Char.toLower
  show isUnsafeUrlByte (if c.toNat ≥ 65 ∧ c.toNat ≤ 90
    then Char.ofNat (c.toNat + 32) else c) = false
  split
  · rename_i hc
    have hv : Nat.isValidChar (c.toNat + 32) := by left; omega
    have ht := toNat_ofNat_valid (c.toNat + 32) hv
    unfold isUnsafeUrlByte
    simp only [decide_eq_false_iff_not, not_or]
    rw [char_eq_iff_toNat, char_eq_iff_toNat, char_eq_iff_toNat, ht]
    have h9 : ('\t').toNat = 9 := rfl
    have h13 : ('\r').toNat = 13 := rfl
    have h10 : ('\n').toNat = 10 := rfl
    refine ⟨?_, ?_, ?_⟩
    · rw [h9]; omega
    · rw [h13]; omega
    · rw [h10]; omega
  · exact h

theorem isAlpha_not_c0 (c : Char) (h : c.isAlpha = true) :
    isC0OrSpace c = false := by
  rw [isAlpha_iff] at h
  unfold isC0OrSpace
  simp only [decide_eq_false_iff_not]
  omega

theorem schemeChars_toLower_mem : ∀ c ∈ schemeChars, Char.toLower c ∈ schemeChars := by
  decide

theorem schemeChars_toLower_idem :
    ∀ c ∈ schemeChars, Char.toLower (Char.toLower c) = Char.toLower c := by
  decide

theorem schemeChars_props : ∀ c ∈ schemeChars, isUnsafeUrlByte c = false
    ∧ ¬ c = ':' ∧ ¬ c = '/' ∧ ¬ c = '?' ∧ ¬ c = '#' := by
  decide

theorem splitFirstChar_eq_none (c : Char) :
    ∀ l : List Char, splitFirstChar c l = none → c ∉ l := by
  intro l
  induction l with
  | nil => intro _ h; exact List.not_mem_nil c h
  | cons x xs ih =>
    intro h hmem
    unfold splitFirstChar at h
    split at h
    · exact absurd h (by simp)
    · rename_i hx
      cases hsp : splitFirstChar c xs with
      | none =>
        rcases List.mem_cons.1 hmem with rfl | h2
        · exact hx rfl
        · exact ih hsp h2
      | some p => rw [hsp] at h; simp at h

theorem mem_url1_not_unsafe (url0 : List Char) (c : Char)
    (h : c ∈ (url0.dropWhile isC0OrSpace).filter (fun c => ¬ isUnsafeUrlByte c)) :
    isUnsafeUrlByte c = false := by
  have := (List.mem_filter.1 h).2
  simpa using this

/-- The component invariants of every successful urlsplit: the netloc is
free of the three delimiters and bracket-consistent, path and query are
free of the separators that were split off, and all components except the
scheme carry no unsafe bytes. -/
theorem urlsplit_inv (url ds : List Char) (r : UrlSplit)
    (h : urlsplitE url ds = .ok r) :
    (∀ c ∈ r.netloc, ¬(c = '/' ∨ c = '?' ∨ c = '#'))
    ∧ ¬((r.netloc.contains '[' ∧ ¬ r.netloc.contains ']')
        ∨ (r.netloc.contains ']' ∧ ¬ r.netloc.contains '['))
    ∧ (∀ c ∈ r.path, ¬ c = '#' ∧ ¬ c = '?')
    ∧ (∀ c ∈ r.query, ¬ c = '#')
    ∧ (∀ c ∈ r.netloc, isUnsafeUrlByte c = false)
    ∧ (∀ c ∈ r.path, isUnsafeUrlByte c = false)
    ∧ (∀ c ∈ r.query, isUnsafeUrlByte c = false)
    ∧ (∀ c ∈ r.fragment, isUnsafeUrlByte c = false) := by
  unfold urlsplitE at h
  dsimp only at h
  set url1 := (url.dropWhile isC0OrSpace).filter (fun c => ¬ isUnsafeUrlByte c) with hurl1
  set sp := (match url1.findIdx? (fun c => c = ':') with
    | some i =>
      if 0 < i ∧ (url1.headD ' ').isAlpha
          ∧ (url1.take i).all (fun c => schemeChars.contains c) then
        ((url1.take i).map Char.toLower, url1.drop (i + 1))
      else (((((ds.dropWhile isC0OrSpace).reverse.dropWhile
          isC0OrSpace).reverse).filter (fun c => ¬ isUnsafeUrlByte c)), url1)
    | none => (((((ds.dropWhile isC0OrSpace).reverse.dropWhile
          isC0OrSpace).reverse).filter (fun c => ¬ isUnsafeUrlByte c)), url1)) with hsp
  have hsp2 : ∀ c ∈ sp.2, c ∈ url1 := by
    rw [hsp]
    intro c hc
    rcases hfi : url1.findIdx? (fun c => c = ':') with _ | i
    · rw [hfi] at hc
      exact hc
    · rw [hfi] at hc
      dsimp only at hc
      split at hc
      · exact List.mem_of_mem_drop hc
      · exact hc
  set nr := (if sp.2.take 2 = ['/', '/'] then splitNetlocAux (sp.2.drop 2)
    else ([], sp.2)) with hnr
  have hnl1 : ∀ c ∈ nr.1, ¬(c = '/' ∨ c = '?' ∨ c = '#') := by
    rw [hnr]
    split
    · exact splitNetlocAux_chars _
    · intro c hc
      exact absurd hc (List.not_mem_nil c)
  have hnl2 : ∀ c ∈ nr.1, c ∈ url1 := by
    rw [hnr]
    split
    · intro c hc
      exact hsp2 c (List.mem_of_mem_drop (mem_splitNetlocAux_fst _ c hc))
    · intro c hc
      exact absurd hc (List.not_mem_nil c)
  have hrest : ∀ c ∈ nr.2, c ∈ url1 := by
    rw [hnr]
    split
    · intro c hc
      exact hsp2 c (List.mem_of_mem_drop (mem_splitNetlocAux_snd _ c hc))
    · intro c hc
      exact hsp2 c hc
  set fr := (match splitFirstChar '#' nr.2 with
    | some p => p
    | none => (nr.2, [])) with hfr
  have hfr1 : (∀ c ∈ fr.1, c ∈ nr.2 ∧ ¬ c = '#') ∧ ∀ c ∈ fr.2, c ∈ nr.2 := by
    rw [hfr]
    rcases hf : splitFirstChar '#' nr.2 with _ | p
    · refine ⟨fun c hc => ⟨hc, ?_⟩, fun c hc => absurd hc (List.not_mem_nil c)⟩
      intro hcc
      subst hcc
      exact splitFirstChar_eq_none '#' nr.2 hf hc
    · obtain ⟨heq, hnm⟩ := splitFirstChar_parts '#' nr.2 p.1 p.2 hf
      constructor
      · intro c hc
        refine ⟨by rw [heq]; exact List.mem_append_left _ hc, ?_⟩
        intro hcc
        subst hcc
        exact hnm hc
      · intro c hc
        rw [heq]
        exact List.mem_append_right _ (List.mem_cons_of_mem _ hc)
  set pq := (match splitFirstChar '?' fr.1 with
    | some p => p
    | none => (fr.1, [])) with hpq
  have hpq1 : (∀ c ∈ pq.1, c ∈ fr.1 ∧ ¬ c = '?') ∧ ∀ c ∈ pq.2, c ∈ fr.1 := by
    rw [hpq]
    rcases hf : splitFirstChar '?' fr.1 with _ | p
    · refine ⟨fun c hc => ⟨hc, ?_⟩, fun c hc => absurd hc (List.not_mem_nil c)⟩
      intro hcc
      subst hcc
      exact splitFirstChar_eq_none '?' fr.1 hf hc
    · obtain ⟨heq, hnm⟩ := splitFirstChar_parts '?' fr.1 p.1 p.2 hf
      constructor
      · intro c hc
        refine ⟨by rw [heq]; exact List.mem_append_left _ hc, ?_⟩
        intro hcc
        subst hcc
        exact hnm hc
      · intro c hc
        rw [heq]
        exact List.mem_append_right _ (List.mem_cons_of_mem _ hc)
  split at h
  · exact absurd h (by simp)
  · rename_i hbr
    simp only [Except.ok.injEq] at h
    subst h
    refine ⟨hnl1, hbr, ?_, ?_, ?_, ?_, ?_, ?_⟩
    · intro c hc
      exact ⟨((hfr1.1 c (hpq1.1 c hc).1).2), (hpq1.1 c hc).2⟩
    · intro c hc
      exact (hfr1.1 c (hpq1.2 c hc)).2
    · intro c hc
      exact mem_url1_not_unsafe url c (hnl2 c hc)
    · intro c hc
      exact mem_url1_not_unsafe url c (hrest c ((hfr1.1 c (hpq1.1 c hc).1).1))
    · intro c hc
      exact mem_url1_not_unsafe url c (hrest c ((hfr1.1 c (hpq1.2 c hc)).1))
    · intro c hc
      exact mem_url1_not_unsafe url c (hrest c (hfr1.2 c hc))

theorem findIdx_go_split {α : Type} (p : α → Bool) :
    ∀ (l : List α) (i j : Nat), List.findIdx? p l i = some j →
      ∃ pre x post, l = pre ++ x :: post ∧ j = i + pre.length ∧ p x = true
        ∧ ∀ y ∈ pre, p y = false := by
  intro l
  induction l with
  | nil => intro i j h; simp [List.findIdx?] at h
  | cons a l ih =>
    intro i j h
    rw [List.findIdx?_cons] at h
    rcases ha : p a with _ | _
    · simp only [ha, Bool.false_eq_true, if_false] at h
      obtain ⟨pre, x, post, heq, hj, hx, hpre⟩ := ih (i + 1) j h
      refine ⟨a :: pre, x, post, by rw [heq, List.cons_append], by simp [hj]; omega, hx, ?_⟩
      intro y hy
      rcases List.mem_cons.1 hy with rfl | h2
      · exact ha
      · exact hpre y h2
    · simp only [ha, if_true, Option.some.injEq] at h
      exact ⟨[], a, l, rfl, by simp [h], ha, by simp⟩

theorem findIdx_split {α : Type} (p : α → Bool) (l : List α) (j : Nat)
    (h : l.findIdx? p = some j) :
    ∃ pre x post, l = pre ++ x :: post ∧ j = pre.length ∧ p x = true
      ∧ ∀ y ∈ pre, p y = false := by
  obtain ⟨pre, x, post, heq, hj, hx, hpre⟩ := findIdx_go_split p l 0 j h
  exact ⟨pre, x, post, heq, by omega, hx, hpre⟩

/-- The scheme invariants of a successful default-scheme-free urlsplit with
nonempty scheme: the scheme was detected from the string, so it is a
nonempty lowercase valid scheme token starting with a letter. -/
theorem urlsplit_scheme_inv (url : List Char) (r : UrlSplit)
    (h : urlsplitE url [] = .ok r) (hns : r.scheme ≠ []) :
    (∀ c ∈ r.scheme, c ∈ schemeChars)
    ∧ (r.scheme.headD ' ').isAlpha = true
    ∧ r.scheme.map Char.toLower = r.scheme
    ∧ (∀ c ∈ r.scheme, isUnsafeUrlByte c = false) := by
  unfold urlsplitE at h
  dsimp only at h
  set url1 := (url.dropWhile isC0OrSpace).filter (fun c => ¬ isUnsafeUrlByte c) with hurl1
  have hds : ((([] : List Char).dropWhile isC0OrSpace).reverse.dropWhile
      isC0OrSpace).reverse.filter (fun c => ¬ isUnsafeUrlByte c) = [] := rfl
  rcases hfi : url1.findIdx? (fun c => c = ':') with _ | i
  · rw [hfi] at h
    dsimp only at h
    split at h <;> split at h
    · exact absurd h (by simp)
    · simp only [Except.ok.injEq] at h
      rw [← h] at hns
      simp only at hns
      exact absurd hds hns
    · exact absurd h (by simp)
    · simp only [Except.ok.injEq] at h
      rw [← h] at hns
      simp only at hns
      exact absurd hds hns
  · rw [hfi] at h
    dsimp only at h
    split at h
    · rename_i hcond
      have hsch : r.scheme = (url1.take i).map Char.toLower := by
        split at h
        all_goals split at h
        all_goals first
          | exact Except.noConfusion h
          | (injection h with h2
             rw [← h2])
      obtain ⟨h0, hal, hall⟩ := hcond
      have hmem : ∀ c ∈ url1.take i, c ∈ schemeChars := by
        intro c hc
        have := List.all_eq_true.1 hall c hc
        exact List.elem_iff.1 (by simpa using this)
      refine ⟨?_, ?_, ?_, ?_⟩
      · intro c hc
        rw [hsch] at hc
        obtain ⟨d, hd, rfl⟩ := List.mem_map.1 hc
        exact schemeChars_toLower_mem d (hmem d hd)
      · obtain ⟨pre, x, post, heq, hj, hx, hpre⟩ := findIdx_split _ url1 i hfi
        have hpren : pre ≠ [] := by
          intro he
          rw [he] at hj
          simp at hj
          omega
        cases pre with
        | nil => exact absurd rfl hpren
        | cons p0 ps =>
          have htk : url1.take i = p0 :: ps.take (i - 1) := by
            rw [heq]
            cases i with
            | zero => omega
            | succ n =>
              simp only [List.cons_append, List.take_succ_cons] at *
              rw [List.take_append_of_le_length]
              · simp
              · simp only [List.length_cons] at hj
                omega
          rw [hsch, htk]
          simp only [List.map_cons, List.headD_cons]
          have hh : url1.headD ' ' = p0 := by rw [heq]; rfl
          rw [hh] at hal
          exact toLower_isAlpha p0 hal
      · rw [hsch, List.map_map]
        apply List.map_congr_left
        intro d hd
        exact schemeChars_toLower_idem d (hmem d hd)
      · intro c hc
        rw [hsch] at hc
        obtain ⟨d, hd, rfl⟩ := List.mem_map.1 hc
        apply toLower_not_unsafe
        exact mem_url1_not_unsafe url d (List.mem_of_mem_take hd)
    · split at h <;> split at h
      · exact absurd h (by simp)
      · simp only [Except.ok.injEq] at h
        rw [← h] at hns
        simp only at hns
        exact absurd hds hns
      · exact absurd h (by simp)
      · simp only [Except.ok.injEq] at h
        rw [← h] at hns
        simp only at hns
        exact absurd hds hns

/-- When the default-scheme-free urlsplit detects a nonempty scheme from
the string itself, the default scheme argument is irrelevant. -/
theorem urlsplit_ds_irrel (url : List Char) (r : UrlSplit)
    (h : urlsplitE url [] = .ok r) (hns : r.scheme ≠ []) (ds : List Char) :
    urlsplitE url ds = .ok r := by
  unfold urlsplitE at h ⊢
  dsimp only at h ⊢
  set url1 := (url.dropWhile isC0OrSpace).filter (fun c => ¬ isUnsafeUrlByte c) with hurl1
  have hds : ((([] : List Char).dropWhile isC0OrSpace).reverse.dropWhile
      isC0OrSpace).reverse.filter (fun c => ¬ isUnsafeUrlByte c) = [] := rfl
  rcases hfi : url1.findIdx? (fun c => c = ':') with _ | i
  · rw [hfi] at h
    dsimp only at h
    exfalso
    split at h
    all_goals split at h
    all_goals first
      | exact Except.noConfusion h
      | (injection h with h2
         rw [← h2] at hns
         simp only at hns
         exact hns hds)
  · rw [hfi] at h
    dsimp only at h ⊢
    by_cases hcond : 0 < i ∧ (url1.headD ' ').isAlpha = true
        ∧ ((url1.take i).all fun c => schemeChars.contains c) = true
    · rw [if_pos hcond] at h ⊢
      exact h
    · rw [if_neg hcond] at h
      exfalso
      split at h
      all_goals split at h
      all_goals first
        | exact Except.noConfusion h
        | (injection h with h2
           rw [← h2] at hns
           simp only at hns
           exact hns hds)

theorem mem_splitparams (l : List Char) :
    (∀ c ∈ (splitparams l).1, c ∈ l) ∧ (∀ c ∈ (splitparams l).2, c ∈ l) := by
  unfold splitparams
  split
  · rcases hf : findIdxFrom ';' ((rfindIdx '/' l).getD 0) l with _ | i
    · exact ⟨fun c hc => hc, fun c hc => absurd hc (List.not_mem_nil c)⟩
    · exact ⟨fun c hc => List.mem_of_mem_take hc, fun c hc => List.mem_of_mem_drop hc⟩
  · rcases hf : l.findIdx? (fun x => x = ';') with _ | i
    · exact ⟨fun c hc => hc, fun c hc => absurd hc (List.not_mem_nil c)⟩
    · exact ⟨fun c hc => List.mem_of_mem_take hc, fun c hc => List.mem_of_mem_drop hc⟩

/-- The component invariants of every successful urlparse. -/
theorem urlparse_inv (url ds : List Char) (C : UrlParse)
    (h : urlparseE url ds = .ok C) :
    (∀ c ∈ C.netloc, ¬(c = '/' ∨ c = '?' ∨ c = '#'))
    ∧ ¬((C.netloc.contains '[' ∧ ¬ C.netloc.contains ']')
        ∨ (C.netloc.contains ']' ∧ ¬ C.netloc.contains '['))
    ∧ (∀ c ∈ C.path, ¬ c = '#' ∧ ¬ c = '?')
    ∧ (∀ c ∈ C.params, ¬ c = '#' ∧ ¬ c = '?')
    ∧ (∀ c ∈ C.query, ¬ c = '#')
    ∧ (∀ c ∈ C.netloc, isUnsafeUrlByte c = false)
    ∧ (∀ c ∈ C.path, isUnsafeUrlByte c = false)
    ∧ (∀ c ∈ C.params, isUnsafeUrlByte c = false)
    ∧ (∀ c ∈ C.query, isUnsafeUrlByte c = false)
    ∧ (∀ c ∈ C.fragment, isUnsafeUrlByte c = false) := by
  unfold urlparseE at h
  rcases hs : urlsplitE url ds with _ | r
  · rw [hs] at h
    exact Except.noConfusion h
  · rw [hs] at h
    dsimp only at h
    injection h with h2
    obtain ⟨hn1, hn2, hp, hq, hun, hup, huq, huf⟩ := urlsplit_inv url ds r hs
    have hpp : (∀ c ∈ C.path, c ∈ r.path) ∧ (∀ c ∈ C.params, c ∈ r.path) := by
      rw [← h2]
      dsimp only
      split
      · exact mem_splitparams r.path
      · exact ⟨fun c hc => hc, fun c hc => absurd hc (List.not_mem_nil c)⟩
    have hcn : C.netloc = r.netloc := by rw [← h2]
    have hcq : C.query = r.query := by rw [← h2]
    have hcf : C.fragment = r.fragment := by rw [← h2]
    rw [hcn, hcq, hcf]
    refine ⟨hn1, hn2, ?_, ?_, hq, hun, ?_, ?_, huq, huf⟩
    · exact fun c hc => hp c (hpp.1 c hc)
    · exact fun c hc => hp c (hpp.2 c hc)
    · exact fun c hc => hup c (hpp.1 c hc)
    · exact fun c hc => hup c (hpp.2 c hc)

/-- The scheme of a successful urlparse is the scheme of the underlying
urlsplit, and the ds-irrelevance lifts to urlparse. -/
theorem urlparse_ds_irrel (url : List Char) (b : UrlParse)
    (h : urlparseE url [] = .ok b) (hns : b.scheme ≠ []) (ds : List Char) :
    urlparseE url ds = .ok b := by
  unfold urlparseE at h ⊢
  rcases hs : urlsplitE url [] with _ | r
  · rw [hs] at h
    exact Except.noConfusion h
  · rw [hs] at h
    dsimp only at h
    injection h with h2
    have hbs : b.scheme = r.scheme := by rw [← h2]
    rw [urlsplit_ds_irrel url r hs (by rw [← hbs]; exact hns) ds]
    dsimp only
    rw [h2]

theorem urlparse_scheme_inv (url : List Char) (b : UrlParse)
    (h : urlparseE url [] = .ok b) (hns : b.scheme ≠ []) :
    (∀ c ∈ b.scheme, c ∈ schemeChars)
    ∧ (b.scheme.headD ' ').isAlpha = true
    ∧ b.scheme.map Char.toLower = b.scheme
    ∧ (∀ c ∈ b.scheme, isUnsafeUrlByte c = false) := by
  unfold urlparseE at h
  rcases hs : urlsplitE url [] with _ | r
  · rw [hs] at h
    exact Except.noConfusion h
  · rw [hs] at h
    dsimp only at h
    injection h with h2
    have hbs : b.scheme = r.scheme := by rw [← h2]
    rw [hbs]
    exact urlsplit_scheme_inv url r hs (by rw [← hbs]; exact hns)

set_option maxHeartbeats 1000000 in
/-- Reparsing an unsplit of well-formed components with nonempty scheme and
netloc recovers the components exactly, up to the leading slash the
serializer adds to a relative path. -/
theorem reparse_unsplit (s n p q f ds : List Char)
    (hs1 : s ≠ []) (hs2 : ∀ c ∈ s, c ∈ schemeChars)
    (hs3 : (s.headD ' ').isAlpha = true) (hs4 : s.map Char.toLower = s)
    (hn1 : n ≠ []) (hn2 : ∀ c ∈ n, ¬(c = '/' ∨ c = '?' ∨ c = '#'))
    (hn3 : ¬((n.contains '[' ∧ ¬ n.contains ']')
        ∨ (n.contains ']' ∧ ¬ n.contains '[')))
    (hp1 : ∀ c ∈ p, ¬ c = '#' ∧ ¬ c = '?')
    (hq1 : ∀ c ∈ q, ¬ c = '#')
    (hun : ∀ c ∈ n, isUnsafeUrlByte c = false)
    (hup : ∀ c ∈ p, isUnsafeUrlByte c = false)
    (huq : ∀ c ∈ q, isUnsafeUrlByte c = false)
    (huf : ∀ c ∈ f, isUnsafeUrlByte c = false) :
    urlsplitE (urlunsplit s n p q f) ds
      = .ok { scheme := s, netloc := n,
              path := if p ≠ [] ∧ p.take 1 ≠ ['/'] then '/' :: p else p,
              query := q, fragment := f } := by
  set u2 := if p ≠ [] ∧ p.take 1 ≠ ['/'] then '/' :: p else p with hu2d
  have hu2props : ∀ c ∈ u2, (¬ c = '#' ∧ ¬ c = '?') ∧ isUnsafeUrlByte c = false := by
    rw [hu2d]
    split
    · intro c hc
      rcases List.mem_cons.1 hc with rfl | hc2
      · exact ⟨⟨by decide, by decide⟩, by decide⟩
      · exact ⟨hp1 c hc2, hup c hc2⟩
    · intro c hc
      exact ⟨hp1 c hc, hup c hc⟩
  have hu2head : u2 = [] ∨ u2.headD ' ' = '/' := by
    rw [hu2d]
    split
    · right
      rfl
    · rename_i hcon
      rcases hpe : p with _ | ⟨p0, ps⟩
    
      · left
        rfl
      · right
        rw [hpe] at hcon
        simp only [ne_eq, not_and, not_not] at hcon
        have := hcon (by simp)
        simp only [List.take_succ_cons, List.take_zero] at this
        have hp0 : p0 = '/' := by
          have h4 := List.cons.injEq p0 [] '/' [] ▸ this
          exact h4.1
        simp [hp0]
  have hw : urlunsplit s n p q f
      = s ++ ':' :: ('/' :: '/' :: ((n ++ u2)
          ++ ((if q = [] then [] else '?' :: q) ++ (if f = [] then [] else '#' :: f)))) := by
    unfold urlunsplit
    dsimp only
    rw [if_pos (Or.inl hn1), if_pos hs1]
    by_cases hqe : q = [] <;> by_cases hfe : f = [] <;>
      simp [hqe, hfe, List.append_assoc]
  rw [hw]
  set qsuf := if q = [] then ([] : List Char) else '?' :: q with hqd
  set fsuf := if f = [] then ([] : List Char) else '#' :: f with hfd
  have hqsufp : ∀ c ∈ qsuf, isUnsafeUrlByte c = false ∧ ¬ c = '#' := by
    rw [hqd]
    split
    · intro c hc
      exact absurd hc (List.not_mem_nil c)
    · intro c hc
      rcases List.mem_cons.1 hc with rfl | hc2
      · exact ⟨by decide, by decide⟩
      · exact ⟨huq c hc2, hq1 c hc2⟩
  have hfsufp : ∀ c ∈ fsuf, isUnsafeUrlByte c = false := by
    rw [hfd]
    split
    · intro c hc
      exact absurd hc (List.not_mem_nil c)
    · intro c hc
      rcases List.mem_cons.1 hc with rfl | hc2
      · decide
      · exact huf c hc2
  obtain ⟨s0, ss, rfl⟩ : ∃ s0 ss, s = s0 :: ss := by
    cases s with
    | nil => exact absurd rfl hs1
    | cons a l => exact ⟨a, l, rfl⟩
  have hs0a : s0.isAlpha = true := by simpa using hs3
  have hallw : ∀ c ∈ (s0 :: ss) ++ ':' :: ('/' :: '/' :: ((n ++ u2) ++ (qsuf ++ fsuf))),
      isUnsafeUrlByte c = false := by
    intro c hc
    rcases List.mem_append.1 hc with hcs | hct
    · exact (schemeChars_props c (hs2 c hcs)).1
    · rcases List.mem_cons.1 hct with rfl | hct2
      · decide
      · rcases List.mem_cons.1 hct2 with rfl | hct3
        · decide
        · rcases List.mem_cons.1 hct3 with rfl | hct4
          · decide
          · rcases List.mem_append.1 hct4 with hc5 | hc6
            · rcases List.mem_append.1 hc5 with hc7 | hc8
              · exact hun c hc7
              · exact (hu2props c hc8).2
            · rcases List.mem_append.1 hc6 with hc7 | hc8
              · exact (hqsufp c hc7).1
              · exact hfsufp c hc8
  unfold urlsplitE
  dsimp only
  have hurl1 : ((((s0 :: ss) ++ ':' :: ('/' :: '/' :: ((n ++ u2)
      ++ (qsuf ++ fsuf)))).dropWhile isC0OrSpace).filter
        (fun c => ¬ isUnsafeUrlByte c))
      = (s0 :: ss) ++ ':' :: ('/' :: '/' :: ((n ++ u2) ++ (qsuf ++ fsuf))) := by
    rw [List.cons_append, List.dropWhile_cons]
    rw [isAlpha_not_c0 s0 hs0a]
    simp only [Bool.false_eq_true, if_false]
    rw [← List.cons_append]
    apply List.filter_eq_self.2
    intro a ha
    simpa using hallw a ha
  rw [hurl1]
  have hfind : ((s0 :: ss) ++ ':' :: ('/' :: '/' :: ((n ++ u2)
      ++ (qsuf ++ fsuf)))).findIdx? (fun c => c = ':') = some (s0 :: ss).length := by
    apply findIdx_app_true
    · intro x hx
      simpa using (schemeChars_props x (hs2 x hx)).2.1
    · simp
  rw [hfind]
  dsimp only
  have hcondT : 0 < (s0 :: ss).length
      ∧ ((((s0 :: ss) ++ ':' :: ('/' :: '/' :: ((n ++ u2)
          ++ (qsuf ++ fsuf)))).headD ' ').isAlpha = true)
      ∧ ((((s0 :: ss) ++ ':' :: ('/' :: '/' :: ((n ++ u2)
          ++ (qsuf ++ fsuf)))).take (s0 :: ss).length).all
            (fun c => schemeChars.contains c)) = true := by
    refine ⟨by simp, by simpa using hs0a, ?_⟩
    rw [List.take_left]
    apply List.all_eq_true.2
    intro c hc
    simpa using List.elem_iff.2 (hs2 c hc)
  rw [if_pos hcondT]
  have hdrop : ((s0 :: ss) ++ ':' :: ('/' :: '/' :: ((n ++ u2)
      ++ (qsuf ++ fsuf)))).drop ((s0 :: ss).length + 1)
      = '/' :: '/' :: ((n ++ u2) ++ (qsuf ++ fsuf)) := by
    rw [show (s0 :: ss) ++ ':' :: ('/' :: '/' :: ((n ++ u2) ++ (qsuf ++ fsuf)))
        = ((s0 :: ss) ++ [':']) ++ ('/' :: '/' :: ((n ++ u2) ++ (qsuf ++ fsuf))) by simp]
    rw [show (s0 :: ss).length + 1 = ((s0 :: ss) ++ [':']).length by simp]
    exact List.drop_left _ _
  rw [List.take_left, hdrop, hs4]
  rw [show ('/' :: '/' :: ((n ++ u2) ++ (qsuf ++ fsuf))).take 2 = ['/', '/'] from rfl]
  rw [if_pos rfl]
  rw [show ('/' :: '/' :: ((n ++ u2) ++ (qsuf ++ fsuf))).drop 2
      = (n ++ u2) ++ (qsuf ++ fsuf) from rfl]
  rw [List.append_assoc]
  rw [splitNetlocAux_app n (u2 ++ (qsuf ++ fsuf)) hn2 ?_]
  · dsimp only
    rw [if_neg hn3]
    have hfr : (match splitFirstChar '#' (u2 ++ (qsuf ++ fsuf)) with
        | some pp => pp
        | none => (u2 ++ (qsuf ++ fsuf), [])) = (u2 ++ qsuf, f) := by
      rcases hfe : f with _ | ⟨f0, fs⟩
      · have hfs : fsuf = [] := by rw [hfd, if_pos hfe]
        rw [hfs, List.append_nil]
        rw [splitFirstChar_none '#' (u2 ++ qsuf) ?_]
        · intro hmem
          rcases List.mem_append.1 hmem with h1 | h2
          · exact (hu2props '#' h1).1.1 rfl
          · exact (hqsufp '#' h2).2 rfl
      · have hfs : fsuf = '#' :: f := by
          rw [hfd, if_neg (by rw [hfe]; simp)]
        rw [hfs, show u2 ++ (qsuf ++ '#' :: f) = (u2 ++ qsuf) ++ '#' :: f by simp, hfe]
        rw [splitFirstChar_app '#' (u2 ++ qsuf) (f0 :: fs) ?_]
        · intro hmem
          rcases List.mem_append.1 hmem with h1 | h2
          · exact (hu2props '#' h1).1.1 rfl
          · exact (hqsufp '#' h2).2 rfl
    rw [hfr]
    dsimp only
    have hpq : (match splitFirstChar '?' (u2 ++ qsuf) with
        | some pp => pp
        | none => (u2 ++ qsuf, [])) = (u2, q) := by
      rcases hqe : q with _ | ⟨q0, qs⟩
      · have hqs : qsuf = [] := by rw [hqd, if_pos hqe]
        rw [hqs, List.append_nil]
        rw [splitFirstChar_none '?' u2 ?_]
        · intro hmem
          exact (hu2props '?' hmem).1.2 rfl
      · have hqs : qsuf = '?' :: q := by
          rw [hqd, if_neg (by rw [hqe]; simp)]
        rw [hqs, hqe]
        rw [splitFirstChar_app '?' u2 (q0 :: qs) ?_]
        · intro hmem
          exact (hu2props '?' hmem).1.2 rfl
    rw [hpq]
  · rcases hu2head with h2e | h2h
    · rw [h2e, List.nil_append]
      rcases hqe : q with _ | ⟨q0, qs⟩
      · have hqs : qsuf = [] := by rw [hqd, if_pos hqe]
        rw [hqs, List.nil_append]
        rcases hfe : f with _ | ⟨f0, fs⟩
        · have hfs : fsuf = [] := by rw [hfd, if_pos hfe]
          rw [hfs]
          left
          rfl
        · have hfs : fsuf = '#' :: f := by
            rw [hfd, if_neg (by rw [hfe]; simp)]
          rw [hfs]
          right
          right
          right
          rw [hfe]
          rfl
      · have hqs : qsuf = '?' :: q := by
          rw [hqd, if_neg (by rw [hqe]; simp)]
        rw [hqs]
        right
        right
        left
        rw [hqe]
        rfl
    · rcases h2c : u2 with _ | ⟨c0, cs⟩
      · rw [h2c] at h2h
        exact absurd h2h (by decide)
      · rw [h2c] at h2h
        simp only [List.headD_cons] at h2h
        right
        left
        simpa using h2h

theorem mem_url1_mem (url0 : List Char) (c : Char)
    (h : c ∈ (url0.dropWhile isC0OrSpace).filter (fun c => ¬ isUnsafeUrlByte c)) :
    c ∈ url0 :=
  (List.dropWhile_sublist isC0OrSpace).mem (List.mem_filter.1 h).1

/-- Every character of the netloc, path, query and fragment of a
successful urlsplit occurs in the input URL. -/
theorem urlsplit_mem (url ds : List Char) (r : UrlSplit)
    (h : urlsplitE url ds = .ok r) :
    (∀ c ∈ r.netloc, c ∈ url) ∧ (∀ c ∈ r.path, c ∈ url)
    ∧ (∀ c ∈ r.query, c ∈ url) ∧ (∀ c ∈ r.fragment, c ∈ url) := by
  unfold urlsplitE at h
  dsimp only at h
  set url1 := (url.dropWhile isC0OrSpace).filter (fun c => ¬ isUnsafeUrlByte c) with hurl1
  set sp := (match url1.findIdx? (fun c => c = ':') with
    | some i =>
      if 0 < i ∧ (url1.headD ' ').isAlpha
          ∧ (url1.take i).all (fun c => schemeChars.contains c) then
        ((url1.take i).map Char.toLower, url1.drop (i + 1))
      else (((((ds.dropWhile isC0OrSpace).reverse.dropWhile
          isC0OrSpace).reverse).filter (fun c => ¬ isUnsafeUrlByte c)), url1)
    | none => (((((ds.dropWhile isC0OrSpace).reverse.dropWhile
          isC0OrSpace).reverse).filter (fun c => ¬ isUnsafeUrlByte c)), url1)) with hsp
  have hsp2 : ∀ c ∈ sp.2, c ∈ url1 := by
    rw [hsp]
    intro c hc
    rcases hfi : url1.findIdx? (fun c => c = ':') with _ | i
    · rw [hfi] at hc
      exact hc
    · rw [hfi] at hc
      dsimp only at hc
      split at hc
      · exact List.mem_of_mem_drop hc
      · exact hc
  set nr := (if sp.2.take 2 = ['/', '/'] then splitNetlocAux (sp.2.drop 2)
    else ([], sp.2)) with hnr
  have hnl2 : ∀ c ∈ nr.1, c ∈ url1 := by
    rw [hnr]
    split
    · intro c hc
      exact hsp2 c (List.mem_of_mem_drop (mem_splitNetlocAux_fst _ c hc))
    · intro c hc
      exact absurd hc (List.not_mem_nil c)
  have hrest : ∀ c ∈ nr.2, c ∈ url1 := by
    rw [hnr]
    split
    · intro c hc
      exact hsp2 c (List.mem_of_mem_drop (mem_splitNetlocAux_snd _ c hc))
    · intro c hc
      exact hsp2 c hc
  set fr := (match splitFirstChar '#' nr.2 with
    | some p => p
    | none => (nr.2, [])) with hfr
  have hfr1 : (∀ c ∈ fr.1, c ∈ nr.2) ∧ ∀ c ∈ fr.2, c ∈ nr.2 := by
    rw [hfr]
    rcases hf : splitFirstChar '#' nr.2 with _ | p
    · exact ⟨fun c hc => hc, fun c hc => absurd hc (List.not_mem_nil c)⟩
    · obtain ⟨heq, hnm⟩ := splitFirstChar_parts '#' nr.2 p.1 p.2 hf
      constructor
      · intro c hc
        rw [heq]
        exact List.mem_append_left _ hc
      · intro c hc
        rw [heq]
        exact List.mem_append_right _ (List.mem_cons_of_mem _ hc)
  set pq := (match splitFirstChar '?' fr.1 with
    | some p => p
    | none => (fr.1, [])) with hpq
  have hpq1 : (∀ c ∈ pq.1, c ∈ fr.1) ∧ ∀ c ∈ pq.2, c ∈ fr.1 := by
    rw [hpq]
    rcases hf : splitFirstChar '?' fr.1 with _ | p
    · exact ⟨fun c hc => hc, fun c hc => absurd hc (List.not_mem_nil c)⟩
    · obtain ⟨heq, hnm⟩ := splitFirstChar_parts '?' fr.1 p.1 p.2 hf
      constructor
      · intro c hc
        rw [heq]
        exact List.mem_append_left _ hc
      · intro c hc
        rw [heq]
        exact List.mem_append_right _ (List.mem_cons_of_mem _ hc)
  split at h
  · exact absurd h (by simp)
  · simp only [Except.ok.injEq] at h
    subst h
    refine ⟨?_, ?_, ?_, ?_⟩
    · intro c hc
      exact mem_url1_mem url c (hnl2 c hc)
    · intro c hc
      exact mem_url1_mem url c (hrest c (hfr1.1 c (hpq1.1 c hc)))
    · intro c hc
      exact mem_url1_mem url c (hrest c (hfr1.1 c (hpq1.2 c hc)))
    · intro c hc
      exact mem_url1_mem url c (hrest c (hfr1.2 c hc))

/-- Parsing a semicolon-free URL yields no parameters, and the components
stay inside the input character set. -/
theorem urlparse_semifree (url ds : List Char) (C : UrlParse)
    (h : urlparseE url ds = .ok C) (hsemi : ∀ c ∈ url, ¬ c = ';') :
    C.params = [] ∧ (∀ c ∈ C.path, ¬ c = ';')
    ∧ (∀ c ∈ C.path, c ∈ url) ∧ (∀ c ∈ C.query, c ∈ url)
    ∧ (∀ c ∈ C.fragment, c ∈ url) ∧ (∀ c ∈ C.netloc, c ∈ url) := by
  unfold urlparseE at h
  rcases hs : urlsplitE url ds with _ | r
  · rw [hs] at h
    exact Except.noConfusion h
  · rw [hs] at h
    dsimp only at h
    injection h with h2
    obtain ⟨hmn, hmp, hmq, hmf⟩ := urlsplit_mem url ds r hs
    have hps : ∀ c ∈ r.path, ¬ c = ';' := fun c hc => hsemi c (hmp c hc)
    have hcont : r.path.contains ';' = false := by
      rcases hcc : r.path.contains ';' with _ | _
      · rfl
      · exact absurd rfl (hps ';' (List.elem_iff.1 hcc))
    have hif : ¬ (usesParamsL.contains r.scheme = true ∧ r.path.contains ';' = true) := by
      intro hcc
      rw [hcont] at hcc
      exact Bool.false_ne_true hcc.2
    rw [if_neg hif] at h2
    rw [← h2]
    exact ⟨rfl, hps, hmp, hmq, hmf, hmn⟩

theorem urlunsplit_slashfix (s n u q f : List Char) (hn : n ≠ []) :
    urlunsplit s n (if u ≠ [] ∧ u.take 1 ≠ ['/'] then '/' :: u else u) q f
      = urlunsplit s n u q f := by
  have h2 : (if (if u ≠ [] ∧ u.take 1 ≠ ['/'] then '/' :: u else u) ≠ []
        ∧ (if u ≠ [] ∧ u.take 1 ≠ ['/'] then '/' :: u else u).take 1 ≠ ['/'] then
      '/' :: (if u ≠ [] ∧ u.take 1 ≠ ['/'] then '/' :: u else u)
    else (if u ≠ [] ∧ u.take 1 ≠ ['/'] then '/' :: u else u))
      = (if u ≠ [] ∧ u.take 1 ≠ ['/'] then '/' :: u else u) := by
    by_cases hc : u ≠ [] ∧ u.take 1 ≠ ['/']
    · rw [if_pos hc, if_neg (by simp)]
    · rw [if_neg hc, if_neg hc]
  unfold urlunsplit
  dsimp only
  rw [if_pos (Or.inl hn), if_pos (Or.inl hn), h2]

theorem urlunparse_ne_nil (C : UrlParse) (hs : C.scheme ≠ []) :
    urlunparse C ≠ [] := by
  unfold urlunparse urlunsplit
  dsimp only
  rw [if_pos hs]
  split <;> split <;> simp

/-- Reparsing the serialization of a semicolon-free parameterless parse
record with nonempty scheme and netloc recovers the record up to the
leading slash the serializer adds to a relative path. -/
theorem reparse_unparse (C : UrlParse) (ds : List Char)
    (hs1 : C.scheme ≠ []) (hs2 : ∀ c ∈ C.scheme, c ∈ schemeChars)
    (hs3 : (C.scheme.headD ' ').isAlpha = true)
    (hs4 : C.scheme.map Char.toLower = C.scheme)
    (hn1 : C.netloc ≠ [])
    (hn2 : ∀ c ∈ C.netloc, ¬(c = '/' ∨ c = '?' ∨ c = '#'))
    (hn3 : ¬((C.netloc.contains '[' ∧ ¬ C.netloc.contains ']')
        ∨ (C.netloc.contains ']' ∧ ¬ C.netloc.contains '[')))
    (hp1 : ∀ c ∈ C.path, ¬ c = '#' ∧ ¬ c = '?')
    (hpsemi : ∀ c ∈ C.path, ¬ c = ';')
    (hq1 : ∀ c ∈ C.query, ¬ c = '#')
    (hparams : C.params = [])
    (hun : ∀ c ∈ C.netloc, isUnsafeUrlByte c = false)
    (hup : ∀ c ∈ C.path, isUnsafeUrlByte c = false)
    (huq : ∀ c ∈ C.query, isUnsafeUrlByte c = false)
    (huf : ∀ c ∈ C.fragment, isUnsafeUrlByte c = false) :
    urlparseE (urlunparse C) ds = .ok
      { scheme := C.scheme, netloc := C.netloc,
        path := if C.path ≠ [] ∧ C.path.take 1 ≠ ['/'] then '/' :: C.path else C.path,
        params := [], query := C.query, fragment := C.fragment } := by
  have hu : urlunparse C = urlunsplit C.scheme C.netloc C.path C.query C.fragment := by
    unfold urlunparse
    rw [if_neg (by rw [hparams]; simp)]
  rw [hu]
  unfold urlparseE
  rw [reparse_unsplit C.scheme C.netloc C.path C.query C.fragment ds
    hs1 hs2 hs3 hs4 hn1 hn2 hn3 hp1 hq1 hun hup huq huf]
  dsimp only
  have hsemi2 : ∀ c ∈ (if C.path ≠ [] ∧ C.path.take 1 ≠ ['/'] then '/' :: C.path
      else C.path), ¬ c = ';' := by
    split
    · intro c hc
      rcases List.mem_cons.1 hc with rfl | hc2
      · decide
      · exact hpsemi c hc2
    · exact hpsemi
  have hcont : (if C.path ≠ [] ∧ C.path.take 1 ≠ ['/'] then '/' :: C.path
      else C.path).contains ';' = false := by
    rcases hcc : (if C.path ≠ [] ∧ C.path.take 1 ≠ ['/'] then '/' :: C.path
        else C.path).contains ';' with _ | _
    · rfl
    · exact absurd rfl (hsemi2 ';' (List.elem_iff.1 hcc))
  rw [if_neg (by rw [hcont]; simp)]

theorem mem_splitOnCharAux (c : Char) :
    ∀ (l cur : List Char) (sg : List Char), sg ∈ splitOnCharAux c cur l →
      ∀ x ∈ sg, x ∈ cur ∨ x ∈ l
  | [], cur, sg, hsg, x, hx => by
    unfold splitOnCharAux at hsg
    rcases List.mem_singleton.1 hsg with rfl
    exact Or.inl (List.mem_reverse.1 hx)
  | a :: l, cur, sg, hsg, x, hx => by
    unfold splitOnCharAux at hsg
    split at hsg
    · rcases List.mem_cons.1 hsg with rfl | hsg2
      · exact Or.inl (List.mem_reverse.1 hx)
      · rcases mem_splitOnCharAux c l [] sg hsg2 x hx with h1 | h2
        · exact absurd h1 (List.not_mem_nil x)
        · exact Or.inr (List.mem_cons_of_mem a h2)
    · rcases mem_splitOnCharAux c l (a :: cur) sg hsg x hx with h1 | h2
      · rcases List.mem_cons.1 h1 with rfl | h3
        · exact Or.inr (List.mem_cons_self x l)
        · exact Or.inl h3
      · exact Or.inr (List.mem_cons_of_mem a h2)

theorem mem_splitOnChar (c : Char) (l sg : List Char) (hsg : sg ∈ splitOnChar c l)
    (x : Char) (hx : x ∈ sg) : x ∈ l := by
  rcases mem_splitOnCharAux c l [] sg hsg x hx with h1 | h2
  · exact absurd h1 (List.not_mem_nil x)
  · exact h2

theorem mem_filterInner (segs : List (List Char)) (sg : List Char)
    (h : sg ∈ filterInner segs) : sg ∈ segs := by
  match segs with
  | [] => exact h
  | [x] => exact h
  | x :: y :: rest =>
    have h2 : sg ∈ x :: (((y :: rest).dropLast.filter (fun sg => sg ≠ []))
        ++ [(y :: rest).getLastD []]) := h
    rcases List.mem_cons.1 h2 with rfl | h3
    · exact List.mem_cons_self sg _
    · rcases List.mem_append.1 h3 with h4 | h5
      · exact List.mem_cons_of_mem x ((List.dropLast_sublist (y :: rest)).mem
          (List.mem_filter.1 h4).1)
      · rcases List.mem_singleton.1 h5 with rfl
        apply List.mem_cons_of_mem x
        rw [List.getLastD_eq_getLast?, List.getLast?_eq_getLast (y :: rest) (by simp)]
        simp only [Option.getD_some]
        exact List.getLast_mem (by simp)

theorem mem_resolveDots_aux :
    ∀ (segs acc : List (List Char)) (sg : List Char),
      sg ∈ segs.foldl (fun acc sg =>
        if sg = ['.', '.'] then acc.dropLast
        else if sg = ['.'] then acc
        else acc ++ [sg]) acc → sg ∈ acc ∨ sg ∈ segs
  | [], acc, sg, h => Or.inl h
  | a :: segs, acc, sg, h => by
    simp only [List.foldl_cons] at h
    rcases mem_resolveDots_aux segs _ sg h with h1 | h2
    · split at h1
      · exact Or.inl ((List.dropLast_sublist acc).mem h1)
      · split at h1
        · exact Or.inl h1
        · rcases List.mem_append.1 h1 with h3 | h4
          · exact Or.inl h3
          · rcases List.mem_singleton.1 h4 with rfl
            exact Or.inr (List.mem_cons_self sg segs)
    · exact Or.inr (List.mem_cons_of_mem a h2)

theorem mem_resolveDots (segs : List (List Char)) (sg : List Char)
    (h : sg ∈ resolveDots segs) : sg ∈ segs := by
  unfold resolveDots at h
  rcases mem_resolveDots_aux segs [] sg h with h1 | h2
  · exact absurd h1 (List.not_mem_nil sg)
  · exact h2

theorem mem_intercalateChar (c : Char) :
    ∀ (L : List (List Char)) (x : Char), x ∈ intercalateChar c L →
      x = c ∨ ∃ sg ∈ L, x ∈ sg
  | [], x, h => absurd h (List.not_mem_nil x)
  | [l], x, h => Or.inr ⟨l, List.mem_singleton.2 rfl, h⟩
  | l :: m :: rest, x, h => by
    unfold intercalateChar at h
    rcases List.mem_append.1 h with h1 | h2
    · exact Or.inr ⟨l, List.mem_cons_self l _, h1⟩
    · rcases List.mem_cons.1 h2 with rfl | h3
      · exact Or.inl rfl
      · rcases mem_intercalateChar c (m :: rest) x h3 with h4 | ⟨sg, hsg, hx⟩
        · exact Or.inl h4
        · exact Or.inr ⟨sg, List.mem_cons_of_mem l hsg, hx⟩

theorem stringMk_ne_empty (l : List Char) (h : l ≠ []) : String.mk l ≠ "" := by
  intro he
  apply h
  have : (String.mk l).data = ("" : String).data := by rw [he]
  exact this

/-- The second urljoin applied to a serialized well-formed parameterless
record with the base's scheme and a nonempty netloc returns that
serialization unchanged. -/
theorem urljoin_abs_helper (u : String) (b C : UrlParse)
    (hb : urlparseE u.data [] = .ok b) (hune : u ≠ "")
    (hbs : b.scheme ≠ []) (hbrel : usesRelativeL.contains b.scheme = true)
    (hbnetl : usesNetlocL.contains b.scheme = true)
    (hbsc : ∀ c ∈ b.scheme, c ∈ schemeChars)
    (hbal : (b.scheme.headD ' ').isAlpha = true)
    (hblo : b.scheme.map Char.toLower = b.scheme)
    (hCs : C.scheme = b.scheme)
    (hCn1 : C.netloc ≠ [])
    (hCn2 : ∀ c ∈ C.netloc, ¬(c = '/' ∨ c = '?' ∨ c = '#'))
    (hCn3 : ¬((C.netloc.contains '[' ∧ ¬ C.netloc.contains ']')
        ∨ (C.netloc.contains ']' ∧ ¬ C.netloc.contains '[')))
    (hCp1 : ∀ c ∈ C.path, ¬ c = '#' ∧ ¬ c = '?')
    (hCpsemi : ∀ c ∈ C.path, ¬ c = ';')
    (hCq1 : ∀ c ∈ C.query, ¬ c = '#')
    (hCparams : C.params = [])
    (hCun : ∀ c ∈ C.netloc, isUnsafeUrlByte c = false)
    (hCup : ∀ c ∈ C.path, isUnsafeUrlByte c = false)
    (hCuq : ∀ c ∈ C.query, isUnsafeUrlByte c = false)
    (hCuf : ∀ c ∈ C.fragment, isUnsafeUrlByte c = false) :
    urljoinE u (String.mk (urlunparse C)) = .ok (String.mk (urlunparse C)) := by
  have hCsne : C.scheme ≠ [] := by rw [hCs]; exact hbs
  have hwne : String.mk (urlunparse C) ≠ "" :=
    stringMk_ne_empty _ (urlunparse_ne_nil C hCsne)
  unfold urljoinE
  rw [if_neg hune, if_neg hwne, hb]
  dsimp only
  have hparse : urlparseE (String.mk (urlunparse C)).data b.scheme = .ok
      { scheme := C.scheme, netloc := C.netloc,
        path := if C.path ≠ [] ∧ C.path.take 1 ≠ ['/'] then '/' :: C.path else C.path,
        params := [], query := C.query, fragment := C.fragment } := by
    show urlparseE (urlunparse C) b.scheme = _
    exact reparse_unparse C b.scheme hCsne
      (by rw [hCs]; exact hbsc) (by rw [hCs]; exact hbal) (by rw [hCs]; exact hblo)
      hCn1 hCn2 hCn3 hCp1 hCpsemi hCq1 hCparams hCun hCup hCuq hCuf
  rw [hparse]
  dsimp only
  rw [if_neg (by
    rw [hCs]
    simp only [ne_eq, not_true_eq_false, false_or, not_not]
    exact hbrel)]
  rw [if_pos (by
    constructor
    · show usesNetlocL.contains C.scheme = true
      rw [hCs]
      exact hbnetl
    · exact hCn1)]
  have hser : urlunparse
      ({ scheme := C.scheme, netloc := C.netloc,
         path := if C.path ≠ [] ∧ C.path.take 1 ≠ ['/'] then '/' :: C.path else C.path,
         params := [], query := C.query, fragment := C.fragment } : UrlParse)
      = urlunparse C := by
    unfold urlunparse
    dsimp only
    rw [hCparams, if_neg (show ¬(([] : List Char) ≠ []) by simp)]
    exact urlunsplit_slashfix C.scheme C.netloc C.path C.query C.fragment hCn1
  rw [hser]

theorem segments_chars (bp rp : List Char) (P : Char → Prop)
    (hbp : ∀ c ∈ bp, P c) (hrp : ∀ c ∈ rp, P c) :
    ∀ sg ∈ (if rp.take 1 = ['/'] then splitOnChar '/' rp
        else filterInner ((if (splitOnChar '/' bp).getLastD [] ≠ []
            then (splitOnChar '/' bp).dropLast
            else splitOnChar '/' bp) ++ splitOnChar '/' rp)),
      ∀ y ∈ sg, P y := by
  intro sg hsg y hy
  split at hsg
  · exact hrp y (mem_splitOnChar '/' rp sg hsg y hy)
  · have h2 := mem_filterInner _ sg hsg
    rcases List.mem_append.1 h2 with h3 | h4
    · have h5 : sg ∈ splitOnChar '/' bp := by
        split at h3
        · exact (List.dropLast_sublist _).mem h3
        · exact h3
      exact hbp y (mem_splitOnChar '/' bp sg h5 y hy)
    · exact hrp y (mem_splitOnChar '/' rp sg h4 y hy)

theorem path2_chars (segs : List (List Char)) (P : Char → Prop) (hsl : P '/')
    (hL : ∀ sg ∈ segs, ∀ y ∈ sg, P y) (cond : Prop) [Decidable cond] :
    ∀ x ∈ (if (intercalateChar '/'
          (if cond then resolveDots segs ++ [[]] else resolveDots segs)) = []
        then ['/']
        else intercalateChar '/'
          (if cond then resolveDots segs ++ [[]] else resolveDots segs)),
      P x := by
  intro x hx
  by_cases hc : cond
  · rw [if_pos hc] at hx
    split at hx
    · rcases List.mem_singleton.1 hx with rfl
      exact hsl
    · rcases mem_intercalateChar '/' _ x hx with rfl | ⟨sg, hsg, hysg⟩
      · exact hsl
      · rcases List.mem_append.1 hsg with h1 | h2
        · exact hL sg (mem_resolveDots segs sg h1) x hysg
        · rcases List.mem_singleton.1 h2 with rfl
          exact absurd hysg (List.not_mem_nil x)
  · rw [if_neg hc] at hx
    split at hx
    · rcases List.mem_singleton.1 hx with rfl
      exact hsl
    · rcases mem_intercalateChar '/' _ x hx with rfl | ⟨sg, hsg, hysg⟩
      · exact hsl
      · exact hL sg (mem_resolveDots segs sg hsg) x hysg

/-- A base URL suitable for stable normalization: it parses with a
nonempty lowercase relative-and-netloc-capable scheme, a nonempty netloc,
it reserializes to itself, and it carries no semicolon. -/
def goodBase (u : String) : Prop :=
  match urlparseE u.data [] with
  | .ok b => b.scheme ≠ [] ∧ usesRelativeL.contains b.scheme = true
      ∧ usesNetlocL.contains b.scheme = true ∧ b.netloc ≠ []
      ∧ String.mk (urlunparse b) = u
      ∧ (∀ c ∈ u.data, ¬ c = ';')
  | .error _ => False

set_option maxHeartbeats 1000000 in
/-- C3 (amended): URL normalization is not idempotent at the document
level for relative page URLs (see the counterexample), but the per-URL
absolutization that normalize_urls applies to every href and src is
idempotent whenever the page URL is a good base: it parses with a
nonempty lowercase scheme in uses_relative and uses_netloc, has a
nonempty netloc, reserializes to itself, and carries no semicolon.  Then
for every semicolon-free URL value v, joining the base with the already
joined value returns it unchanged: absUrl u (absUrl u v) = absUrl u v,
so a second rewrite assigns the same value to the attribute. -/
theorem urljoin_absorb (u v : String) (hu : goodBase u)
    (hv : ∀ c ∈ v.data, ¬ c = ';') :
    absUrl u (absUrl u v) = absUrl u v := by
  unfold goodBase at hu
  rcases hb : urlparseE u.data [] with e | b
  · rw [hb] at hu
    exact hu.elim
  · rw [hb] at hu
    obtain ⟨hbs, hbrel, hbnetl, hbn, hbrt, husemi⟩ := hu
    have hune : u ≠ "" := by
      intro he
      have hud : u.data = urlunparse b := by rw [← hbrt]
      rw [he] at hud
      exact urlunparse_ne_nil b hbs hud.symm
    obtain ⟨hbsc, hbal, hblo, hbuns⟩ := urlparse_scheme_inv u.data b hb hbs
    obtain ⟨hbn2, hbn3, hbp1, hbpar1, hbq1, hbun, hbup, hbupar, hbuq, hbuf⟩ :=
      urlparse_inv u.data [] b hb
    obtain ⟨hbparams, hbpsemi, _, _, _, _⟩ := urlparse_semifree u.data [] b hb husemi
    rcases hj : urljoinE u v with e | w
    · have ha1 : absUrl u v = v := by unfold absUrl; rw [hj]
      rw [ha1]
      exact ha1
    · have ha1 : absUrl u v = w := by unfold absUrl; rw [hj]
      rw [ha1]
      unfold urljoinE at hj
      rw [if_neg hune] at hj
      by_cases hve : v = ""
      · rw [if_pos hve] at hj
        injection hj with hjw
        subst hjw
        unfold absUrl urljoinE
        rw [if_neg hune, if_neg hune, hb]
        dsimp only
        rw [urlparse_ds_irrel u.data b hb hbs b.scheme]
        dsimp only
        rw [if_neg (by
          simp only [ne_eq, not_true_eq_false, false_or, not_not]
          exact hbrel)]
        rw [if_pos ⟨hbnetl, hbn⟩]
        dsimp only
        exact hbrt
      · rw [if_neg hve, hb] at hj
        dsimp only at hj
        rcases hr : urlparseE v.data b.scheme with er | r
        · rw [hr] at hj
          exact Except.noConfusion hj
        · rw [hr] at hj
          dsimp only at hj
          by_cases hc1 : r.scheme ≠ b.scheme ∨ ¬ usesRelativeL.contains r.scheme = true
          · rw [if_pos hc1] at hj
            injection hj with hjw
            subst hjw
            exact ha1
          · rw [if_neg hc1] at hj
            have hrs : r.scheme = b.scheme := by
              rcases not_or.1 hc1 with ⟨h1, _⟩
              exact not_not.1 h1
            have hrrel : usesRelativeL.contains r.scheme = true := by
              rcases not_or.1 hc1 with ⟨_, h2⟩
              exact not_not.1 h2
            have hin : usesNetlocL.contains r.scheme = true := by
              rw [hrs]
              exact hbnetl
            obtain ⟨hrn2, hrn3, hrp1, hrpar1, hrq1, hrun, hrup, hrupar, hruq, hruf⟩ :=
              urlparse_inv v.data b.scheme r hr
            obtain ⟨hrparams, hrpsemi, _, _, _, _⟩ :=
              urlparse_semifree v.data b.scheme r hr hv
            by_cases hc2 : usesNetlocL.contains r.scheme = true ∧ r.netloc ≠ []
            · rw [if_pos hc2] at hj
              injection hj with hjw
              subst hjw
              unfold absUrl
              rw [urljoin_abs_helper u b r hb hune hbs hbrel hbnetl hbsc hbal hblo
                hrs hc2.2 hrn2 hrn3 hrp1 hrpsemi hrq1 hrparams hrun hrup hruq hruf]
            · rw [if_neg hc2] at hj
              rw [if_pos hin] at hj
              by_cases hc3 : r.path = [] ∧ r.params = []
              · rw [if_pos hc3] at hj
                injection hj with hjw
                subst hjw
                unfold absUrl
                rw [urljoin_abs_helper u b
                  { scheme := r.scheme, netloc := b.netloc, path := b.path,
                    params := b.params,
                    query := if r.query = [] then b.query else r.query,
                    fragment := r.fragment }
                  hb hune hbs hbrel hbnetl hbsc hbal hblo
                  hrs hbn hbn2 hbn3 hbp1 hbpsemi
                  (by
                    intro c hc
                    dsimp only at hc
                    split at hc
                    · exact hbq1 c hc
                    · exact hrq1 c hc)
                  hbparams hbun hbup
                  (by
                    intro c hc
                    dsimp only at hc
                    split at hc
                    · exact hbuq c hc
                    · exact hruq c hc)
                  hruf]
              · rw [if_neg hc3] at hj
                injection hj with hjw
                subst hjw
                unfold absUrl
                set SEGS := (if r.path.take 1 = ['/'] then splitOnChar '/' r.path
                    else filterInner ((if (splitOnChar '/' b.path).getLastD [] ≠ []
                        then (splitOnChar '/' b.path).dropLast
                        else splitOnChar '/' b.path) ++ splitOnChar '/' r.path)) with hSEGS
                have hsegs : ∀ sg ∈ SEGS, ∀ y ∈ sg,
                    ((¬ y = '#' ∧ ¬ y = '?') ∧ ¬ y = ';' ∧ isUnsafeUrlByte y = false) := by
                  rw [hSEGS]
                  exact segments_chars b.path r.path
                    (fun y => (¬ y = '#' ∧ ¬ y = '?') ∧ ¬ y = ';' ∧ isUnsafeUrlByte y = false)
                    (fun c hc => ⟨hbp1 c hc, hbpsemi c hc, hbup c hc⟩)
                    (fun c hc => ⟨hrp1 c hc, hrpsemi c hc, hrup c hc⟩)
                have hPall : ∀ x ∈ (if (intercalateChar '/'
                      (if SEGS.getLastD [] = ['.'] ∨ SEGS.getLastD [] = ['.', '.']
                        then resolveDots SEGS ++ [[]] else resolveDots SEGS)) = []
                    then ['/']
                    else intercalateChar '/'
                      (if SEGS.getLastD [] = ['.'] ∨ SEGS.getLastD [] = ['.', '.']
                        then resolveDots SEGS ++ [[]] else resolveDots SEGS)),
                    ((¬ x = '#' ∧ ¬ x = '?') ∧ ¬ x = ';' ∧ isUnsafeUrlByte x = false) :=
                  path2_chars SEGS _ ⟨⟨by decide, by decide⟩, by decide, by decide⟩ hsegs _
                rw [urljoin_abs_helper u b
                  { scheme := r.scheme, netloc := b.netloc,
                    path := if (intercalateChar '/'
                        (if SEGS.getLastD [] = ['.'] ∨ SEGS.getLastD [] = ['.', '.']
                          then resolveDots SEGS ++ [[]] else resolveDots SEGS)) = []
                      then ['/']
                      else intercalateChar '/'
                        (if SEGS.getLastD [] = ['.'] ∨ SEGS.getLastD [] = ['.', '.']
                          then resolveDots SEGS ++ [[]] else resolveDots SEGS),
                    params := r.params, query := r.query, fragment := r.fragment }
                  hb hune hbs hbrel hbnetl hbsc hbal hblo
                  hrs hbn hbn2 hbn3
                  (fun c hc => (hPall c hc).1)
                  (fun c hc => (hPall c hc).2.1)
                  hrq1 hrparams hbun
                  (fun c hc => (hPall c hc).2.2)
                  hruq hruf]

/-- A document with a single relative link, for the normalization
counterexample. -/
def normDocC : Node :=
  .elem 1 "[document]" []
    (.cons (.elem 2 "body" []
      (.cons (.elem 3 "a" [("href", .s "c")] .nil) .nil)) .nil)

set_option maxRecDepth 40000 in
/-- C3 counterexample: with the relative page URL a/b the href rewrite
compounds: one run turns href c into a/c, a second run turns it into
a/a/c, so the second run is not a no-op. -/
theorem normalize_urls_counterexample :
    ((normalize_urls normDocC "a/b").findAll (isTag "a")).map
        (fun n => getA n.attrs "href") = [some (.s "a/c")]
    ∧ ((normalize_urls (normalize_urls normDocC "a/b") "a/b").findAll
        (isTag "a")).map (fun n => getA n.attrs "href") = [some (.s "a/a/c")] := by
  decide

set_option maxRecDepth 40000 in
theorem urljoin_absorb_witness :
    goodBase "http://h/d/"
    ∧ (∀ c ∈ ("x" : String).data, ¬ c = ';')
    ∧ absUrl "http://h/d/" (absUrl "http://h/d/" "x") = absUrl "http://h/d/" "x" :=
  ⟨⟨by decide, by decide, by decide, by decide, by decide, by decide⟩,
   by decide,
   urljoin_absorb "http://h/d/" "x"
     ⟨by decide, by decide, by decide, by decide, by decide, by decide⟩ (by decide)⟩
